import Mathlib

/-!
# Live video magnification: processing loop and Magnificator

A shallow embedding of `Magnificator.cpp` and `ProcessingThread.cpp`.

* C++ `int` values are `Int`; where the source relies on 32-bit unsigned
  arithmetic (`getOptimalBufferSize`) the wrap-around is written out with
  `% 2 ^ 32`.
* `std::vector<cv::Mat>` buffers are `List`s, front of the vector = head of
  the list.
* Pixel content is not computed: a captured frame is a value of an arbitrary
  type `α`, and a frame produced by a magnification routine is a term of
  `Magnified α` recording which routine produced it, from which input frame
  and through which branch.
* A call whose C++ behaviour is undefined (`front()`/`back()` of an empty
  vector, a write outside an array, a division by zero) or that throws (`at`
  out of range, `cvtColor` on a source with a channel count the conversion
  does not accept) returns `none`.
* Of the content of a frame the model keeps the channel count, which decides
  whether the `cvtColor` calls of the magnification routines throw.  Frames of
  one run are assumed to have one size; the element-wise arithmetic on them is
  not computed.
* Floating-point values are rationals (reals for the square root in the
  Laplacian amplification): the arithmetic is exact.
-/

namespace EVM

/-! ## Machine arithmetic -/

/-- Value of a mathematical integer stored in a 32-bit `int`
(two's-complement wrap-around). -/
def wrapInt32 (x : Int) : Int := (x + 2 ^ 31) % 2 ^ 32 - 2 ^ 31

/-- Value of a mathematical integer converted to a 32-bit `unsigned int`. -/
def toUInt32 (x : Int) : Nat := (x % 2 ^ 32).toNat

/-- C++ `x / 2` on `int`: the quotient is truncated towards zero. -/
def divTrunc2 (x : Int) : Int := if 0 ≤ x then x / 2 else -((-x) / 2)

/-! ## Pyramid depth -/

/-- `Magnificator::calculateMaxLevels(cv::Size s)`, with `s.width` and
`s.height` passed separately.  The recursion halves both dimensions
(`(1 + x) / 2`) while both exceed 5 and counts the calls that passed the
test.  `1 + s.width` is an `int` addition; it is exact for
`s.width < 2 ^ 31 - 1`. -/
def calculateMaxLevels (width height : Int) : Int :=
  if 5 < width ∧ 5 < height then
    1 + calculateMaxLevels (divTrunc2 (wrapInt32 (1 + width)))
      (divTrunc2 (wrapInt32 (1 + height)))
  else 0
termination_by width.toNat
decreasing_by
  simp only [divTrunc2, wrapInt32]
  split <;> omega

/-- The half step `x ↦ ⌈x / 2⌉` in the words of the specification. -/
def ceilHalf (x : Int) : Int := ⌈(x : ℚ) / 2⌉

/-! ## Color-mode window length -/

/-- The five `round |= round >> k` statements of `getOptimalBufferSize`, on an
`unsigned int` value (or and right shift never leave the 32-bit range). -/
def smearBits (round : Nat) : Nat :=
  let round := round ||| (round >>> 1)
  let round := round ||| (round >>> 2)
  let round := round ||| (round >>> 4)
  let round := round ||| (round >>> 8)
  round ||| (round >>> 16)

/-- `Magnificator::getOptimalBufferSize(int fps)`: `max(2*fps, 16)` is computed
on `int`, converted to `unsigned int`, decremented, bit-smeared, incremented
(all modulo `2 ^ 32`) and returned as `int`. -/
def getOptimalBufferSize (fps : Int) : Int :=
  let round : Nat := toUInt32 (max (wrapInt32 (2 * fps)) 16)
  let round : Nat := (round + (2 ^ 32 - 1)) % 2 ^ 32
  let round : Nat := smearBits round
  let round : Nat := (round + 1) % 2 ^ 32
  wrapInt32 (round : Int)

/-! ## Data model -/

/-- Modelled from the spec: `struct ImageProcessingFlags` is declared in a
header that is not among the sources; the fields are the ones
`ProcessingThread::updateImageProcessingFlags` copies. -/
structure ImageProcessingFlags where
  grayscaleOn : Bool
  colorMagnifyOn : Bool
  laplaceMagnifyOn : Bool
  rieszMagnifyOn : Bool
deriving DecidableEq, Repr

/-- Modelled from the spec: `struct ImageProcessingSettings` is declared in a
header that is not among the sources; the fields are the ones the two source
files read and write.  Floating-point fields are rationals: the code modelled
here only copies and compares them. -/
structure ImageProcessingSettings where
  amplification : ℚ
  MagnifiedOrContours : Bool
  CSV : Bool
  coWavelength : ℚ
  coLow : ℚ
  coHigh : ℚ
  chromAttenuation : ℚ
  framerate : ℚ
  levels : Int
deriving DecidableEq, Repr

/-- A rectangle `(x, y, width, height)`: the `QRect` passed to `setROI` and the
`cv::Rect currentROI` it is copied into. -/
structure Rect where
  x : Int
  y : Int
  width : Int
  height : Int
deriving DecidableEq, Repr

/-- A frame appended to `magnifiedBuffer`, as a term: the routine that produced
it, the input frame it was computed from, and the branch taken.

* `color input column`: `inputFrames.front() + color`, where `color` is rebuilt
  from column `column` of the filtered matrix, rescaled to 8 bit;
* `laplace input motionAdded`: `input + motion` when `currentFrame > 0` held in
  the iteration (`motionAdded = true`), otherwise `input` itself;
* `riesz input collapsed`: the collapsed pyramid when `currentFrame > 0` held,
  otherwise `input` itself. -/
inductive Magnified (α : Type) where
  | color (input : α) (column : Int)
  | laplace (input : α) (motionAdded : Bool)
  | riesz (input : α) (collapsed : Bool)
deriving DecidableEq, Repr

/-- The input frame a magnified frame was computed from. -/
def Magnified.input {α : Type} : Magnified α → α
  | .color a _ => a
  | .laplace a _ => a
  | .riesz a _ => a

/-- What OpenCV reports about the captured frames: `channels frame` is
`frame.channels()` for a frame in the processing buffer, and
`analyze prevFrame input` is the breath scalar the contour analysis of
`laplaceMagnify` (lines 303-411) computes from the previous frame and the
current one. -/
structure Vision (α : Type) where
  channels : α → Int
  analyze : Option α → α → Int

/-- State of a `Magnificator`.  `processingBuffer`, `imgProcFlags` and
`imgProcSettings` are the objects behind the three pointers the constructor
receives (they belong to the owning `ProcessingThread`, which reads and writes
them through this record).  Pyramid levels are represented by the frame that
seeded them and their index; the columns of `downSampledMat` by the frame each
was computed from; a Riesz pyramid by the frame it was last built from and a
temporal filter by its `itsFrequency`.  `prevFrameChannels` is
`prevFrame.channels()` while `prevFrame` holds a frame, and `motionChannels` is
the channel count of the matrices in `motionPyramid` (that of the converted
frame that seeded the pyramid) while the pyramid is not empty.  `appended` and
`appendedFrames` are
ghost fields: the number of `magnifiedBuffer.push_back` calls executed so far
and the frames they appended, oldest first (no member function reads or
resets them).  The members
`lambda`, `delta` and `exaggeration_factor` (floating point, used only inside
`amplifyLaplacian`), the unused `numFrames` pointer and the file-scope
variables `prevAvgContoursSum` and `first` (written or tested, never used to
decide what is appended) are not represented. -/
structure Magnificator (α : Type) where
  processingBuffer : List α
  imgProcFlags : ImageProcessingFlags
  imgProcSettings : ImageProcessingSettings
  currentFrame : Int
  levels : Int
  breathMeasureOutput : Int
  magnifiedBuffer : List (Magnified α)
  lowpassHi : List (α × Nat)
  lowpassLo : List (α × Nat)
  motionPyramid : List (α × Nat)
  downSampledMat : List α
  prevFrame : Option α
  prevFrameChannels : Int
  motionChannels : Int
  curPyr : Option α
  oldPyr : Option α
  loCutoff : Option ℚ
  hiCutoff : Option ℚ
  appended : Nat
  appendedFrames : List (Magnified α)
deriving DecidableEq, Repr

/-- The frame held in `ProcessingThread::currentFrame` when an iteration of
`run` publishes it: the captured frame, or a frame taken from the magnified
buffer. -/
inductive Shown (α : Type) where
  | original (frame : α)
  | magnified (frame : Magnified α)
deriving DecidableEq, Repr

/-- The input-frame of a published frame, when it came from the magnified
buffer. -/
def Shown.magnifiedInput {α : Type} : Shown α → Option α
  | .original _ => none
  | .magnified m => some m.input

/-- The member `breathValues` of `ProcessingThread`, an array of three
elements; every value stored in it is the `int temp`. -/
structure BreathValues where
  v0 : Int
  v1 : Int
  v2 : Int
deriving DecidableEq, Repr

/-- State of a `ProcessingThread`: the members `run`, the reconfiguration slots
and `setROI` read and write.  The processing input queue, the flags and the
settings are reached through `magnificator` (see `Magnificator`).
`currentFrame` is `none` for the empty `cv::Mat` of a fresh thread.
`prevSumm` holds the previous smoothed breath value; its declaration is in a
header that is not among the sources, and the conversion applied when it is
assigned is a parameter of `breathWindow`. -/
structure ProcessingThread (α : Type) where
  magnificator : Magnificator α
  currentROI : Rect
  currentFrame : Option (Shown α)
  frameNum : Int
  prevFrameNum : Int
  breathValues : BreathValues
  prevSumm : ℚ
  processingBufferLength : Int
deriving DecidableEq, Repr

/-! ## Magnificator -/

/-- `Magnificator::Magnificator`: cursor 0, `levels = 4`,
`breathMeasureOutput = 0`, every container empty.  The arguments are the
objects the three pointers refer to. -/
def Magnificator.init {α : Type} (pBuffer : List α) (imageProcFlags : ImageProcessingFlags)
    (imageProcSettings : ImageProcessingSettings) : Magnificator α where
  processingBuffer := pBuffer
  imgProcFlags := imageProcFlags
  imgProcSettings := imageProcSettings
  currentFrame := 0
  levels := 4
  breathMeasureOutput := 0
  magnifiedBuffer := []
  lowpassHi := []
  lowpassLo := []
  motionPyramid := []
  downSampledMat := []
  prevFrame := none
  prevFrameChannels := 0
  motionChannels := 0
  curPyr := none
  oldPyr := none
  loCutoff := none
  hiCutoff := none
  appended := 0
  appendedFrames := []

/-- `Magnificator::clearBuffer`. -/
def clearBuffer {α : Type} (m : Magnificator α) : Magnificator α :=
  { m with
    magnifiedBuffer := []
    lowpassHi := []
    lowpassLo := []
    motionPyramid := []
    downSampledMat := []
    currentFrame := 0
    oldPyr := none
    curPyr := none
    loCutoff := none
    hiCutoff := none }

/-- `Magnificator::getFrameLast`: a copy of `magnifiedBuffer.back()`, then
`erase(begin())` and `currentFrame = magnifiedBuffer.size()`.  `none` on an
empty buffer, where `back()` is undefined. -/
def getFrameLast {α : Type} (m : Magnificator α) : Option (Magnified α × Magnificator α) :=
  match m.magnifiedBuffer.getLast? with
  | none => none
  | some img =>
    some (img, { m with
      magnifiedBuffer := m.magnifiedBuffer.tail
      currentFrame := (m.magnifiedBuffer.tail.length : Int) })

/-- `Magnificator::getFrameFirst`: a copy of `magnifiedBuffer.front()`, then
`erase(begin())` and `currentFrame = magnifiedBuffer.size()`.  `none` on an
empty buffer, where `front()` is undefined. -/
def getFrameFirst {α : Type} (m : Magnificator α) : Option (Magnified α × Magnificator α) :=
  match m.magnifiedBuffer.head? with
  | none => none
  | some img =>
    some (img, { m with
      magnifiedBuffer := m.magnifiedBuffer.tail
      currentFrame := (m.magnifiedBuffer.tail.length : Int) })

/-- `Magnificator::getFrameAt(int n)`.  For `n < mLength - 1` the frame is read
with `magnifiedBuffer.at(n)` (which throws for an index outside the vector, in
particular for negative `n`: `none`) and nothing is erased; otherwise the
result is `getFrameLast()`.  In both branches the cursor is then set to the
buffer size. -/
def getFrameAt {α : Type} (m : Magnificator α) (n : Int) :
    Option (Magnified α × Magnificator α) :=
  let mLength : Int := m.magnifiedBuffer.length
  if n < mLength - 1 then
    if n < 0 then none
    else
      match m.magnifiedBuffer.get? n.toNat with
      | none => none
      | some img => some (img, { m with currentFrame := (m.magnifiedBuffer.length : Int) })
  else
    match getFrameLast m with
    | none => none
    | some (img, m') => some (img, { m' with currentFrame := (m'.magnifiedBuffer.length : Int) })

/-- `Magnificator::hasFrame`. -/
def hasFrame {α : Type} (m : Magnificator α) : Bool := !m.magnifiedBuffer.isEmpty

/-- `Magnificator::getBufferSize`. -/
def getBufferSize {α : Type} (m : Magnificator α) : Int := m.magnifiedBuffer.length

/-- C++ conversion of a floating-point value to `int` (truncation towards
zero), as applied to `imgProcSettings->framerate` in the call
`getOptimalBufferSize(imgProcSettings->framerate)`; exact while the truncated
value fits an `int`. -/
def truncToInt (q : ℚ) : Int := if 0 ≤ q then ⌊q⌋ else ⌈q⌉

/-- Modelled from the spec: `img2tempMat` is not among the sources.  The frame
is appended as the next column of `downSampledMat`, and the oldest column is
evicted when the width exceeds `maxCols`. -/
def img2tempMat {α : Type} (frame : α) (downSampledMat : List α) (maxCols : Int) : List α :=
  let cols := downSampledMat ++ [frame]
  if maxCols < (cols.length : Int) then cols.tail else cols

/-- Modelled from the spec: `buildLaplacePyrFromImg` is not among the sources.
The pyramid of a frame at depth `levels` is a sequence of `levels + 1`
matrices. -/
def buildLaplacePyrFromImg {α : Type} (input : α) (levels : Int) : List (α × Nat) :=
  (List.range (levels.toNat + 1)).map fun i => (input, i)

/-- Modelled from the spec: `buildGaussPyrFromImg` is not among the sources.
Level 0 of a Gaussian pyramid is the frame itself and level `i + 1` is level
`i` filtered and decimated; the vector filled for depth `levels` holds the
levels `1 .. levels`, so that its element `levels - 1` is level `levels`, the
one `colorMagnify` flattens into a column. -/
def buildGaussPyrFromImg {α : Type} (input : α) (levels : Int) : List (α × Nat) :=
  (List.range levels.toNat).map fun i => (input, i + 1)

/-- `v.at(i)` for an `int` index `i`: the element at that index, and `none`
where `at` throws `std::out_of_range` (an index outside the vector; a negative
index converts to a `size_t` beyond every size). -/
def vectorAt {β : Type} (v : List β) (i : Int) : Option β :=
  if i < 0 then none else v.get? i.toNat

/-- Whether `v.at(i)` returns for every index `0 ≤ i < n`: the vector holds at
least `n` elements. -/
def atBelow {β : Type} (v : List β) (n : Int) : Bool := decide (n ≤ (v.length : Int))

/-- Whether `cvtColor` accepts a source with this channel count for a
conversion from BGR (`COLOR_BGR2YCrCb`, `COLOR_BGR2GRAY`): OpenCV requires 3 or
4 channels and throws `cv::Exception` for any other count. -/
def bgrSource (channels : Int) : Bool := decide (channels = 3 ∨ channels = 4)

/-- The test `imgProcFlags->grayscaleOn || pChannels <= 2` with which the three
routines select single-channel processing. -/
def grayscalePath (flags : ImageProcessingFlags) (pChannels : Int) : Bool :=
  flags.grayscaleOn || decide (pChannels ≤ 2)

/-! ### Color magnification -/

/-- Loop state of `colorMagnify`: the Magnificator, the local vector
`inputFrames` and the local counter `offset`. -/
structure ColorLoop (α : Type) where
  mag : Magnificator α
  inputFrames : List α
  offset : Int

/-- Body of the `while` loop of `colorMagnify`: take and erase the front of the
processing buffer, save it in `inputFrames`, build its Gaussian pyramid, append
the pyramid's element `levels - 1` to `downSampledMat` (a column, represented
by the frame it was computed from), and increment `currentFrame` and `offset`.
`none` when the processing buffer is empty (`front()` undefined) and when
`inputPyramid.at(levels-1)` throws, which it does for `levels ≤ 0`. -/
def colorMagnifyBody {α : Type} (c : ColorLoop α) : Option (ColorLoop α) :=
  match c.mag.processingBuffer with
  | [] => none
  | input :: rest =>
    match vectorAt (buildGaussPyrFromImg input c.mag.levels) (c.mag.levels - 1) with
    | none => none
    | some _ =>
      some
        { mag := { c.mag with
            processingBuffer := rest
            downSampledMat := img2tempMat input c.mag.downSampledMat
              (getOptimalBufferSize (truncToInt c.mag.imgProcSettings.framerate))
            currentFrame := c.mag.currentFrame + 1 }
          inputFrames := c.inputFrames ++ [input]
          offset := c.offset + 1 }

/-- The loop `while(currentFrame < pBufferElements)` of `colorMagnify`.  The
first argument bounds the number of iterations; `colorMagnify` passes
`pBufferElements - currentFrame`, the number of iterations after which the
loop test fails. -/
def colorMagnifyLoop {α : Type} (pBufferElements : Int) :
    Nat → ColorLoop α → Option (ColorLoop α)
  | 0, c => some c
  | n + 1, c =>
    if c.mag.currentFrame < pBufferElements then
      (colorMagnifyBody c).bind (colorMagnifyLoop pBufferElements n)
    else some c

/-- The loop `for (int i = currentFrame-offset; i < currentFrame; ++i)` of
`colorMagnify`: the output for `inputFrames.front()` and column `i` is appended
to `magnifiedBuffer` and the front of `inputFrames` is erased.  The first
argument bounds the number of iterations (`colorMagnify` passes `offset`). -/
def colorMagnifyEmit {α : Type} :
    Nat → Int → List α → Magnificator α → Option (Magnificator α)
  | 0, _, _, m => some m
  | n + 1, i, inputFrames, m =>
    if i < m.currentFrame then
      match inputFrames with
      | [] => none
      | input :: rest =>
        colorMagnifyEmit n (i + 1) rest
          { m with
            magnifiedBuffer := m.magnifiedBuffer ++ [Magnified.color input i]
            appended := m.appended + 1
            appendedFrames := m.appendedFrames ++ [Magnified.color input i] }
    else some m

/-- `Magnificator::colorMagnify`. -/
def colorMagnify {α : Type} (m : Magnificator α) : Option (Magnificator α) :=
  let pBufferElements : Int := m.processingBuffer.length
  if m.currentFrame ≥ pBufferElements then some m
  else
    let m := { m with levels := m.imgProcSettings.levels }
    match colorMagnifyLoop pBufferElements (pBufferElements - m.currentFrame).toNat
        { mag := m, inputFrames := [], offset := 0 } with
    | none => none
    | some c =>
      colorMagnifyEmit c.offset.toNat (c.mag.currentFrame - c.offset) c.inputFrames c.mag

/-! ### Laplacian magnification -/

/-- Whether an iteration of the loop of `laplaceMagnify` throws, for the state
`m` at the start of the iteration and the frame `input` at the front of the
processing buffer.  With `pChannels = input.channels()`:

* line 221: in color processing (`grayscalePath` false),
  `cvtColor(input, input, COLOR_BGR2YCrCb)` needs a BGR source; the converted
  input has 3 channels in color processing and `pChannels` channels otherwise;
* lines 237 and 256, when `currentFrame != 0`: `at(curLevel)` on the input
  pyramid and on the three stored pyramids for `0 ≤ curLevel < levels`, then on
  `motionPyramid` for `curLevel = levels, ..., 0`;
* line 272, when `currentFrame > 0`: `input + motion` needs `motion`, collapsed
  from `motionPyramid`, to have the channel count of the converted input;
* line 307, when `currentFrame > 0`: `cvtColor(prevFrame, prevFrame,
  COLOR_BGR2GRAY)` needs `prevFrame` to hold a frame with a BGR channel count;
* line 312, when `currentFrame > 0`: `cvtColor(temp, newestMotion,
  COLOR_BGR2GRAY)` needs a BGR source, where `temp` is the motion image
  converted to 8 bit: 3 channels after `COLOR_YCrCb2BGR` in color processing,
  the channels of `motion` otherwise.

The conversions `COLOR_YCrCb2BGR` of lines 285 and 294 receive 3 channels
whenever the statements before them returned, and `COLOR_GRAY2BGR` of line 333
receives the single-channel threshold image. -/
def laplaceMagnifyThrows {α : Type} (cv : Vision α) (m : Magnificator α) (input : α) : Bool :=
  let pChannels : Int := cv.channels input
  let gray : Bool := grayscalePath m.imgProcFlags pChannels
  let inputChannels : Int := if gray then pChannels else 3
  let tempChannels : Int := if gray then m.motionChannels else 3
  let inputPyramid := buildLaplacePyrFromImg input m.levels
  (!gray && !bgrSource pChannels) ||
    (decide (m.currentFrame ≠ 0) &&
      !(atBelow inputPyramid m.levels && atBelow m.motionPyramid m.levels &&
        atBelow m.lowpassHi m.levels && atBelow m.lowpassLo m.levels &&
        atBelow m.motionPyramid (m.levels + 1))) ||
    (decide (0 < m.currentFrame) &&
      (decide (m.motionChannels ≠ inputChannels) || m.prevFrame.isNone ||
        !bgrSource m.prevFrameChannels || !bgrSource tempChannels))

/-- The state after an iteration of the loop of `laplaceMagnify` that did not
throw, for the frame `input` at the front of the processing buffer and the
frames `rest` behind it.  `cv.analyze prevFrame input` stands for the scalar
the contour analysis (lines 303-411) computes from the previous frame and the
current frame.

The front of the processing buffer is erased only when `currentFrame != 0`.
When `currentFrame == 0` the raw input is saved as `prevFrame` and the three
pyramids are seeded from the input pyramid; when `currentFrame > 0` the breath
scalar is stored and `prevFrame` is replaced by the converted input.  The
output is appended and the cursor incremented. -/
def laplaceMagnifyStep {α : Type} (cv : Vision α) (m : Magnificator α) (input : α)
    (rest : List α) : Magnificator α :=
  let pChannels : Int := cv.channels input
  let inputChannels : Int := if grayscalePath m.imgProcFlags pChannels then pChannels else 3
  let m1 : Magnificator α :=
    if m.currentFrame = 0 then
      { m with prevFrame := some input, prevFrameChannels := pChannels }
    else { m with processingBuffer := rest }
  let inputPyramid := buildLaplacePyrFromImg input m1.levels
  let m2 : Magnificator α :=
    if m1.currentFrame = 0 then
      { m1 with
        lowpassHi := inputPyramid
        lowpassLo := inputPyramid
        motionPyramid := inputPyramid
        motionChannels := inputChannels }
    else m1
  let m3 : Magnificator α :=
    if 0 < m2.currentFrame then
      { m2 with
        breathMeasureOutput := cv.analyze m2.prevFrame input
        prevFrame := some input
        prevFrameChannels := inputChannels }
    else m2
  { m3 with
    magnifiedBuffer := m3.magnifiedBuffer ++ [Magnified.laplace input (decide (0 < m3.currentFrame))]
    appended := m3.appended + 1
    appendedFrames :=
      m3.appendedFrames ++ [Magnified.laplace input (decide (0 < m3.currentFrame))]
    currentFrame := m3.currentFrame + 1 }

/-- Body of the `while` loop of `laplaceMagnify`: `none` when the processing
buffer is empty (`front()` undefined) and when a statement of the iteration
throws, otherwise the state after the iteration. -/
def laplaceMagnifyBody {α : Type} (cv : Vision α) (m : Magnificator α) :
    Option (Magnificator α) :=
  match m.processingBuffer with
  | [] => none
  | input :: rest =>
    if laplaceMagnifyThrows cv m input then none
    else some (laplaceMagnifyStep cv m input rest)

/-- The loop `while(currentFrame < pBufferElements)` of `laplaceMagnify`; the
first argument bounds the number of iterations. -/
def laplaceMagnifyLoop {α : Type} (cv : Vision α) (pBufferElements : Int) :
    Nat → Magnificator α → Option (Magnificator α)
  | 0, m => some m
  | n + 1, m =>
    if m.currentFrame < pBufferElements then
      (laplaceMagnifyBody cv m).bind (laplaceMagnifyLoop cv pBufferElements n)
    else some m

/-- `Magnificator::laplaceMagnify`. -/
def laplaceMagnify {α : Type} (cv : Vision α) (m : Magnificator α) :
    Option (Magnificator α) :=
  let pBufferElements : Int := m.processingBuffer.length
  if m.currentFrame ≥ pBufferElements then some m
  else
    laplaceMagnifyLoop cv pBufferElements (pBufferElements - m.currentFrame).toNat
      { m with levels := m.imgProcSettings.levels }

/-! ### Riesz magnification -/

/-- Body of the `while` loop of `rieszMagnify`.  The front of the processing
buffer is read and erased only when `currentFrame > 0`.  In color processing
(`grayscalePath` false) `cvtColor(buffer_in, buffer_in, COLOR_BGR2YCrCb)`
(line 466) needs a BGR source.  When one of the four pointers is null,
pyramids and filters are created from the input and the current cutoffs;
otherwise the filter frequencies follow the settings and both pyramids end up
built from the input.  `none` when the processing buffer is empty and when the
conversion throws. -/
def rieszMagnifyBody {α : Type} (cv : Vision α) (m : Magnificator α) :
    Option (Magnificator α) :=
  match m.processingBuffer with
  | [] => none
  | input :: rest =>
    if !grayscalePath m.imgProcFlags (cv.channels input) && !bgrSource (cv.channels input) then
      none
    else
      let m1 : Magnificator α :=
        if 0 < m.currentFrame then { m with processingBuffer := rest } else m
      let m2 : Magnificator α :=
        { m1 with
          curPyr := some input
          oldPyr := some input
          loCutoff := some m1.imgProcSettings.coLow
          hiCutoff := some m1.imgProcSettings.coHigh }
      some { m2 with
        magnifiedBuffer :=
          m2.magnifiedBuffer ++ [Magnified.riesz input (decide (0 < m2.currentFrame))]
        appended := m2.appended + 1
        appendedFrames :=
          m2.appendedFrames ++ [Magnified.riesz input (decide (0 < m2.currentFrame))]
        currentFrame := m2.currentFrame + 1 }

/-- The loop `while(currentFrame < pBufferElements)` of `rieszMagnify`; the
first argument bounds the number of iterations. -/
def rieszMagnifyLoop {α : Type} (cv : Vision α) (pBufferElements : Int) :
    Nat → Magnificator α → Option (Magnificator α)
  | 0, m => some m
  | n + 1, m =>
    if m.currentFrame < pBufferElements then
      (rieszMagnifyBody cv m).bind (rieszMagnifyLoop cv pBufferElements n)
    else some m

/-- `Magnificator::rieszMagnify`. -/
def rieszMagnify {α : Type} (cv : Vision α) (m : Magnificator α) :
    Option (Magnificator α) :=
  let pBufferElements : Int := m.processingBuffer.length
  if m.currentFrame ≥ pBufferElements then some m
  else
    rieszMagnifyLoop cv pBufferElements (pBufferElements - m.currentFrame).toNat
      { m with levels := m.imgProcSettings.levels }

/-! ## Processing thread -/

/-- `ProcessingThread::ProcessingThread`: `frameNum = prevFrameNum = 0`,
`prevSumm = 0`, `processingBufferLength = 2`, an empty processing buffer and a
fresh Magnificator.  Flags, settings and region of interest are not
initialised by the constructor and are arguments here; neither is
`breathValues` (the statement `breathValues[3];` assigns nothing), whose
indeterminate content is represented by zeros. -/
def ProcessingThread.init {α : Type} (flags : ImageProcessingFlags)
    (settings : ImageProcessingSettings) (roi : Rect) : ProcessingThread α where
  magnificator := Magnificator.init [] flags settings
  currentROI := roi
  currentFrame := none
  frameNum := 0
  prevFrameNum := 0
  breathValues := { v0 := 0, v1 := 0, v2 := 0 }
  prevSumm := 0
  processingBufferLength := 2

/-- `ProcessingThread::fillProcessingBuffer`, with the current frame as
argument. -/
def fillProcessingBuffer {α : Type} (t : ProcessingThread α) (frame : α) :
    ProcessingThread α :=
  { t with
    magnificator := { t.magnificator with
      processingBuffer := t.magnificator.processingBuffer ++ [frame] } }

/-- `ProcessingThread::processingBufferFilled`. -/
def processingBufferFilled {α : Type} (t : ProcessingThread α) : Bool :=
  decide ((t.magnificator.processingBuffer.length : Int) = t.processingBufferLength) &&
    decide (0 < t.magnificator.processingBuffer.length)

/-- After a magnification routine: `currentFrame = magnificator.getFrameLast();
frameNum++`.  (`frameNum` is an `int`; the increment is exact below
`2 ^ 31 - 1` frames.) -/
def takeMagnified {α : Type} (t : ProcessingThread α) (m : Option (Magnificator α)) :
    Option (ProcessingThread α) :=
  match m with
  | none => none
  | some m =>
    match getFrameLast m with
    | none => none
    | some (img, m') =>
      some { t with
        magnificator := m'
        currentFrame := some (Shown.magnified img)
        frameNum := t.frameNum + 1 }

/-- The image-processing block of one iteration of `ProcessingThread::run`
(between `processingMutex.lock()` and the conversion to `QImage`).  `frame` is
the value of `currentFrame` when `fillProcessingBuffer` is called: the captured
frame cropped to the region of interest and, when `grayscaleOn` is set and it
has 3 or 4 channels, converted to a single channel (lines 152-161).  The frame
becomes
`currentFrame`, is pushed on the processing buffer, and when the buffer is
filled the enabled routine runs (color before Laplace before Riesz) and the
last magnified frame replaces `currentFrame`; with no routine enabled the front
of the buffer is erased and both frame counters are reset.  Recording,
signals and the statistics update that follow the block (`updateFPS` may
overwrite `imgProcSettings.framerate`) touch neither queue nor the cursor and
are not part of this function; the breath bookkeeping that ends the iteration
is `breathWindow`. -/
def processFrame {α : Type} (cv : Vision α) (t : ProcessingThread α)
    (frame : α) : Option (ProcessingThread α) :=
  let t := { t with currentFrame := some (Shown.original frame) }
  let t := fillProcessingBuffer t frame
  if processingBufferFilled t then
    if t.magnificator.imgProcFlags.colorMagnifyOn then
      takeMagnified t (colorMagnify t.magnificator)
    else if t.magnificator.imgProcFlags.laplaceMagnifyOn then
      takeMagnified t (laplaceMagnify cv t.magnificator)
    else if t.magnificator.imgProcFlags.rieszMagnifyOn then
      takeMagnified t (rieszMagnify cv t.magnificator)
    else
      some { t with
        magnificator := { t.magnificator with
          processingBuffer := t.magnificator.processingBuffer.tail }
        frameNum := 0
        prevFrameNum := 0 }
  else some t

/-- Successive iterations of `run` on the captured frames, in arrival order:
the final state and the frames published, one per iteration (the value of
`currentFrame` at the end of the image-processing block). -/
def processFrames {α : Type} (cv : Vision α) :
    ProcessingThread α → List α → Option (ProcessingThread α × List (Shown α))
  | t, [] => some (t, [])
  | t, frame :: frames =>
    match processFrame cv t frame with
    | none => none
    | some t' =>
      match processFrames cv t' frames with
      | none => none
      | some (t'', out) => some (t'', t'.currentFrame.toList ++ out)

/-- `ProcessingThread::updateImageProcessingFlags`. -/
def updateImageProcessingFlags {α : Type} (t : ProcessingThread α)
    (imageProcessingFlags : ImageProcessingFlags) : ProcessingThread α :=
  { t with
    magnificator := clearBuffer { t.magnificator with
      imgProcFlags :=
        { grayscaleOn := imageProcessingFlags.grayscaleOn
          colorMagnifyOn := imageProcessingFlags.colorMagnifyOn
          laplaceMagnifyOn := imageProcessingFlags.laplaceMagnifyOn
          rieszMagnifyOn := imageProcessingFlags.rieszMagnifyOn }
      processingBuffer := [] } }

/-- `ProcessingThread::updateImageProcessingSettings`: seven fields are
copied, both buffers are cleared when the requested `levels` differs from the
current one, then `levels` is copied.  `framerate` is not assigned. -/
def updateImageProcessingSettings {α : Type} (t : ProcessingThread α)
    (imgProcessingSettings : ImageProcessingSettings) : ProcessingThread α :=
  let s : ImageProcessingSettings :=
    { t.magnificator.imgProcSettings with
      amplification := imgProcessingSettings.amplification
      MagnifiedOrContours := imgProcessingSettings.MagnifiedOrContours
      CSV := imgProcessingSettings.CSV
      coWavelength := imgProcessingSettings.coWavelength
      coLow := imgProcessingSettings.coLow
      coHigh := imgProcessingSettings.coHigh
      chromAttenuation := imgProcessingSettings.chromAttenuation }
  let m : Magnificator α := { t.magnificator with imgProcSettings := s }
  let m : Magnificator α :=
    if s.levels ≠ imgProcessingSettings.levels then
      clearBuffer { m with processingBuffer := [] }
    else m
  { t with
    magnificator := { m with
      imgProcSettings := { m.imgProcSettings with levels := imgProcessingSettings.levels } } }

/-- `ProcessingThread::setROI`: the rectangle is copied into `currentROI`, both
buffers are cleared, and `calculateMaxLevels(roi)` is emitted (second
component). -/
def setROI {α : Type} (t : ProcessingThread α) (roi : Rect) : ProcessingThread α × Int :=
  ({ t with
      currentROI := { x := roi.x, y := roi.y, width := roi.width, height := roi.height }
      magnificator := clearBuffer { t.magnificator with processingBuffer := [] } },
    calculateMaxLevels roi.width roi.height)

/-- `ProcessingThread::updateFramerate`. -/
def updateFramerate {α : Type} (t : ProcessingThread α) (fps : ℚ) : ProcessingThread α :=
  { t with
    magnificator := { t.magnificator with
      imgProcSettings := { t.magnificator.imgProcSettings with framerate := fps } } }

/-! ## Reachable Magnificator states -/

/-- One operation on a Magnificator: a public member function that returns
normally, or a write by the owning thread through the shared pointers (a frame
pushed on the processing buffer, new flags or settings). -/
inductive MagnificatorStep {α : Type} (cv : Vision α) :
    Magnificator α → Magnificator α → Prop where
  | push (m : Magnificator α) (frame : α) :
      MagnificatorStep cv m { m with processingBuffer := m.processingBuffer ++ [frame] }
  | configure (m : Magnificator α) (flags : ImageProcessingFlags)
      (settings : ImageProcessingSettings) :
      MagnificatorStep cv m { m with imgProcFlags := flags, imgProcSettings := settings }
  | color (m m' : Magnificator α) (h : colorMagnify m = some m') :
      MagnificatorStep cv m m'
  | laplace (m m' : Magnificator α) (h : laplaceMagnify cv m = some m') :
      MagnificatorStep cv m m'
  | riesz (m m' : Magnificator α) (h : rieszMagnify cv m = some m') :
      MagnificatorStep cv m m'
  | first (m m' : Magnificator α) (img : Magnified α)
      (h : getFrameFirst m = some (img, m')) : MagnificatorStep cv m m'
  | last (m m' : Magnificator α) (img : Magnified α)
      (h : getFrameLast m = some (img, m')) : MagnificatorStep cv m m'
  | atIndex (m m' : Magnificator α) (n : Int) (img : Magnified α)
      (h : getFrameAt m n = some (img, m')) : MagnificatorStep cv m m'
  | clear (m : Magnificator α) : MagnificatorStep cv m (clearBuffer m)

/-- States reachable from a freshly constructed Magnificator by any sequence of
operations. -/
inductive MagnificatorReachable {α : Type} (cv : Vision α) :
    Magnificator α → Prop where
  | init (pBuffer : List α) (flags : ImageProcessingFlags)
      (settings : ImageProcessingSettings) :
      MagnificatorReachable cv (Magnificator.init pBuffer flags settings)
  | step (m m' : Magnificator α) (hm : MagnificatorReachable cv m)
      (h : MagnificatorStep cv m m') : MagnificatorReachable cv m'

/-! ## Sample configurations -/

/-- Flags with only Laplacian magnification enabled. -/
def laplaceFlags : ImageProcessingFlags :=
  { grayscaleOn := false, colorMagnifyOn := false, laplaceMagnifyOn := true,
    rieszMagnifyOn := false }

/-- Flags with only color magnification enabled. -/
def colorFlags : ImageProcessingFlags :=
  { grayscaleOn := false, colorMagnifyOn := true, laplaceMagnifyOn := false,
    rieszMagnifyOn := false }

/-- Settings of the Laplacian scenario of the specification: four levels,
amplification 10, cutoffs 0.4 and 3.0, wavelength 16, 30 frames per second. -/
def sampleSettings : ImageProcessingSettings :=
  { amplification := 10, MagnifiedOrContours := false, CSV := false, coWavelength := 16,
    coLow := 2 / 5, coHigh := 3, chromAttenuation := 1 / 10, framerate := 30, levels := 4 }

/-- A 64 x 64 region of interest at the origin. -/
def sampleROI : Rect := { x := 0, y := 0, width := 64, height := 64 }

/-- A stream of three-channel (BGR) frames on which the contour analysis
reports 0. -/
def bgrStream {α : Type} : Vision α := { channels := fun _ => 3, analyze := fun _ _ => 0 }

/-- A stream of single-channel frames, as `run` pushes them when `grayscaleOn`
is set, on which the contour analysis reports 0. -/
def grayStream {α : Type} : Vision α := { channels := fun _ => 1, analyze := fun _ _ => 0 }

/-- Flags with Laplacian magnification and grayscale conversion enabled. -/
def grayLaplaceFlags : ImageProcessingFlags :=
  { grayscaleOn := true, colorMagnifyOn := false, laplaceMagnifyOn := true,
    rieszMagnifyOn := false }

/-- Whether one of the three magnification routines is enabled. -/
def ImageProcessingFlags.magnifyOn (flags : ImageProcessingFlags) : Bool :=
  flags.colorMagnifyOn || flags.laplaceMagnifyOn || flags.rieszMagnifyOn

/-- A freshly constructed thread on frames identified by a number, in Laplacian
mode. -/
def sampleThread : ProcessingThread Nat :=
  ProcessingThread.init laplaceFlags sampleSettings sampleROI

/-- A settings request that violates two preconditions: `coLow = 3` is not
below `coHigh = 1`, and `levels = 9` exceeds the 4 levels a 64 x 64 region
allows. -/
def invalidSettings : ImageProcessingSettings :=
  { sampleSettings with coLow := 3, coHigh := 1, levels := 9 }

/-- A 2 x 2 rectangle, smaller than 5 x 5. -/
def tinyROI : Rect := { x := 0, y := 0, width := 2, height := 2 }

/-! ## Invariants and loop phases -/

/-- The cursor invariant: the cursor is at most the current length of the
magnified buffer, which is at most the number of frames ever appended. -/
def CursorBounded {α : Type} (m : Magnificator α) : Prop :=
  m.currentFrame ≤ (m.magnifiedBuffer.length : Int) ∧ m.magnifiedBuffer.length ≤ m.appended

/-- Invariant of the first loop of `colorMagnify`: `offset` counts the saved
input frames, and the cursor has run ahead of the magnified buffer by at most
`offset`. -/
def ColorLoop.Pending {α : Type} (c : ColorLoop α) : Prop :=
  c.offset = (c.inputFrames.length : Int) ∧
    c.mag.currentFrame ≤ (c.mag.magnifiedBuffer.length : Int) + c.offset ∧
    c.mag.magnifiedBuffer.length ≤ c.mag.appended

/-- The state the loop settles in: one frame waiting in the input queue, one
frame retained in the magnified buffer, cursor 1. -/
def Steady {α : Type} (t : ProcessingThread α) (a : α) : Prop :=
  t.magnificator.processingBuffer = [a] ∧ (∃ x, t.magnificator.magnifiedBuffer = [x]) ∧
    t.magnificator.currentFrame = 1 ∧ t.processingBufferLength = 2 ∧
    t.magnificator.imgProcFlags.magnifyOn = true

/-- Both queues empty, cursor 0, configured length 2, a routine enabled. -/
def Fresh {α : Type} (t : ProcessingThread α) : Prop :=
  t.magnificator.processingBuffer = [] ∧ t.magnificator.magnifiedBuffer = [] ∧
    t.magnificator.currentFrame = 0 ∧ t.processingBufferLength = 2 ∧
    t.magnificator.imgProcFlags.magnifyOn = true

/-- One frame waiting, nothing magnified yet. -/
def Waiting {α : Type} (t : ProcessingThread α) (a : α) : Prop :=
  t.magnificator.processingBuffer = [a] ∧ t.magnificator.magnifiedBuffer = [] ∧
    t.magnificator.currentFrame = 0 ∧ t.processingBufferLength = 2 ∧
    t.magnificator.imgProcFlags.magnifyOn = true

/-- Color mode after its first round: the input queue is drained, one frame is
retained in the magnified buffer. -/
def Drained {α : Type} (t : ProcessingThread α) : Prop :=
  t.magnificator.processingBuffer = [] ∧ (∃ x, t.magnificator.magnifiedBuffer = [x]) ∧
    t.magnificator.currentFrame = 1 ∧ t.processingBufferLength = 2 ∧
    t.magnificator.imgProcFlags.magnifyOn = true

/-! ## Pixel conversions -/

/-- `cvRound`: the nearest integer, a tie going to the even one. -/
def cvRound (x : ℚ) : Int :=
  if x - ⌊x⌋ < 1 / 2 then ⌊x⌋
  else if 1 / 2 < x - ⌊x⌋ then ⌊x⌋ + 1
  else if ⌊x⌋ % 2 = 0 then ⌊x⌋
  else ⌊x⌋ + 1

/-- `cv::saturate_cast<uchar>` of an integer: clamping to `0 .. 255`. -/
def saturateU8 (n : Int) : Int := if n < 0 then 0 else if 255 < n then 255 else n

/-- One element of `src.convertTo(dst, CV_8UC1, alpha, beta)` on a
floating-point matrix, in exact arithmetic:
`saturate_cast<uchar>(x * alpha + beta)`. -/
def convertTo8U (alpha beta x : ℚ) : Int := saturateU8 (cvRound (x * alpha + beta))

/-- One element of `src.convertTo(dst, CV_32FC1, alpha)` on an 8-bit matrix, in
exact arithmetic. -/
def convertTo32F (alpha : ℚ) (v : Int) : ℚ := v * alpha

/-- What the first-frame branch of `laplaceMagnify` does to one pixel of a
single-channel 8-bit frame: `input.convertTo(input, CV_32FC1, 1.0/255.0f)`,
`output = input`, `output.convertTo(output, CV_8UC1, 255.0, 1.0/255.0)`. -/
def laplaceFirstFramePixel (v : Int) : Int :=
  convertTo8U 255 (1 / 255) (convertTo32F (1 / 255) v)

/-- The assignment `delta = coWavelength / (8.0 * (1.0 + amplification))`. -/
def laplaceDelta {K : Type} [LinearOrderedField K] (coWavelength amplification : K) : K :=
  coWavelength / (8 * (1 + amplification))

/-- The factor `Magnificator::amplifyLaplacian` multiplies `src` with:
`0` for `currentLevel == levels` and `currentLevel == 0`, otherwise
`min(amplification, currAlpha)` with
`currAlpha = (lambda/(delta*8.0) - 1.0) * exaggeration_factor`. -/
def amplifyLaplacianFactor {K : Type} [LinearOrderedField K]
    (amplification exaggeration_factor lambda delta : K) (levels currentLevel : Int) : K :=
  let currAlpha := (lambda / (delta * 8) - 1) * exaggeration_factor
  if currentLevel = levels ∨ currentLevel = 0 then 0 else min amplification currAlpha

/-- The loop `for (int curLevel = levels; curLevel >= 0; --curLevel)` of
`laplaceMagnify`: each iteration amplifies level `curLevel` with the current
`lambda` and then halves `lambda`.  The result lists, in the order of
execution, each level with the factor it was multiplied by.  The first
argument bounds the number of iterations. -/
def amplifyLevels {K : Type} [LinearOrderedField K] (amplification exaggeration_factor delta : K)
    (levels : Int) : Nat → Int → K → List (Int × K)
  | 0, _, _ => []
  | n + 1, curLevel, lambda =>
    if curLevel ≥ 0 then
      (curLevel,
          amplifyLaplacianFactor amplification exaggeration_factor lambda delta levels curLevel) ::
        amplifyLevels amplification exaggeration_factor delta levels n (curLevel - 1) (lambda / 2)
    else []

/-- Step 3 of a non-first iteration of `laplaceMagnify`: `delta` from the
settings, `lambda` starting at `lambda0` (the source passes
`sqrt(w*w + h*h)/3.0`), then the amplification loop from level `levels` down to
0.  `exaggeration_factor` is the value of the macro
`DEFAULT_LAP_MAG_EXAGGERATION`, which is not among the sources. -/
def amplifyPyramid {K : Type} [LinearOrderedField K]
    (amplification coWavelength exaggeration_factor lambda0 : K) (levels : Int) :
    List (Int × K) :=
  amplifyLevels amplification exaggeration_factor (laplaceDelta coWavelength amplification)
    levels (levels + 1).toNat levels lambda0

/-! ## Breath analyzer -/

/-- A `cv::Point`. -/
structure Point where
  x : Int
  y : Int
deriving DecidableEq, Repr

/-- The inner loop `for (j ...) ySum += pont[j].y` on `int ySum = 0`. -/
def contourYSum (pont : List Point) : Int :=
  pont.foldl (fun ySum p => wrapInt32 (ySum + p.y)) 0

/-- The statement `ySum /= pont.size()`: `ySum` is converted to `size_t`
(64 bits), divided, and the quotient converted back to `int`.  `none` for an
empty contour (division by zero). -/
def divideBySize (ySum : Int) (size : Nat) : Option Int :=
  if size = 0 then none
  else some (wrapInt32 (((ySum % 2 ^ 64).toNat / size : Nat) : Int))

/-- The loop over the kept contours: `contoursSum += ySum` for the average `ySum`
of each contour. -/
def contoursSumLoop : List (List Point) → Int → Option Int
  | [], contoursSum => some contoursSum
  | pont :: rest, contoursSum =>
    match divideBySize (contourYSum pont) pont.length with
    | none => none
    | some ySum => contoursSumLoop rest (wrapInt32 (contoursSum + ySum))

/-- The breath scalar of `laplaceMagnify` (lines 351-411) as a function of the
contour vector after `std::sort` by descending area: the average `y` of each of
the first `min(numContours, 50)` contours is accumulated in `contoursSum`, which
is then replaced by 0 when `numContours <= 7` and divided by
`min(numContours, 50)` otherwise (`int` division).  In `laplaceMagnifyBody`,
`cv.analyze prevFrame input` stands for this value on the contours OpenCV finds. -/
def breathMeasure (contours : List (List Point)) : Option Int :=
  let numContours : Int := contours.length
  let desiredLongest : Int := 50
  match contoursSumLoop (contours.take (min numContours desiredLongest).toNat) 0 with
  | none => none
  | some contoursSum =>
    if numContours ≤ 7 then some 0
    else some (Int.tdiv contoursSum (min numContours desiredLongest))

/-- Nine three-point contours, contour `i` with rows `i`, `i + 1` and 7. -/
def sampleContours : List (List Point) :=
  (List.range 9).map fun i => [⟨0, i⟩, ⟨0, i + 1⟩, ⟨3, 7⟩]

/-! ## Breath window -/

/-- The assignment `breathValues[i] = temp`; `none` when `i` is outside the
array. -/
def BreathValues.write (b : BreathValues) (i : Int) (temp : Int) : Option BreathValues :=
  if i = 0 then some { b with v0 := temp }
  else if i = 1 then some { b with v1 := temp }
  else if i = 2 then some { b with v2 := temp }
  else none

/-- What `run` produces when a window is complete: the frame number and the
smoothed value written to the CSV file, the window mean before the clamp, and
the `int` copied to shared memory. -/
structure Emission where
  frameNum : Int
  mean : ℚ
  smoothed : ℚ
  shared : Int
deriving DecidableEq, Repr

/-- The guard in front of the window write:
`if ((frameNum -1 - prevFrameNum) > 2 || (frameNum -1 - prevFrameNum) < 0)
prevFrameNum = frameNum;`.  The result is the value of `prevFrameNum` after
the guard. -/
def guardPrevFrameNum (frameNum prevFrameNum : Int) : Int :=
  if frameNum - 1 - prevFrameNum > 2 ∨ frameNum - 1 - prevFrameNum < 0 then frameNum
  else prevFrameNum

/-- The index `frameNum-1 - prevFrameNum` at which `run` stores the breath
sample, after the guard. -/
def breathIndex (frameNum prevFrameNum : Int) : Int :=
  frameNum - 1 - guardPrevFrameNum frameNum prevFrameNum

/-- The block executed when `frameNum - prevFrameNum == 3` (lines 264-288), in
exact arithmetic: the window mean `summ`; `prevSumm` is replaced by it when
`frameNum == 3`; when `prevSumm != 0`, `summ` becomes `prevSumm + 50` if
`(summ - prevSumm)/2 > 25` and `prevSumm - 50` if `(summ - prevSumm)/2 < -25`;
`temp = summ` truncates.  `toPrevSumm` is the conversion the assignment
`prevSumm = summ` applies (the identity for a `float` member; the declaration
is in a header that is not among the sources). -/
def smoothBreath (toPrevSumm : ℚ → ℚ) (frameNum : Int) (prevSumm : ℚ) (b : BreathValues) :
    Emission :=
  let mean : ℚ := ((b.v0 : ℚ) + b.v1 + b.v2) / 3
  let prevSumm : ℚ := if frameNum = 3 then toPrevSumm mean else prevSumm
  let summ : ℚ :=
    if prevSumm ≠ 0 then
      if (mean - prevSumm) / 2 > 25 then prevSumm + 50
      else if (mean - prevSumm) / 2 < -25 then prevSumm - 50
      else mean
    else mean
  { frameNum := frameNum, mean := mean, smoothed := summ, shared := truncToInt summ }

/-- The breath bookkeeping at the end of one iteration of `run` (lines 255-311):
`temp` is read from the Magnificator, the guard may reset `prevFrameNum`, the
sample is stored in the window, and when `frameNum - prevFrameNum == 3` the
smoothed value is emitted and `prevFrameNum`, `prevSumm` are updated.  `none`
when the sample is stored outside the array. -/
def breathWindow {α : Type} (toPrevSumm : ℚ → ℚ) (t : ProcessingThread α) :
    Option (ProcessingThread α × Option Emission) :=
  let temp := t.magnificator.breathMeasureOutput
  let prevFrameNum := guardPrevFrameNum t.frameNum t.prevFrameNum
  match t.breathValues.write (t.frameNum - 1 - prevFrameNum) temp with
  | none => none
  | some b =>
    if t.frameNum - prevFrameNum = 3 then
      let e := smoothBreath toPrevSumm t.frameNum t.prevSumm b
      some ({ t with
          breathValues := b
          prevFrameNum := t.frameNum
          prevSumm := toPrevSumm e.smoothed }, some e)
    else some ({ t with breathValues := b, prevFrameNum := prevFrameNum }, none)

/-- An iteration of `run` whose image-processing block increments `frameNum`
and leaves the breath scalar `temp` in the Magnificator, followed by the breath
bookkeeping. -/
def breathTick {α : Type} (toPrevSumm : ℚ → ℚ) (t : ProcessingThread α) (temp : Int) :
    Option (ProcessingThread α × Option Emission) :=
  breathWindow toPrevSumm
    { t with
      frameNum := t.frameNum + 1
      magnificator := { t.magnificator with breathMeasureOutput := temp } }

/-- Successive iterations of `breathTick`, one per breath scalar: the final
state and what each iteration emitted. -/
def breathTicks {α : Type} (toPrevSumm : ℚ → ℚ) :
    ProcessingThread α → List Int → Option (ProcessingThread α × List (Option Emission))
  | t, [] => some (t, [])
  | t, temp :: temps =>
    match breathTick toPrevSumm t temp with
    | none => none
    | some (t', e) =>
      match breathTicks toPrevSumm t' temps with
      | none => none
      | some (t'', es) => some (t'', e :: es)

/-- Whether the iteration with index `j` (counting from 0) of a run of
`breathTicks` on `temps` emitted what the window rule prescribes: on every
third iteration an emission with frame number `j + 1` whose mean is the
arithmetic mean of the scalars of iterations `j - 2`, `j - 1` and `j`, and
nothing on the other iterations. -/
def EmitsAt (temps : List Int) (j : Nat) (emitted : Option Emission) : Prop :=
  if (j + 1) % 3 = 0 then
    ∃ e, emitted = some e ∧ e.frameNum = (j : Int) + 1 ∧
      e.mean = ((temps.getD (j - 2) 0 : ℚ) + temps.getD (j - 1) 0 + temps.getD j 0) / 3
  else emitted = none

/-- The window bookkeeping after the scalars `pre` have been processed:
`frameNum` counts them, `prevFrameNum` is the last multiple of 3, and the first
slots of the window hold the scalars read since then. -/
def WindowAfter {α : Type} (t : ProcessingThread α) (pre : List Int) : Prop :=
  t.frameNum = pre.length ∧ t.prevFrameNum = 3 * ((pre.length / 3 : ℕ) : Int) ∧
    (1 ≤ pre.length % 3 → t.breathValues.v0 = pre.getD (3 * (pre.length / 3)) 0) ∧
    (pre.length % 3 = 2 → t.breathValues.v1 = pre.getD (3 * (pre.length / 3) + 1) 0)

/-! ## Outputs of a round -/

/-- The frames a round of `colorMagnify` appends for the saved input frames,
the first one with column index `i`: one per frame, in the order in which the
frames were taken from the queue. -/
def colorOutputs {α : Type} : List α → Int → List (Magnified α)
  | [], _ => []
  | frame :: frames, i => Magnified.color frame i :: colorOutputs frames (i + 1)

/-- A freshly constructed thread on frames identified by a number, in color
mode. -/
def sampleColorThread : ProcessingThread Nat :=
  ProcessingThread.init colorFlags sampleSettings sampleROI

/-- A fresh Magnificator in color mode with two frames waiting. -/
def sampleColorMagnificator : Magnificator Nat :=
  Magnificator.init [0, 1] colorFlags sampleSettings

/-- A Magnificator in the running color loop: frames 2 and 3 in the input
queue, the output of frame 1 retained in the magnified buffer, cursor 1. -/
def sampleColorSteady : Magnificator Nat :=
  { Magnificator.init [2, 3] colorFlags sampleSettings with
    currentFrame := 1
    magnifiedBuffer := [Magnified.color 1 1]
    appended := 2
    appendedFrames := [Magnified.color 0 0, Magnified.color 1 1] }

/-- The loop in Laplacian mode between iterations: frame `a` waiting in the
queue, one magnified frame retained, cursor 1, and `hist` the frames appended
so far. -/
def LaplaceSteady {α : Type} (t : ProcessingThread α) (a : α) (hist : List (Magnified α)) :
    Prop :=
  t.magnificator.processingBuffer = [a] ∧ (∃ x, t.magnificator.magnifiedBuffer = [x]) ∧
    t.magnificator.currentFrame = 1 ∧ t.processingBufferLength = 2 ∧
    t.magnificator.imgProcFlags.colorMagnifyOn = false ∧
    t.magnificator.imgProcFlags.laplaceMagnifyOn = true ∧
    t.magnificator.appendedFrames = hist

/-! ## Reachable thread states -/

/-- One step of a `ProcessingThread`: an iteration of the image-processing
block on a captured frame, or one of the three reconfiguration calls. -/
inductive ThreadStep {α : Type} (cv : Vision α) :
    ProcessingThread α → ProcessingThread α → Prop where
  | tick (t t' : ProcessingThread α) (frame : α) (h : processFrame cv t frame = some t') :
      ThreadStep cv t t'
  | flags (t : ProcessingThread α) (imageProcessingFlags : ImageProcessingFlags) :
      ThreadStep cv t (updateImageProcessingFlags t imageProcessingFlags)
  | settings (t : ProcessingThread α) (imgProcessingSettings : ImageProcessingSettings) :
      ThreadStep cv t (updateImageProcessingSettings t imgProcessingSettings)
  | roi (t : ProcessingThread α) (r : Rect) : ThreadStep cv t (setROI t r).1

/-- States reachable from a freshly constructed thread. -/
inductive ThreadReachable {α : Type} (cv : Vision α) :
    ProcessingThread α → Prop where
  | init (flags : ImageProcessingFlags) (settings : ImageProcessingSettings) (roi : Rect) :
      ThreadReachable cv (ProcessingThread.init flags settings roi)
  | step (t t' : ProcessingThread α) (ht : ThreadReachable cv t)
      (h : ThreadStep cv t t') : ThreadReachable cv t'

/-- The shapes the queues take between iterations: both empty with cursor 0;
one frame waiting, nothing magnified, cursor 0; or at most one frame waiting,
one magnified frame retained, cursor 1.  The configured length is 2
throughout. -/
def QueueShape {α : Type} (t : ProcessingThread α) : Prop :=
  t.processingBufferLength = 2 ∧
    ((t.magnificator.processingBuffer.length ≤ 1 ∧ t.magnificator.magnifiedBuffer = [] ∧
        t.magnificator.currentFrame = 0) ∨
      (t.magnificator.processingBuffer.length ≤ 1 ∧
        (∃ x, t.magnificator.magnifiedBuffer = [x]) ∧ t.magnificator.currentFrame = 1))

/-! ## Frames the selected routine supports -/

/-- Whether the routine the flags of `t` select can process `frame`, as far as
the two source files show.  Color magnification reads element `levels - 1` of
the Gaussian pyramid and needs `levels ≥ 1`.  Laplacian magnification converts
the previous frame and the motion image with `COLOR_BGR2GRAY` and needs a frame
of 3 or 4 channels that is processed in color (`grayscaleOn` off).  Riesz
magnification converts a frame of more than 2 channels with `COLOR_BGR2YCrCb`
unless `grayscaleOn` is set, and needs at most 4 channels then.  With no
routine enabled every frame is supported. -/
def Supported {α : Type} (cv : Vision α) (t : ProcessingThread α) (frame : α) : Prop :=
  (t.magnificator.imgProcFlags.colorMagnifyOn = true →
      1 ≤ t.magnificator.imgProcSettings.levels) ∧
    (t.magnificator.imgProcFlags.colorMagnifyOn = false →
      t.magnificator.imgProcFlags.laplaceMagnifyOn = true →
      t.magnificator.imgProcFlags.grayscaleOn = false ∧ bgrSource (cv.channels frame) = true) ∧
    (t.magnificator.imgProcFlags.colorMagnifyOn = false →
      t.magnificator.imgProcFlags.laplaceMagnifyOn = false →
      t.magnificator.imgProcFlags.rieszMagnifyOn = true →
      t.magnificator.imgProcFlags.grayscaleOn = true ∨ cv.channels frame ≤ 4)

/-- States reachable from a freshly constructed thread by the three
reconfiguration calls and by iterations of the image-processing block on frames
the selected routine supports. -/
inductive SupportedReachable {α : Type} (cv : Vision α) : ProcessingThread α → Prop where
  | init (flags : ImageProcessingFlags) (settings : ImageProcessingSettings) (roi : Rect) :
      SupportedReachable cv (ProcessingThread.init flags settings roi)
  | tick (t t' : ProcessingThread α) (frame : α) (ht : SupportedReachable cv t)
      (hs : Supported cv t frame) (h : processFrame cv t frame = some t') :
      SupportedReachable cv t'
  | flags (t : ProcessingThread α) (imageProcessingFlags : ImageProcessingFlags)
      (ht : SupportedReachable cv t) :
      SupportedReachable cv (updateImageProcessingFlags t imageProcessingFlags)
  | settings (t : ProcessingThread α) (imgProcessingSettings : ImageProcessingSettings)
      (ht : SupportedReachable cv t) :
      SupportedReachable cv (updateImageProcessingSettings t imgProcessingSettings)
  | roi (t : ProcessingThread α) (r : Rect) (ht : SupportedReachable cv t) :
      SupportedReachable cv (setROI t r).1

/-- The Laplacian state after an iteration on a supported frame: `prevFrame`
holds a frame with a BGR channel count, and the three pyramids were seeded in
color processing at the depth of the current settings. -/
def LaplaceReady {α : Type} (m : Magnificator α) : Prop :=
  m.prevFrame.isSome = true ∧ bgrSource m.prevFrameChannels = true ∧ m.motionChannels = 3 ∧
    m.motionPyramid.length = m.imgProcSettings.levels.toNat + 1 ∧
    m.lowpassHi.length = m.imgProcSettings.levels.toNat + 1 ∧
    m.lowpassLo.length = m.imgProcSettings.levels.toNat + 1

/-- Invariant of the loop on supported frames: the queues have one of the
shapes of `QueueShape`, the frame waiting in the input queue is supported, and
in Laplacian mode with cursor 1 the Laplacian state is `LaplaceReady`. -/
def Running {α : Type} (cv : Vision α) (t : ProcessingThread α) : Prop :=
  QueueShape t ∧ (∀ a ∈ t.magnificator.processingBuffer, Supported cv t a) ∧
    (t.magnificator.imgProcFlags.colorMagnifyOn = false →
      t.magnificator.imgProcFlags.laplaceMagnifyOn = true →
      t.magnificator.currentFrame = 1 → LaplaceReady t.magnificator)

/-- What a magnification routine did between the states `m` and `m'`: it left
the frames `queue` in the input queue and appended the frames `outs`, in this
order, to the magnified buffer; flags and settings are unchanged. -/
def RoundEffect {α : Type} (m m' : Magnificator α) (queue : List α)
    (outs : List (Magnified α)) : Prop :=
  m'.processingBuffer = queue ∧ m'.magnifiedBuffer = m.magnifiedBuffer ++ outs ∧
    m'.appendedFrames = m.appendedFrames ++ outs ∧ m'.imgProcFlags = m.imgProcFlags ∧
    m'.imgProcSettings = m.imgProcSettings

/-! ## C1: pyramid depth bound -/

theorem ceilHalf_eq (x : Int) : ceilHalf x = (1 + x) / 2 := by
  unfold ceilHalf
  rw [Int.ceil_eq_iff]
  have h2 : (x : ℚ) = ((2 * ((1 + x) / 2) + (1 + x) % 2 - 1 : Int) : ℚ) := by
    congr 1; omega
  have h4 : ((1 + x) % 2 = 0) ∨ ((1 + x) % 2 = 1) := by omega
  rw [h2]
  push_cast
  rcases h4 with h | h <;> rw [h] <;> constructor <;> norm_num <;> linarith

theorem halfStep_eq (x : Int) (h0 : 0 ≤ x) (hx : x < 2 ^ 31 - 1) :
    divTrunc2 (wrapInt32 (1 + x)) = (1 + x) / 2 := by
  have hw : wrapInt32 (1 + x) = 1 + x := by unfold wrapInt32; omega
  rw [hw, divTrunc2, if_pos (by omega)]

theorem ceilHalf_min (w h : Int) :
    ceilHalf (min w h) = min ((1 + w) / 2) ((1 + h) / 2) := by
  rw [ceilHalf_eq]
  rcases le_total w h with hle | hle
  · rw [min_eq_left hle, min_eq_left (by omega)]
  · rw [min_eq_right hle, min_eq_right (by omega)]

theorem ceilHalf_iterate_le (x : Int) (hx : ¬ 5 < x) (k : ℕ) : ¬ 5 < ceilHalf^[k] x := by
  induction k with
  | zero => simpa using hx
  | succ k ih =>
    rw [Function.iterate_succ_apply', ceilHalf_eq]
    omega

theorem calculateMaxLevels_spec (n : ℕ) : ∀ w h : Int, w.toNat ≤ n →
    w < 2 ^ 31 - 1 → h < 2 ^ 31 - 1 →
    ∃ L : ℕ, calculateMaxLevels w h = L ∧ ¬ 5 < ceilHalf^[L] (min w h) ∧
      ∀ k < L, 5 < ceilHalf^[k] (min w h) := by
  induction n with
  | zero =>
    intro w h hn hw hh
    refine ⟨0, ?_, ?_, ?_⟩
    · rw [calculateMaxLevels, if_neg (by omega)]; rfl
    · simp only [Function.iterate_zero, id_eq]
      have : min w h ≤ w := min_le_left _ _
      omega
    · intro k hk; omega
  | succ n ih =>
    intro w h hn hw hh
    by_cases hc : 5 < w ∧ 5 < h
    · obtain ⟨L, hL, hnot, hall⟩ := ih ((1 + w) / 2) ((1 + h) / 2) (by omega)
        (by omega) (by omega)
      refine ⟨L + 1, ?_, ?_, ?_⟩
      · rw [calculateMaxLevels, if_pos hc, halfStep_eq w (by omega) hw,
          halfStep_eq h (by omega) hh, hL]
        push_cast; ring
      · rw [Function.iterate_succ_apply, ceilHalf_min]; exact hnot
      · intro k hk
        cases k with
        | zero =>
          simp only [Function.iterate_zero, id_eq]
          exact lt_min hc.1 hc.2
        | succ k =>
          rw [Function.iterate_succ_apply, ceilHalf_min]
          exact hall k (by omega)
    · refine ⟨0, ?_, ?_, ?_⟩
      · rw [calculateMaxLevels, if_neg hc]; rfl
      · simp only [Function.iterate_zero, id_eq]
        intro hlt
        exact hc ⟨lt_of_lt_of_le hlt (min_le_left _ _), lt_of_lt_of_le hlt (min_le_right _ _)⟩
      · intro k hk; omega

theorem calculateMaxLevels_six : calculateMaxLevels 6 6 = 1 := by
  rw [calculateMaxLevels, if_pos (by decide), calculateMaxLevels, if_neg (by decide)]
  rfl

/-- C1 as stated fails: for a 6 x 6 frame no halving leaves a value above 5 after
one step (`⌈6 / 2⌉ = 3`), so the largest admissible `k` is 0, while
`calculateMaxLevels` returns 1. -/
theorem calculateMaxLevels_not_greatest :
    ¬ ∃ k : ℕ, IsGreatest {k : ℕ | 5 < ceilHalf^[k] (min 6 6)} k ∧
      calculateMaxLevels 6 6 = k := by
  rintro ⟨k, ⟨hk, -⟩, heq⟩
  rw [calculateMaxLevels_six] at heq
  have hk1 : k = 1 := by exact_mod_cast heq.symm
  subst hk1
  simp only [Set.mem_setOf_eq, Function.iterate_succ_apply, Function.iterate_zero, id_eq] at hk
  rw [ceilHalf_eq] at hk
  simp at hk

/-- C1 (amended): for widths and heights with `min w h > 5` (below `2 ^ 31 - 1`,
where the `int` arithmetic is exact), `calculateMaxLevels` equals one plus the
largest `k` such that `k` applications of `x ↦ ⌈x / 2⌉` to `min w h` leave a
value above 5. -/
theorem calculateMaxLevels_eq_succ_greatest (w h : Int) (hmin : 5 < min w h)
    (hw : w < 2 ^ 31 - 1) (hh : h < 2 ^ 31 - 1) :
    ∃ k : ℕ, IsGreatest {k : ℕ | 5 < ceilHalf^[k] (min w h)} k ∧
      calculateMaxLevels w h = k + 1 := by
  obtain ⟨L, hL, hnot, hall⟩ := calculateMaxLevels_spec w.toNat w h le_rfl hw hh
  cases L with
  | zero => exact absurd (by simpa using hmin) hnot
  | succ L =>
    refine ⟨L, ⟨hall L (Nat.lt_succ_self L), ?_⟩, by rw [hL]; push_cast; ring⟩
    intro k hk
    by_contra hlt
    have hle : L + 1 ≤ k := by omega
    obtain ⟨d, rfl⟩ := Nat.exists_eq_add_of_le hle
    rw [Set.mem_setOf_eq, Nat.add_comm, Function.iterate_add_apply] at hk
    exact ceilHalf_iterate_le _ hnot d hk

theorem calculateMaxLevels_eq_succ_greatest_witness :
    ∃ k : ℕ, IsGreatest {k : ℕ | 5 < ceilHalf^[k] (min (640 : Int) 480)} k ∧
      calculateMaxLevels 640 480 = k + 1 :=
  calculateMaxLevels_eq_succ_greatest 640 480 (by decide) (by decide) (by decide)
/-! ## C2: the window length is the next power of two -/

theorem testBit_or_shiftRight (x y m : ℕ)
    (h : ∀ i, y.testBit i = true ↔ ∃ d, d < m ∧ x.testBit (i + d) = true) (i : ℕ) :
    (y ||| (y >>> m)).testBit i = true ↔ ∃ d, d < 2 * m ∧ x.testBit (i + d) = true := by
  rw [Nat.testBit_or, Nat.testBit_shiftRight, Bool.or_eq_true, h, h]
  constructor
  · rintro (⟨d, hd, hb⟩ | ⟨d, hd, hb⟩)
    · exact ⟨d, by omega, hb⟩
    · exact ⟨m + d, by omega, by rw [← hb]; congr 1; omega⟩
  · rintro ⟨d, hd, hb⟩
    by_cases hlt : d < m
    · exact Or.inl ⟨d, hlt, hb⟩
    · exact Or.inr ⟨d - m, by omega, by rw [← hb]; congr 1; omega⟩

theorem testBit_smearBits (x i : ℕ) :
    (smearBits x).testBit i = true ↔ ∃ d, d < 32 ∧ x.testBit (i + d) = true := by
  have h1 : ∀ i, x.testBit i = true ↔ ∃ d, d < 1 ∧ x.testBit (i + d) = true := by
    intro i
    constructor
    · intro h; exact ⟨0, by omega, by simpa using h⟩
    · rintro ⟨d, hd, hb⟩
      have : d = 0 := by omega
      subst this; simpa using hb
  have h2 := testBit_or_shiftRight x _ 1 h1
  have h4 := testBit_or_shiftRight x _ 2 h2
  have h8 := testBit_or_shiftRight x _ 4 h4
  have h16 := testBit_or_shiftRight x _ 8 h8
  exact testBit_or_shiftRight x _ 16 h16 i

theorem testBit_of_pow_le_lt (x L : ℕ) (h1 : 2 ^ L ≤ x) (h2 : x < 2 ^ (L + 1)) :
    x.testBit L = true := by
  by_contra hb
  have hb : x.testBit L = false := by simpa using hb
  have : x < 2 ^ L := by
    apply Nat.lt_pow_two_of_testBit
    intro i hi
    rcases Nat.eq_or_lt_of_le hi with rfl | hlt
    · exact hb
    · exact Nat.testBit_lt_two_pow
        (lt_of_lt_of_le h2 (Nat.pow_le_pow_right (by decide) hlt))
  omega

theorem smearBits_eq (x L : ℕ) (hL : L < 32) (h1 : 2 ^ L ≤ x) (h2 : x < 2 ^ (L + 1)) :
    smearBits x = 2 ^ (L + 1) - 1 := by
  apply Nat.eq_of_testBit_eq
  intro i
  rw [Nat.testBit_two_pow_sub_one]
  by_cases hi : i < L + 1
  · rw [decide_eq_true hi, testBit_smearBits]
    refine ⟨L - i, by omega, ?_⟩
    have : i + (L - i) = L := by omega
    rw [this]
    exact testBit_of_pow_le_lt x L h1 h2
  · rw [decide_eq_false hi]
    by_contra hb
    have hb : (smearBits x).testBit i = true := by simpa using hb
    obtain ⟨d, -, hd⟩ := (testBit_smearBits x i).1 hb
    have hlt : x < 2 ^ (i + d) := lt_of_lt_of_le h2 (Nat.pow_le_pow_right (by decide) (by omega))
    rw [Nat.testBit_lt_two_pow hlt] at hd
    exact Bool.noConfusion hd

/-- On an argument `n` with `16 ≤ n ≤ 2 ^ 30` the decrement, smear and
increment produce the least power of two that is at least `n`. -/
theorem roundUp_pow_two (n : ℕ) (h16 : 16 ≤ n) (hn : n ≤ 2 ^ 30) :
    ∃ k : ℕ, k ≤ 30 ∧ (smearBits ((n + (2 ^ 32 - 1)) % 2 ^ 32) + 1) % 2 ^ 32 = 2 ^ k ∧
      n ≤ 2 ^ k ∧ ∀ j : ℕ, n ≤ 2 ^ j → k ≤ j := by
  have hx : (n + (2 ^ 32 - 1)) % 2 ^ 32 = n - 1 := by omega
  rw [hx]
  have hne : n - 1 ≠ 0 := by omega
  have hlo := Nat.pow_log_le_self 2 hne
  have hhi := Nat.lt_pow_succ_log_self (by decide : 1 < 2) (n - 1)
  set L := Nat.log 2 (n - 1) with hLdef
  have hL : L < 30 := by
    by_contra hge
    have : 2 ^ 30 ≤ 2 ^ L := Nat.pow_le_pow_right (by decide) (by omega)
    omega
  have hpos : 0 < 2 ^ (L + 1) := Nat.pos_pow_of_pos _ (by decide)
  have hle : 2 ^ (L + 1) ≤ 2 ^ 30 := Nat.pow_le_pow_right (by decide) (by omega)
  refine ⟨L + 1, by omega, ?_, ?_, ?_⟩
  · rw [smearBits_eq (n - 1) L (by omega) hlo hhi]
    have : 2 ^ (L + 1) - 1 + 1 = 2 ^ (L + 1) := by omega
    rw [this]
    exact Nat.mod_eq_of_lt (by omega)
  · have : n - 1 < 2 ^ (L + 1) := hhi
    omega
  · intro j hj
    by_contra hlt
    have : 2 ^ j ≤ 2 ^ L := Nat.pow_le_pow_right (by decide) (by omega)
    omega

/-- C2: for `0 ≤ fps ≤ 2 ^ 29`, `getOptimalBufferSize fps` is a power of two,
is at least `max (2 * fps) 16`, and every power of two that is at least
`max (2 * fps) 16` is at least as large: it is the least such power of two. -/
theorem getOptimalBufferSize_least_pow_two (fps : Int) (h0 : 0 ≤ fps) (h1 : fps ≤ 2 ^ 29) :
    ∃ k : ℕ, getOptimalBufferSize fps = 2 ^ k ∧ max (2 * fps) 16 ≤ 2 ^ k ∧
      ∀ j : ℕ, max (2 * fps) 16 ≤ (2 : Int) ^ j → (2 : Int) ^ k ≤ 2 ^ j := by
  obtain ⟨n, hn⟩ : ∃ n : ℕ, max (2 * fps) 16 = (n : Int) :=
    ⟨(max (2 * fps) 16).toNat, (Int.toNat_of_nonneg (by omega)).symm⟩
  have hn16 : 16 ≤ n := by omega
  have hn30 : n ≤ 2 ^ 30 := by omega
  obtain ⟨k, hk30, hval, hge, hleast⟩ := roundUp_pow_two n hn16 hn30
  have hwrap : wrapInt32 (2 * fps) = 2 * fps := by unfold wrapInt32; omega
  have hu : toUInt32 (max (2 * fps) 16) = n := by
    rw [hn]; unfold toUInt32; omega
  have hk : (2 : ℕ) ^ k ≤ 2 ^ 30 := Nat.pow_le_pow_right (by decide) hk30
  refine ⟨k, ?_, ?_, ?_⟩
  · simp only [getOptimalBufferSize, hwrap, hu, hval]
    have hk' : ((2 ^ k : ℕ) : Int) ≤ 2 ^ 30 := by exact_mod_cast hk
    have hpos : (0 : Int) ≤ ((2 ^ k : ℕ) : Int) := Int.ofNat_nonneg _
    have : wrapInt32 ((2 ^ k : ℕ) : Int) = ((2 ^ k : ℕ) : Int) := by
      unfold wrapInt32; omega
    rw [this]; push_cast; rfl
  · rw [hn]; exact_mod_cast hge
  · intro j hj
    rw [hn] at hj
    have hj' : n ≤ 2 ^ j := by exact_mod_cast hj
    exact_mod_cast Nat.pow_le_pow_right (by decide) (hleast j hj')

theorem getOptimalBufferSize_least_pow_two_witness :
    ∃ k : ℕ, getOptimalBufferSize 30 = 2 ^ k ∧ max (2 * (30 : Int)) 16 ≤ 2 ^ k ∧
      ∀ j : ℕ, max (2 * (30 : Int)) 16 ≤ (2 : Int) ^ j → (2 : Int) ^ k ≤ 2 ^ j :=
  getOptimalBufferSize_least_pow_two 30 (by decide) (by decide)

example : getOptimalBufferSize 30 = 64 := by decide
example : getOptimalBufferSize 0 = 16 := by decide
example : getOptimalBufferSize 8 = 16 := by decide
example : getOptimalBufferSize 9 = 32 := by decide
/-! ## C4, C5: extraction from the magnified buffer -/

/-- C4: on a non-empty magnified buffer `x :: xs`, `getFrameFirst` returns the
front frame `x` and `getFrameLast` returns the back frame; both leave the
buffer `xs` (the front removed, the rest in order) and set the cursor to the
length of `xs`; nothing else changes. -/
theorem getFrameFirst_getFrameLast_spec {α : Type} (m : Magnificator α) (x : Magnified α)
    (xs : List (Magnified α)) (h : m.magnifiedBuffer = x :: xs) :
    getFrameFirst m =
        some (x, { m with magnifiedBuffer := xs, currentFrame := (xs.length : Int) }) ∧
      getFrameLast m =
        some ((x :: xs).getLast (List.cons_ne_nil x xs),
          { m with magnifiedBuffer := xs, currentFrame := (xs.length : Int) }) := by
  constructor
  · simp [getFrameFirst, h]
  · have hl : m.magnifiedBuffer.getLast? = some ((x :: xs).getLast (List.cons_ne_nil x xs)) := by
      rw [h]; exact List.getLast?_eq_getLast _ _
    simp only [getFrameLast, hl]
    simp [h]

theorem getFrameFirst_getFrameLast_spec_witness :
    getFrameFirst ({ Magnificator.init ([] : List Nat) laplaceFlags sampleSettings with
        magnifiedBuffer := [Magnified.laplace 0 false, Magnified.laplace 0 true] }) =
        some (Magnified.laplace 0 false,
          { Magnificator.init ([] : List Nat) laplaceFlags sampleSettings with
            magnifiedBuffer := [Magnified.laplace 0 true], currentFrame := 1 }) ∧
      getFrameLast ({ Magnificator.init ([] : List Nat) laplaceFlags sampleSettings with
        magnifiedBuffer := [Magnified.laplace 0 false, Magnified.laplace 0 true] }) =
        some (Magnified.laplace 0 true,
          { Magnificator.init ([] : List Nat) laplaceFlags sampleSettings with
            magnifiedBuffer := [Magnified.laplace 0 true], currentFrame := 1 }) :=
  getFrameFirst_getFrameLast_spec _ (Magnified.laplace 0 false) [Magnified.laplace 0 true] rfl

/-- For an index below the last one, `getFrameAt` reads the frame at that index,
erases nothing and sets the cursor to the unchanged buffer size. -/
theorem getFrameAt_of_lt {α : Type} (m : Magnificator α) (n : Nat)
    (h : n + 1 < m.magnifiedBuffer.length) :
    getFrameAt m n =
      some (m.magnifiedBuffer.get ⟨n, by omega⟩,
        { m with currentFrame := (m.magnifiedBuffer.length : Int) }) := by
  have h1 : (n : Int) < (m.magnifiedBuffer.length : Int) - 1 := by omega
  have h2 : ¬ (n : Int) < 0 := by omega
  have h3 : m.magnifiedBuffer.get? n = some (m.magnifiedBuffer.get ⟨n, by omega⟩) :=
    List.get?_eq_get _
  simp only [getFrameAt, if_pos h1, if_neg h2, Int.toNat_ofNat, h3]

/-- For the last index (and beyond) `getFrameAt` is `getFrameLast`: the back
frame is returned and the front frame is erased. -/
theorem getFrameAt_of_ge {α : Type} (m : Magnificator α) (n : Int)
    (h : (m.magnifiedBuffer.length : Int) - 1 ≤ n) :
    getFrameAt m n = getFrameLast m := by
  have h1 : ¬ n < (m.magnifiedBuffer.length : Int) - 1 := by omega
  simp only [getFrameAt, if_neg h1]
  cases hl : getFrameLast m with
  | none => rfl
  | some r =>
    obtain ⟨img, m'⟩ := r
    simp only [Option.some.injEq, Prod.mk.injEq, true_and]
    unfold getFrameLast at hl
    split at hl
    · exact Option.noConfusion hl
    · simp only [Option.some.injEq, Prod.mk.injEq] at hl
      obtain ⟨-, rfl⟩ := hl
      rfl

/-- C5 (failing input): on the two-frame buffer left by `laplaceMagnify` after the
first two captured frames, `getFrameAt(0)` returns the frame at index 0 but
erases nothing: both frames stay in the buffer and the cursor becomes 2. -/
theorem getFrameAt_zero_erases_nothing :
    ∃ m : Magnificator Nat,
      laplaceMagnify bgrStream
        (Magnificator.init [0, 1] laplaceFlags sampleSettings) = some m ∧
      m.magnifiedBuffer = [Magnified.laplace 0 false, Magnified.laplace 0 true] ∧
      getFrameAt m 0 = some (Magnified.laplace 0 false, { m with currentFrame := 2 }) :=
  ⟨_, rfl, rfl, rfl⟩

/-! ## The loop bodies -/

/-- `inputPyramid.at(levels-1)` on the Gaussian pyramid of depth `levels`
returns exactly when `levels ≥ 1`. -/
theorem vectorAt_buildGaussPyr {α : Type} (input : α) (levels : Int) :
    vectorAt (buildGaussPyrFromImg input levels) (levels - 1) =
      if 1 ≤ levels then some (input, levels.toNat) else none := by
  unfold vectorAt buildGaussPyrFromImg
  by_cases h : 1 ≤ levels
  · have h1 : ¬ levels - 1 < 0 := by omega
    have h2 : (levels - 1).toNat < levels.toNat := by omega
    have h3 : (levels - 1).toNat + 1 = levels.toNat := by omega
    rw [if_neg h1, if_pos h, List.get?_eq_getElem?, List.getElem?_map,
      List.getElem?_range h2, Option.map_some', h3]
  · have h1 : levels - 1 < 0 := by omega
    rw [if_pos h1, if_neg h]

theorem colorMagnifyBody_eq {α : Type} (c : ColorLoop α) (input : α) (rest : List α)
    (hq : c.mag.processingBuffer = input :: rest) :
    colorMagnifyBody c =
      if 1 ≤ c.mag.levels then
        some
          { mag := { c.mag with
              processingBuffer := rest
              downSampledMat := img2tempMat input c.mag.downSampledMat
                (getOptimalBufferSize (truncToInt c.mag.imgProcSettings.framerate))
              currentFrame := c.mag.currentFrame + 1 }
            inputFrames := c.inputFrames ++ [input]
            offset := c.offset + 1 }
      else none := by
  simp only [colorMagnifyBody, hq, vectorAt_buildGaussPyr]
  by_cases hlev : 1 ≤ c.mag.levels
  · simp only [if_pos hlev]
  · simp only [if_neg hlev]

theorem colorMagnifyBody_some {α : Type} (c c' : ColorLoop α)
    (h : colorMagnifyBody c = some c') :
    1 ≤ c.mag.levels ∧ ∃ input rest, c.mag.processingBuffer = input :: rest ∧
      c' =
        { mag := { c.mag with
            processingBuffer := rest
            downSampledMat := img2tempMat input c.mag.downSampledMat
              (getOptimalBufferSize (truncToInt c.mag.imgProcSettings.framerate))
            currentFrame := c.mag.currentFrame + 1 }
          inputFrames := c.inputFrames ++ [input]
          offset := c.offset + 1 } := by
  cases hq : c.mag.processingBuffer with
  | nil => simp [colorMagnifyBody, hq] at h
  | cons input rest =>
    rw [colorMagnifyBody_eq c input rest hq] at h
    split at h
    · rename_i hlev
      simp only [Option.some.injEq] at h
      exact ⟨hlev, input, rest, rfl, h.symm⟩
    · exact Option.noConfusion h

theorem laplaceMagnifyBody_some {α : Type} (cv : Vision α) (m m' : Magnificator α)
    (h : laplaceMagnifyBody cv m = some m') :
    ∃ input rest, m.processingBuffer = input :: rest ∧
      laplaceMagnifyThrows cv m input = false ∧ m' = laplaceMagnifyStep cv m input rest := by
  cases hq : m.processingBuffer with
  | nil => simp [laplaceMagnifyBody, hq] at h
  | cons input rest =>
    simp only [laplaceMagnifyBody, hq] at h
    split at h
    · exact Option.noConfusion h
    · rename_i hthrow
      simp only [Option.some.injEq] at h
      exact ⟨input, rest, rfl, by simpa using hthrow, h.symm⟩

theorem laplaceMagnifyBody_of_not_throws {α : Type} (cv : Vision α) (m : Magnificator α)
    (input : α) (rest : List α) (hq : m.processingBuffer = input :: rest)
    (h : laplaceMagnifyThrows cv m input = false) :
    laplaceMagnifyBody cv m = some (laplaceMagnifyStep cv m input rest) := by
  simp [laplaceMagnifyBody, hq, h]

theorem laplaceMagnifyStep_currentFrame {α : Type} (cv : Vision α) (m : Magnificator α)
    (input : α) (rest : List α) :
    (laplaceMagnifyStep cv m input rest).currentFrame = m.currentFrame + 1 := by
  unfold laplaceMagnifyStep
  by_cases h0 : m.currentFrame = 0
  · simp [h0]
  · by_cases h1 : 0 < m.currentFrame <;> simp [h0, h1]

theorem laplaceMagnifyStep_magnifiedBuffer {α : Type} (cv : Vision α) (m : Magnificator α)
    (input : α) (rest : List α) :
    (laplaceMagnifyStep cv m input rest).magnifiedBuffer =
      m.magnifiedBuffer ++ [Magnified.laplace input (decide (0 < m.currentFrame))] := by
  unfold laplaceMagnifyStep
  by_cases h0 : m.currentFrame = 0
  · simp [h0]
  · by_cases h1 : 0 < m.currentFrame <;> simp [h0, h1]

theorem laplaceMagnifyStep_appended {α : Type} (cv : Vision α) (m : Magnificator α)
    (input : α) (rest : List α) :
    (laplaceMagnifyStep cv m input rest).appended = m.appended + 1 ∧
      (laplaceMagnifyStep cv m input rest).appendedFrames =
        m.appendedFrames ++ [Magnified.laplace input (decide (0 < m.currentFrame))] := by
  unfold laplaceMagnifyStep
  by_cases h0 : m.currentFrame = 0
  · simp [h0]
  · by_cases h1 : 0 < m.currentFrame <;> simp [h0, h1]

theorem laplaceMagnifyStep_processingBuffer {α : Type} (cv : Vision α) (m : Magnificator α)
    (input : α) (rest : List α) :
    (laplaceMagnifyStep cv m input rest).processingBuffer =
      if m.currentFrame = 0 then m.processingBuffer else rest := by
  unfold laplaceMagnifyStep
  by_cases h0 : m.currentFrame = 0
  · simp [h0]
  · by_cases h1 : 0 < m.currentFrame <;> simp [h0, h1]

theorem laplaceMagnifyStep_config {α : Type} (cv : Vision α) (m : Magnificator α)
    (input : α) (rest : List α) :
    (laplaceMagnifyStep cv m input rest).imgProcFlags = m.imgProcFlags ∧
      (laplaceMagnifyStep cv m input rest).imgProcSettings = m.imgProcSettings ∧
      (laplaceMagnifyStep cv m input rest).levels = m.levels := by
  unfold laplaceMagnifyStep
  by_cases h0 : m.currentFrame = 0
  · simp [h0]
  · by_cases h1 : 0 < m.currentFrame <;> simp [h0, h1]

/-- The first-frame branch: the raw input becomes `prevFrame`, the three
pyramids are the input pyramid, and the motion image has the channel count of
the converted input. -/
theorem laplaceMagnifyStep_first {α : Type} (cv : Vision α) (m : Magnificator α)
    (input : α) (rest : List α) (h0 : m.currentFrame = 0) :
    (laplaceMagnifyStep cv m input rest).prevFrame = some input ∧
      (laplaceMagnifyStep cv m input rest).prevFrameChannels = cv.channels input ∧
      (laplaceMagnifyStep cv m input rest).motionChannels =
        (if grayscalePath m.imgProcFlags (cv.channels input) then cv.channels input else 3) ∧
      (laplaceMagnifyStep cv m input rest).motionPyramid = buildLaplacePyrFromImg input m.levels ∧
      (laplaceMagnifyStep cv m input rest).lowpassHi = buildLaplacePyrFromImg input m.levels ∧
      (laplaceMagnifyStep cv m input rest).lowpassLo = buildLaplacePyrFromImg input m.levels := by
  unfold laplaceMagnifyStep
  simp [h0]

/-- A later iteration: the converted input becomes `prevFrame`; the pyramids
keep their length and channel count. -/
theorem laplaceMagnifyStep_next {α : Type} (cv : Vision α) (m : Magnificator α)
    (input : α) (rest : List α) (h1 : 0 < m.currentFrame) :
    (laplaceMagnifyStep cv m input rest).prevFrame = some input ∧
      (laplaceMagnifyStep cv m input rest).prevFrameChannels =
        (if grayscalePath m.imgProcFlags (cv.channels input) then cv.channels input else 3) ∧
      (laplaceMagnifyStep cv m input rest).motionChannels = m.motionChannels ∧
      (laplaceMagnifyStep cv m input rest).motionPyramid = m.motionPyramid ∧
      (laplaceMagnifyStep cv m input rest).lowpassHi = m.lowpassHi ∧
      (laplaceMagnifyStep cv m input rest).lowpassLo = m.lowpassLo := by
  unfold laplaceMagnifyStep
  have h0 : ¬ m.currentFrame = 0 := by omega
  simp [h0, h1]

theorem rieszMagnifyBody_some {α : Type} (cv : Vision α) (m m' : Magnificator α)
    (h : rieszMagnifyBody cv m = some m') :
    ∃ input rest, m.processingBuffer = input :: rest ∧
      (grayscalePath m.imgProcFlags (cv.channels input) = true ∨
        bgrSource (cv.channels input) = true) ∧
      m'.processingBuffer = (if 0 < m.currentFrame then rest else m.processingBuffer) ∧
      m'.magnifiedBuffer =
        m.magnifiedBuffer ++ [Magnified.riesz input (decide (0 < m.currentFrame))] ∧
      m'.currentFrame = m.currentFrame + 1 ∧
      m'.appended = m.appended + 1 ∧
      m'.appendedFrames =
        m.appendedFrames ++ [Magnified.riesz input (decide (0 < m.currentFrame))] ∧
      m'.imgProcFlags = m.imgProcFlags ∧ m'.imgProcSettings = m.imgProcSettings ∧
      m'.levels = m.levels := by
  cases hq : m.processingBuffer with
  | nil => simp [rieszMagnifyBody, hq] at h
  | cons input rest =>
    simp only [rieszMagnifyBody, hq] at h
    split at h
    · exact Option.noConfusion h
    · rename_i hthrow
      simp only [Option.some.injEq] at h
      subst h
      refine ⟨input, rest, rfl, ?_, ?_⟩
      · simp only [Bool.and_eq_true, Bool.not_eq_true', not_and, Bool.not_eq_false] at hthrow
        by_cases hg : grayscalePath m.imgProcFlags (cv.channels input) = true
        · exact Or.inl hg
        · exact Or.inr (hthrow (by simpa using hg))
      · by_cases h1 : 0 < m.currentFrame <;> simp [h1, hq]

theorem rieszMagnifyBody_of_accepts {α : Type} (cv : Vision α) (m : Magnificator α)
    (input : α) (rest : List α) (hq : m.processingBuffer = input :: rest)
    (h : grayscalePath m.imgProcFlags (cv.channels input) = true ∨
      bgrSource (cv.channels input) = true) :
    ∃ m', rieszMagnifyBody cv m = some m' := by
  have hc : ¬ ((!grayscalePath m.imgProcFlags (cv.channels input) &&
      !bgrSource (cv.channels input)) = true) := by
    rcases h with h | h <;> simp [h]
  simp only [rieszMagnifyBody, hq, if_neg hc]
  exact ⟨_, rfl⟩

/-- In the first-frame branch (`currentFrame == 0`) an iteration throws
exactly when the frame is processed in color and is not a BGR source. -/
theorem laplaceMagnifyThrows_first {α : Type} (cv : Vision α) (m : Magnificator α)
    (input : α) (h0 : m.currentFrame = 0) :
    laplaceMagnifyThrows cv m input =
      (!grayscalePath m.imgProcFlags (cv.channels input) && !bgrSource (cv.channels input)) := by
  simp [laplaceMagnifyThrows, h0]

theorem buildLaplacePyrFromImg_length {α : Type} (input : α) (levels : Int) :
    (buildLaplacePyrFromImg input levels).length = levels.toNat + 1 := by
  simp [buildLaplacePyrFromImg]

/-- An iteration on a BGR frame processed in color does not throw when
`prevFrame` holds a BGR frame and the pyramids were seeded in color at the
current depth. -/
theorem laplaceMagnifyThrows_next {α : Type} (cv : Vision α) (m : Magnificator α)
    (input : α) (hgray : m.imgProcFlags.grayscaleOn = false)
    (hin : bgrSource (cv.channels input) = true) (hprev : m.prevFrame.isSome = true)
    (hpc : bgrSource m.prevFrameChannels = true) (hmc : m.motionChannels = 3)
    (hmp : m.motionPyramid.length = m.levels.toNat + 1)
    (hhi : m.lowpassHi.length = m.levels.toNat + 1)
    (hlo : m.lowpassLo.length = m.levels.toNat + 1) :
    laplaceMagnifyThrows cv m input = false := by
  have hch : ¬ cv.channels input ≤ 2 := by
    simp only [bgrSource, decide_eq_true_eq] at hin
    omega
  have hg : grayscalePath m.imgProcFlags (cv.channels input) = false := by
    simp [grayscalePath, hgray, hch]
  have hnone : m.prevFrame.isNone = false := by
    cases hp : m.prevFrame with
    | none => rw [hp] at hprev; exact absurd hprev (by simp)
    | some _ => rfl
  have a0 : atBelow (buildLaplacePyrFromImg input m.levels) m.levels = true := by
    simp only [atBelow, buildLaplacePyrFromImg_length, decide_eq_true_eq]; omega
  have a1 : atBelow m.motionPyramid m.levels = true := by
    simp only [atBelow, hmp, decide_eq_true_eq]; omega
  have a2 : atBelow m.lowpassHi m.levels = true := by
    simp only [atBelow, hhi, decide_eq_true_eq]; omega
  have a3 : atBelow m.lowpassLo m.levels = true := by
    simp only [atBelow, hlo, decide_eq_true_eq]; omega
  have a4 : atBelow m.motionPyramid (m.levels + 1) = true := by
    simp only [atBelow, hmp, decide_eq_true_eq]; omega
  have b3 : bgrSource 3 = true := by decide
  simp [laplaceMagnifyThrows, hg, hin, hnone, hpc, hmc, a0, a1, a2, a3, a4, b3]

/-- A later iteration (`currentFrame > 0`) on a frame that is not a BGR source
throws: in color processing at line 221, otherwise at line 272 or line 312. -/
theorem laplaceMagnifyThrows_not_bgr {α : Type} (cv : Vision α) (m : Magnificator α)
    (input : α) (h1 : 0 < m.currentFrame) (hin : bgrSource (cv.channels input) = false) :
    laplaceMagnifyThrows cv m input = true := by
  by_cases hg : grayscalePath m.imgProcFlags (cv.channels input) = true
  · by_cases hmc : m.motionChannels = cv.channels input
    · simp [laplaceMagnifyThrows, hg, hin, h1, hmc]
    · simp [laplaceMagnifyThrows, hg, hin, h1, hmc]
  · simp [laplaceMagnifyThrows, hg, hin]

/-! ## The routines on a filled queue -/

theorem laplaceMagnify_cursor_one {α : Type} (cv : Vision α) (m : Magnificator α)
    (hq : m.processingBuffer.length = 2) (hc : m.currentFrame = 1) :
    laplaceMagnify cv m = laplaceMagnifyBody cv { m with levels := m.imgProcSettings.levels } := by
  simp [laplaceMagnify, laplaceMagnifyLoop, hq, hc]

theorem laplaceMagnify_cursor_zero {α : Type} (cv : Vision α) (m : Magnificator α)
    (hq : m.processingBuffer.length = 2) (hc : m.currentFrame = 0) :
    laplaceMagnify cv m =
      (laplaceMagnifyBody cv { m with levels := m.imgProcSettings.levels }).bind
        (laplaceMagnifyBody cv) := by
  have hlt : m.currentFrame < 2 := by omega
  have hnge : ¬ m.currentFrame ≥ 2 := by omega
  have hfuel : ((2 : Int) - m.currentFrame).toNat = 2 := by omega
  simp only [laplaceMagnify, hq, Nat.cast_ofNat, if_neg hnge, hfuel, laplaceMagnifyLoop, if_pos hlt]
  cases hb : laplaceMagnifyBody cv { m with levels := m.imgProcSettings.levels } with
  | none => rfl
  | some m1 =>
    have h2 : m1.currentFrame < 2 := by
      obtain ⟨input, rest, -, -, rfl⟩ := laplaceMagnifyBody_some cv _ m1 hb
      rw [laplaceMagnifyStep_currentFrame]
      simp only
      omega
    simp only [Option.some_bind, if_pos h2]
    cases laplaceMagnifyBody cv m1 <;> rfl

theorem rieszMagnify_cursor_one {α : Type} (cv : Vision α) (m : Magnificator α)
    (hq : m.processingBuffer.length = 2) (hc : m.currentFrame = 1) :
    rieszMagnify cv m = rieszMagnifyBody cv { m with levels := m.imgProcSettings.levels } := by
  simp [rieszMagnify, rieszMagnifyLoop, hq, hc]

theorem rieszMagnify_cursor_zero {α : Type} (cv : Vision α) (m : Magnificator α)
    (hq : m.processingBuffer.length = 2) (hc : m.currentFrame = 0) :
    rieszMagnify cv m =
      (rieszMagnifyBody cv { m with levels := m.imgProcSettings.levels }).bind
        (rieszMagnifyBody cv) := by
  have hlt : m.currentFrame < 2 := by omega
  have hnge : ¬ m.currentFrame ≥ 2 := by omega
  have hfuel : ((2 : Int) - m.currentFrame).toNat = 2 := by omega
  simp only [rieszMagnify, hq, Nat.cast_ofNat, if_neg hnge, hfuel, rieszMagnifyLoop, if_pos hlt]
  cases hb : rieszMagnifyBody cv { m with levels := m.imgProcSettings.levels } with
  | none => rfl
  | some m1 =>
    have h2 : m1.currentFrame < 2 := by
      obtain ⟨input, rest, -, -, -, -, h1, -⟩ := rieszMagnifyBody_some cv _ m1 hb
      rw [h1]
      simp only
      omega
    simp only [Option.some_bind, if_pos h2]
    cases rieszMagnifyBody cv m1 <;> rfl

/-- `colorMagnify` on a queue of two frames with cursor 0: both frames are
taken and get their output, provided `levels ≥ 1`. -/
theorem colorMagnify_cursor_zero {α : Type} (m : Magnificator α) (a b : α)
    (hq : m.processingBuffer = [a, b]) (hc : m.currentFrame = 0) :
    colorMagnify m =
      if 1 ≤ m.imgProcSettings.levels then
        some { m with
          levels := m.imgProcSettings.levels
          processingBuffer := []
          downSampledMat :=
            img2tempMat b
              (img2tempMat a m.downSampledMat
                (getOptimalBufferSize (truncToInt m.imgProcSettings.framerate)))
              (getOptimalBufferSize (truncToInt m.imgProcSettings.framerate))
          currentFrame := 2
          magnifiedBuffer := m.magnifiedBuffer ++ [Magnified.color a 0, Magnified.color b 1]
          appended := m.appended + 2
          appendedFrames := m.appendedFrames ++ [Magnified.color a 0, Magnified.color b 1] }
      else none := by
  by_cases hlev : 1 ≤ m.imgProcSettings.levels
  · simp [colorMagnify, colorMagnifyLoop, colorMagnifyBody, colorMagnifyEmit,
      vectorAt_buildGaussPyr, hq, hc, hlev]
  · simp [colorMagnify, colorMagnifyLoop, colorMagnifyBody, vectorAt_buildGaussPyr, hq, hc, hlev]

/-- `colorMagnify` on a queue of two frames with cursor 1: only the first frame
is taken, provided `levels ≥ 1`. -/
theorem colorMagnify_cursor_one {α : Type} (m : Magnificator α) (a b : α)
    (hq : m.processingBuffer = [a, b]) (hc : m.currentFrame = 1) :
    colorMagnify m =
      if 1 ≤ m.imgProcSettings.levels then
        some { m with
          levels := m.imgProcSettings.levels
          processingBuffer := [b]
          downSampledMat :=
            img2tempMat a m.downSampledMat
              (getOptimalBufferSize (truncToInt m.imgProcSettings.framerate))
          currentFrame := 2
          magnifiedBuffer := m.magnifiedBuffer ++ [Magnified.color a 1]
          appended := m.appended + 1
          appendedFrames := m.appendedFrames ++ [Magnified.color a 1] }
      else none := by
  by_cases hlev : 1 ≤ m.imgProcSettings.levels
  · simp [colorMagnify, colorMagnifyLoop, colorMagnifyBody, colorMagnifyEmit,
      vectorAt_buildGaussPyr, hq, hc, hlev]
  · simp [colorMagnify, colorMagnifyLoop, colorMagnifyBody, vectorAt_buildGaussPyr, hq, hc, hlev]

/-! ## C6: the cursor never exceeds the number of appended frames -/

theorem laplaceMagnifyBody_counts {α : Type} (cv : Vision α)
    (m m' : Magnificator α) (h : laplaceMagnifyBody cv m = some m') :
    m'.currentFrame = m.currentFrame + 1 ∧
      m'.magnifiedBuffer.length = m.magnifiedBuffer.length + 1 ∧
      m'.appended = m.appended + 1 := by
  obtain ⟨input, rest, -, -, rfl⟩ := laplaceMagnifyBody_some cv m m' h
  rw [laplaceMagnifyStep_currentFrame, laplaceMagnifyStep_magnifiedBuffer,
    (laplaceMagnifyStep_appended cv m input rest).1]
  simp

theorem rieszMagnifyBody_counts {α : Type} (cv : Vision α) (m m' : Magnificator α)
    (h : rieszMagnifyBody cv m = some m') :
    m'.currentFrame = m.currentFrame + 1 ∧
      m'.magnifiedBuffer.length = m.magnifiedBuffer.length + 1 ∧
      m'.appended = m.appended + 1 := by
  obtain ⟨input, rest, -, -, -, h1, h2, h3, -⟩ := rieszMagnifyBody_some cv m m' h
  rw [h1, h2, h3]
  simp

theorem laplaceMagnifyLoop_bounded {α : Type} (cv : Vision α) (p : Int)
    (n : ℕ) : ∀ m m' : Magnificator α, laplaceMagnifyLoop cv p n m = some m' →
      CursorBounded m → CursorBounded m' := by
  induction n with
  | zero =>
    intro m m' h hm
    simp only [laplaceMagnifyLoop, Option.some.injEq] at h
    subst h; exact hm
  | succ n ih =>
    intro m m' h hm
    simp only [laplaceMagnifyLoop] at h
    split at h
    · cases hb : laplaceMagnifyBody cv m with
      | none => rw [hb] at h; exact Option.noConfusion h
      | some m1 =>
        rw [hb] at h
        obtain ⟨hc, hl, ha⟩ := laplaceMagnifyBody_counts cv m m1 hb
        refine ih m1 m' h ⟨?_, ?_⟩
        · rw [hc, hl]; have := hm.1; push_cast; omega
        · rw [hl, ha]; have := hm.2; omega
    · simp only [Option.some.injEq] at h
      subst h; exact hm

theorem rieszMagnifyLoop_bounded {α : Type} (cv : Vision α) (p : Int)
    (n : ℕ) : ∀ m m' : Magnificator α, rieszMagnifyLoop cv p n m = some m' →
      CursorBounded m → CursorBounded m' := by
  induction n with
  | zero =>
    intro m m' h hm
    simp only [rieszMagnifyLoop, Option.some.injEq] at h
    subst h; exact hm
  | succ n ih =>
    intro m m' h hm
    simp only [rieszMagnifyLoop] at h
    split at h
    · cases hb : rieszMagnifyBody cv m with
      | none => rw [hb] at h; exact Option.noConfusion h
      | some m1 =>
        rw [hb] at h
        obtain ⟨hc, hl, ha⟩ := rieszMagnifyBody_counts cv m m1 hb
        refine ih m1 m' h ⟨?_, ?_⟩
        · rw [hc, hl]; have := hm.1; push_cast; omega
        · rw [hl, ha]; have := hm.2; omega
    · simp only [Option.some.injEq] at h
      subst h; exact hm

theorem colorMagnifyLoop_pending {α : Type} (p : Int) (n : ℕ) :
    ∀ c c' : ColorLoop α, colorMagnifyLoop p n c = some c' → c.Pending → c'.Pending := by
  induction n with
  | zero =>
    intro c c' h hc
    simp only [colorMagnifyLoop, Option.some.injEq] at h
    subst h; exact hc
  | succ n ih =>
    intro c c' h hc
    simp only [colorMagnifyLoop] at h
    split at h
    · cases hb : colorMagnifyBody c with
      | none => rw [hb] at h; exact Option.noConfusion h
      | some c1 =>
        rw [hb] at h
        refine ih c1 c' h ?_
        obtain ⟨-, input, rest, -, rfl⟩ := colorMagnifyBody_some c c1 hb
        obtain ⟨h1, h2, h3⟩ := hc
        refine ⟨?_, ?_, ?_⟩
        · simp only [List.length_append, List.length_singleton]; push_cast; omega
        · simp only; omega
        · simpa using h3
    · simp only [Option.some.injEq] at h
      subst h; exact hc

theorem colorMagnifyEmit_bounded {α : Type} (n : ℕ) :
    ∀ (i : Int) (frames : List α) (m m' : Magnificator α),
      colorMagnifyEmit n i frames m = some m' →
      m.currentFrame - i ≤ n → i ≤ (m.magnifiedBuffer.length : Int) →
      m.magnifiedBuffer.length ≤ m.appended → CursorBounded m' := by
  induction n with
  | zero =>
    intro i frames m m' h h1 h2 h3
    simp only [colorMagnifyEmit, Option.some.injEq] at h
    subst h
    exact ⟨by push_cast at h1; omega, h3⟩
  | succ n ih =>
    intro i frames m m' h h1 h2 h3
    simp only [colorMagnifyEmit] at h
    split at h
    · cases frames with
      | nil => exact Option.noConfusion h
      | cons f rest =>
        simp only at h
        refine ih (i + 1) rest _ m' h ?_ ?_ ?_
        · simp only; push_cast at h1; omega
        · simp only [List.length_append, List.length_singleton]; push_cast; omega
        · simp only [List.length_append, List.length_singleton]; omega
    · simp only [Option.some.injEq] at h
      subst h
      exact ⟨by omega, h3⟩

theorem colorMagnify_bounded {α : Type} (m m' : Magnificator α)
    (h : colorMagnify m = some m') (hm : CursorBounded m) : CursorBounded m' := by
  unfold colorMagnify at h
  simp only at h
  split at h
  · simp only [Option.some.injEq] at h
    subst h; exact hm
  · split at h
    · exact Option.noConfusion h
    · rename_i c hc
      have hp := colorMagnifyLoop_pending _ _ _ c hc
        ⟨by simp, by simpa using hm.1, by simpa using hm.2⟩
      obtain ⟨h1, h2, h3⟩ := hp
      refine colorMagnifyEmit_bounded _ _ _ _ _ h ?_ ?_ h3
      · rw [h1]; simp
      · omega

theorem laplaceMagnify_bounded {α : Type} (cv : Vision α)
    (m m' : Magnificator α) (h : laplaceMagnify cv m = some m')
    (hm : CursorBounded m) : CursorBounded m' := by
  unfold laplaceMagnify at h
  simp only at h
  split at h
  · simp only [Option.some.injEq] at h
    subst h; exact hm
  · exact laplaceMagnifyLoop_bounded cv _ _ _ m' h hm

theorem rieszMagnify_bounded {α : Type} (cv : Vision α) (m m' : Magnificator α)
    (h : rieszMagnify cv m = some m') (hm : CursorBounded m) : CursorBounded m' := by
  unfold rieszMagnify at h
  simp only at h
  split at h
  · simp only [Option.some.injEq] at h
    subst h; exact hm
  · exact rieszMagnifyLoop_bounded cv _ _ _ m' h hm

theorem getFrameLast_bounded {α : Type} (m m' : Magnificator α) (img : Magnified α)
    (h : getFrameLast m = some (img, m')) (hm : CursorBounded m) : CursorBounded m' := by
  unfold getFrameLast at h
  split at h
  · exact Option.noConfusion h
  · simp only [Option.some.injEq, Prod.mk.injEq] at h
    obtain ⟨-, rfl⟩ := h
    refine ⟨le_refl _, ?_⟩
    have := hm.2
    simp only [List.length_tail]
    omega

theorem getFrameFirst_bounded {α : Type} (m m' : Magnificator α) (img : Magnified α)
    (h : getFrameFirst m = some (img, m')) (hm : CursorBounded m) : CursorBounded m' := by
  unfold getFrameFirst at h
  split at h
  · exact Option.noConfusion h
  · simp only [Option.some.injEq, Prod.mk.injEq] at h
    obtain ⟨-, rfl⟩ := h
    refine ⟨le_refl _, ?_⟩
    have := hm.2
    simp only [List.length_tail]
    omega

theorem getFrameAt_bounded {α : Type} (m m' : Magnificator α) (n : Int) (img : Magnified α)
    (h : getFrameAt m n = some (img, m')) (hm : CursorBounded m) : CursorBounded m' := by
  unfold getFrameAt at h
  simp only at h
  split at h
  · split at h
    · exact Option.noConfusion h
    · split at h
      · exact Option.noConfusion h
      · simp only [Option.some.injEq, Prod.mk.injEq] at h
        obtain ⟨-, rfl⟩ := h
        exact ⟨le_refl _, hm.2⟩
  · cases hl : getFrameLast m with
    | none => rw [hl] at h; exact Option.noConfusion h
    | some r =>
      obtain ⟨img1, m1⟩ := r
      rw [hl] at h
      simp only [Option.some.injEq, Prod.mk.injEq] at h
      obtain ⟨-, rfl⟩ := h
      exact ⟨le_refl _, (getFrameLast_bounded m m1 img1 hl hm).2⟩

/-! ## The loop bounds are never what stops a loop -/

theorem laplaceMagnifyLoop_exit {α : Type} (cv : Vision α) (p : Int)
    (n : ℕ) : ∀ m m' : Magnificator α, laplaceMagnifyLoop cv p n m = some m' →
      p - m.currentFrame ≤ n → p ≤ m'.currentFrame := by
  induction n with
  | zero =>
    intro m m' h hn
    simp only [laplaceMagnifyLoop, Option.some.injEq] at h
    subst h
    push_cast at hn; omega
  | succ n ih =>
    intro m m' h hn
    simp only [laplaceMagnifyLoop] at h
    split at h
    · cases hb : laplaceMagnifyBody cv m with
      | none => rw [hb] at h; exact Option.noConfusion h
      | some m1 =>
        rw [hb] at h
        obtain ⟨hc, -, -⟩ := laplaceMagnifyBody_counts cv m m1 hb
        exact ih m1 m' h (by rw [hc]; push_cast at hn; omega)
    · simp only [Option.some.injEq] at h
      subst h; omega

theorem rieszMagnifyLoop_exit {α : Type} (cv : Vision α) (p : Int)
    (n : ℕ) : ∀ m m' : Magnificator α, rieszMagnifyLoop cv p n m = some m' →
      p - m.currentFrame ≤ n → p ≤ m'.currentFrame := by
  induction n with
  | zero =>
    intro m m' h hn
    simp only [rieszMagnifyLoop, Option.some.injEq] at h
    subst h
    push_cast at hn; omega
  | succ n ih =>
    intro m m' h hn
    simp only [rieszMagnifyLoop] at h
    split at h
    · cases hb : rieszMagnifyBody cv m with
      | none => rw [hb] at h; exact Option.noConfusion h
      | some m1 =>
        rw [hb] at h
        obtain ⟨hc, -, -⟩ := rieszMagnifyBody_counts cv m m1 hb
        exact ih m1 m' h (by rw [hc]; push_cast at hn; omega)
    · simp only [Option.some.injEq] at h
      subst h; omega

theorem colorMagnifyLoop_exit {α : Type} (p : Int) (n : ℕ) :
    ∀ c c' : ColorLoop α, colorMagnifyLoop p n c = some c' →
      p - c.mag.currentFrame ≤ n → p ≤ c'.mag.currentFrame := by
  induction n with
  | zero =>
    intro c c' h hn
    simp only [colorMagnifyLoop, Option.some.injEq] at h
    subst h
    push_cast at hn; omega
  | succ n ih =>
    intro c c' h hn
    simp only [colorMagnifyLoop] at h
    split at h
    · cases hb : colorMagnifyBody c with
      | none => rw [hb] at h; exact Option.noConfusion h
      | some c1 =>
        rw [hb] at h
        refine ih c1 c' h ?_
        obtain ⟨-, input, rest, -, rfl⟩ := colorMagnifyBody_some c c1 hb
        simp only; push_cast at hn; omega
    · simp only [Option.some.injEq] at h
      subst h; omega

/-- The second loop of `colorMagnify`, given at least `currentFrame - i`
iterations, appends exactly one frame for each index from `i` up to the
cursor. -/
theorem colorMagnifyEmit_length {α : Type} (n : ℕ) :
    ∀ (i : Int) (frames : List α) (m m' : Magnificator α),
      colorMagnifyEmit n i frames m = some m' → m.currentFrame - i ≤ n →
      m'.magnifiedBuffer.length = m.magnifiedBuffer.length + (m.currentFrame - i).toNat := by
  induction n with
  | zero =>
    intro i frames m m' h h1
    simp only [colorMagnifyEmit, Option.some.injEq] at h
    subst h
    push_cast at h1
    have : (m.currentFrame - i).toNat = 0 := by omega
    omega
  | succ n ih =>
    intro i frames m m' h h1
    simp only [colorMagnifyEmit] at h
    split at h
    · cases frames with
      | nil => exact Option.noConfusion h
      | cons f rest =>
        simp only at h
        have := ih (i + 1) rest _ m' h (by simp only; push_cast at h1; omega)
        rw [this]
        simp only [List.length_append, List.length_singleton]
        omega
    · simp only [Option.some.injEq] at h
      subst h
      have : (m.currentFrame - i).toNat = 0 := by omega
      omega

theorem magnificatorStep_bounded {α : Type} {cv : Vision α}
    {m m' : Magnificator α} (h : MagnificatorStep cv m m') (hm : CursorBounded m) :
    CursorBounded m' := by
  cases h with
  | push frame => exact hm
  | configure flags settings => exact hm
  | color _ h => exact colorMagnify_bounded m m' h hm
  | laplace _ h => exact laplaceMagnify_bounded cv m m' h hm
  | riesz _ h => exact rieszMagnify_bounded cv m m' h hm
  | first _ img h => exact getFrameFirst_bounded m m' img h hm
  | last _ img h => exact getFrameLast_bounded m m' img h hm
  | atIndex _ n img h => exact getFrameAt_bounded m m' n img h hm
  | clear => exact ⟨by simp [clearBuffer], by simp [clearBuffer]⟩

theorem magnificatorReachable_bounded {α : Type} {cv : Vision α}
    {m : Magnificator α} (h : MagnificatorReachable cv m) : CursorBounded m := by
  induction h with
  | init pBuffer flags settings => exact ⟨by simp [Magnificator.init], by simp [Magnificator.init]⟩
  | step m m' _ hstep ih => exact magnificatorStep_bounded hstep ih

/-- C6: in every state reachable from a freshly constructed Magnificator by the
magnification routines, the three extraction functions and `clearBuffer`
(interleaved with frames pushed on the input queue and with changes of flags
and settings), the `currentFrame` cursor is at most the number of frames ever
appended to the magnified buffer. -/
theorem currentFrame_le_appended {α : Type} (cv : Vision α)
    (m : Magnificator α) (h : MagnificatorReachable cv m) :
    m.currentFrame ≤ (m.appended : Int) := by
  obtain ⟨h1, h2⟩ := magnificatorReachable_bounded h
  have : (m.magnifiedBuffer.length : Int) ≤ (m.appended : Int) := by exact_mod_cast h2
  omega

theorem currentFrame_le_appended_witness :
    ∃ m img m',
      laplaceMagnify bgrStream (Magnificator.init [0, 1] laplaceFlags sampleSettings) = some m ∧
        getFrameLast m = some (img, m') ∧ m'.currentFrame ≤ (m'.appended : Int) :=
  ⟨_, _, _, rfl, rfl,
    currentFrame_le_appended bgrStream _
      (.step _ _
        (.step _ _ (.init [0, 1] laplaceFlags sampleSettings) (.laplace _ _ rfl))
        (.last _ _ _ rfl))⟩

/-! ## What a round leaves behind -/

theorem RoundEffect.trans {α : Type} {m m1 m2 : Magnificator α} {q1 q2 : List α}
    {o1 o2 : List (Magnified α)} (h1 : RoundEffect m m1 q1 o1) (h2 : RoundEffect m1 m2 q2 o2) :
    RoundEffect m m2 q2 (o1 ++ o2) := by
  obtain ⟨-, b1, c1, d1, e1⟩ := h1
  obtain ⟨a2, b2, c2, d2, e2⟩ := h2
  exact ⟨a2, by rw [b2, b1, List.append_assoc], by rw [c2, c1, List.append_assoc],
    by rw [d2, d1], by rw [e2, e1]⟩

theorem laplaceMagnifyBody_effect {α : Type} (cv : Vision α) (m m' : Magnificator α) (a : α)
    (rest : List α) (hq : m.processingBuffer = a :: rest)
    (h : laplaceMagnifyBody cv m = some m') :
    RoundEffect m m' (if m.currentFrame = 0 then a :: rest else rest)
        [Magnified.laplace a (decide (0 < m.currentFrame))] ∧
      m'.currentFrame = m.currentFrame + 1 ∧ m'.levels = m.levels ∧
      laplaceMagnifyThrows cv m a = false ∧ m' = laplaceMagnifyStep cv m a rest := by
  obtain ⟨input, rest', hq', hthrow, rfl⟩ := laplaceMagnifyBody_some cv m m' h
  rw [hq] at hq'
  obtain ⟨rfl, rfl⟩ := List.cons.inj hq'
  obtain ⟨h1, h2, h3⟩ := laplaceMagnifyStep_config cv m a rest
  refine ⟨⟨?_, laplaceMagnifyStep_magnifiedBuffer cv m a rest,
    (laplaceMagnifyStep_appended cv m a rest).2, h1, h2⟩,
    laplaceMagnifyStep_currentFrame cv m a rest, h3, hthrow, rfl⟩
  rw [laplaceMagnifyStep_processingBuffer, hq]

theorem rieszMagnifyBody_effect {α : Type} (cv : Vision α) (m m' : Magnificator α) (a : α)
    (rest : List α) (hq : m.processingBuffer = a :: rest)
    (h : rieszMagnifyBody cv m = some m') :
    RoundEffect m m' (if 0 < m.currentFrame then rest else a :: rest)
        [Magnified.riesz a (decide (0 < m.currentFrame))] ∧
      m'.currentFrame = m.currentFrame + 1 ∧ m'.levels = m.levels := by
  obtain ⟨input, rest', hq', -, h1, h2, h3, -, h5, h6, h7, h8⟩ := rieszMagnifyBody_some cv m m' h
  rw [hq] at hq'
  obtain ⟨rfl, rfl⟩ := List.cons.inj hq'
  refine ⟨⟨?_, h2, h5, h6, h7⟩, h3, h8⟩
  rw [h1, hq]

/-- Color magnification on a filled queue `[a, b]`, when it returns: `levels`
is at least 1; with cursor 0 both frames are taken, with cursor 1 only `a`. -/
theorem colorMagnify_effect {α : Type} (m m' : Magnificator α) (a b : α)
    (hq : m.processingBuffer = [a, b]) (h : colorMagnify m = some m') :
    (m.currentFrame = 0 →
        1 ≤ m.imgProcSettings.levels ∧
          RoundEffect m m' [] [Magnified.color a 0, Magnified.color b 1]) ∧
      (m.currentFrame = 1 →
        1 ≤ m.imgProcSettings.levels ∧ RoundEffect m m' [b] [Magnified.color a 1]) := by
  refine ⟨?_, ?_⟩
  · intro hc
    rw [colorMagnify_cursor_zero m a b hq hc] at h
    split at h
    · rename_i hlev
      simp only [Option.some.injEq] at h
      subst h
      exact ⟨hlev, rfl, rfl, rfl, rfl, rfl⟩
    · exact Option.noConfusion h
  · intro hc
    rw [colorMagnify_cursor_one m a b hq hc] at h
    split at h
    · rename_i hlev
      simp only [Option.some.injEq] at h
      subst h
      exact ⟨hlev, rfl, rfl, rfl, rfl, rfl⟩
    · exact Option.noConfusion h

/-- Laplacian magnification on a filled queue `[a, b]`, when it returns: with
cursor 0 the frame `a` is the input of two iterations (the first-frame branch
leaves it at the head of the queue), with cursor 1 of one; `b` stays in the
queue. -/
theorem laplaceMagnify_effect {α : Type} (cv : Vision α) (m m' : Magnificator α) (a b : α)
    (hq : m.processingBuffer = [a, b]) (h : laplaceMagnify cv m = some m') :
    (m.currentFrame = 0 →
        RoundEffect m m' [b] [Magnified.laplace a false, Magnified.laplace a true]) ∧
      (m.currentFrame = 1 → RoundEffect m m' [b] [Magnified.laplace a true]) := by
  have hlen : m.processingBuffer.length = 2 := by rw [hq]; rfl
  refine ⟨?_, ?_⟩
  · intro hc
    rw [laplaceMagnify_cursor_zero cv m hlen hc, Option.bind_eq_some] at h
    obtain ⟨m1, hb1, hb2⟩ := h
    obtain ⟨e1, c1, -, -, -⟩ := laplaceMagnifyBody_effect cv { m with levels := m.imgProcSettings.levels } m1 a [b] hq hb1
    simp only [hc, if_true, lt_self_iff_false, decide_False] at e1 c1
    obtain ⟨e2, -, -, -, -⟩ := laplaceMagnifyBody_effect cv m1 m' a [b] e1.1 hb2
    have hc1 : m1.currentFrame = 1 := by rw [c1]; rfl
    simp only [hc1, one_ne_zero, if_false, zero_lt_one, decide_True] at e2
    exact RoundEffect.trans (m := m) e1 e2
  · intro hc
    rw [laplaceMagnify_cursor_one cv m hlen hc] at h
    obtain ⟨e1, -, -, -, -⟩ := laplaceMagnifyBody_effect cv { m with levels := m.imgProcSettings.levels } m' a [b] hq h
    simp only [hc, one_ne_zero, if_false, zero_lt_one, decide_True] at e1
    exact e1

/-- Riesz magnification on a filled queue `[a, b]`, when it returns: as for
Laplacian magnification, `a` is the input of two iterations with cursor 0 and
of one with cursor 1. -/
theorem rieszMagnify_effect {α : Type} (cv : Vision α) (m m' : Magnificator α) (a b : α)
    (hq : m.processingBuffer = [a, b]) (h : rieszMagnify cv m = some m') :
    (m.currentFrame = 0 →
        RoundEffect m m' [b] [Magnified.riesz a false, Magnified.riesz a true]) ∧
      (m.currentFrame = 1 → RoundEffect m m' [b] [Magnified.riesz a true]) := by
  have hlen : m.processingBuffer.length = 2 := by rw [hq]; rfl
  refine ⟨?_, ?_⟩
  · intro hc
    rw [rieszMagnify_cursor_zero cv m hlen hc, Option.bind_eq_some] at h
    obtain ⟨m1, hb1, hb2⟩ := h
    obtain ⟨e1, c1, -⟩ := rieszMagnifyBody_effect cv { m with levels := m.imgProcSettings.levels } m1 a [b] hq hb1
    simp only [hc, lt_self_iff_false, if_false, decide_False] at e1 c1
    obtain ⟨e2, -, -⟩ := rieszMagnifyBody_effect cv m1 m' a [b] e1.1 hb2
    have hc1 : m1.currentFrame = 1 := by rw [c1]; rfl
    simp only [hc1, zero_lt_one, if_true, decide_True] at e2
    exact RoundEffect.trans (m := m) e1 e2
  · intro hc
    rw [rieszMagnify_cursor_one cv m hlen hc] at h
    obtain ⟨e1, -, -⟩ := rieszMagnifyBody_effect cv { m with levels := m.imgProcSettings.levels } m' a [b] hq h
    simp only [hc, zero_lt_one, if_true, decide_True] at e1
    exact e1

/-- After a round that appended frames to a buffer holding at most one frame
and two frames in all, `getFrameLast` hands out the newest frame and keeps it
as the only frame of the buffer, with cursor 1. -/
theorem takeMagnified_effect {α : Type} (t t' : ProcessingThread α) (m : Magnificator α)
    (q : List α) (pre : List (Magnified α)) (y last : Magnified α)
    (he : RoundEffect t.magnificator m q (pre ++ [last]))
    (htwo : t.magnificator.magnifiedBuffer ++ pre = [y])
    (h : takeMagnified t (some m) = some t') :
    t'.currentFrame = some (Shown.magnified last) ∧
      t'.magnificator.processingBuffer = q ∧ t'.magnificator.magnifiedBuffer = [last] ∧
      t'.magnificator.currentFrame = 1 ∧
      t'.magnificator.appendedFrames = t.magnificator.appendedFrames ++ (pre ++ [last]) ∧
      t'.magnificator.imgProcFlags = t.magnificator.imgProcFlags ∧
      t'.magnificator.imgProcSettings = t.magnificator.imgProcSettings ∧
      t'.processingBufferLength = t.processingBufferLength ∧
      t'.magnificator.prevFrame = m.prevFrame ∧
      t'.magnificator.prevFrameChannels = m.prevFrameChannels ∧
      t'.magnificator.motionChannels = m.motionChannels ∧
      t'.magnificator.motionPyramid = m.motionPyramid ∧
      t'.magnificator.lowpassHi = m.lowpassHi ∧ t'.magnificator.lowpassLo = m.lowpassLo := by
  obtain ⟨e1, e2, e3, e4, e5⟩ := he
  have hbuf : m.magnifiedBuffer = [y, last] := by
    rw [e2, ← List.append_assoc, htwo]; rfl
  simp only [takeMagnified, getFrameLast, hbuf, List.getLast?_cons_cons, List.getLast?_singleton,
    List.tail_cons, List.length_singleton, Nat.cast_one, Option.some.injEq] at h
  subst h
  exact ⟨rfl, e1, rfl, rfl, e3, e4, e5, rfl, rfl, rfl, rfl, rfl, rfl, rfl⟩

theorem takeMagnified_returns {α : Type} (t : ProcessingThread α) (m : Magnificator α)
    (h : m.magnifiedBuffer ≠ []) : ∃ t', takeMagnified t (some m) = some t' := by
  obtain ⟨x, xs, hx⟩ := List.exists_cons_of_ne_nil h
  have hl : m.magnifiedBuffer.getLast? = some ((x :: xs).getLast (List.cons_ne_nil x xs)) := by
    rw [hx]; exact List.getLast?_eq_getLast _ _
  simp only [takeMagnified, getFrameLast, hl]
  exact ⟨_, rfl⟩

/-! ## One iteration of the loop -/

/-- An iteration on an empty input queue (configured length 2) pushes the frame
and publishes it unchanged. -/
theorem processFrame_push {α : Type} (cv : Vision α) (t : ProcessingThread α) (f : α)
    (hq : t.magnificator.processingBuffer = []) (hl : t.processingBufferLength = 2) :
    processFrame cv t f =
      some (fillProcessingBuffer { t with currentFrame := some (Shown.original f) } f) := by
  simp [processFrame, processingBufferFilled, fillProcessingBuffer, hq, hl]

/-- An iteration with one frame waiting (configured length 2): the pushed frame
fills the queue and the routine selected by the flags runs. -/
theorem processFrame_filled {α : Type} (cv : Vision α) (t : ProcessingThread α) (a f : α)
    (hq : t.magnificator.processingBuffer = [a]) (hl : t.processingBufferLength = 2) :
    processFrame cv t f =
      if t.magnificator.imgProcFlags.colorMagnifyOn = true then
        takeMagnified (fillProcessingBuffer { t with currentFrame := some (Shown.original f) } f)
          (colorMagnify
            (fillProcessingBuffer { t with currentFrame := some (Shown.original f) } f).magnificator)
      else if t.magnificator.imgProcFlags.laplaceMagnifyOn = true then
        takeMagnified (fillProcessingBuffer { t with currentFrame := some (Shown.original f) } f)
          (laplaceMagnify cv
            (fillProcessingBuffer { t with currentFrame := some (Shown.original f) } f).magnificator)
      else if t.magnificator.imgProcFlags.rieszMagnifyOn = true then
        takeMagnified (fillProcessingBuffer { t with currentFrame := some (Shown.original f) } f)
          (rieszMagnify cv
            (fillProcessingBuffer { t with currentFrame := some (Shown.original f) } f).magnificator)
      else
        some { t with
          currentFrame := some (Shown.original f)
          magnificator := { t.magnificator with processingBuffer := [f] }
          frameNum := 0
          prevFrameNum := 0 } := by
  have hfilled : processingBufferFilled
      (fillProcessingBuffer { t with currentFrame := some (Shown.original f) } f) = true := by
    simp [processingBufferFilled, fillProcessingBuffer, hq, hl]
  have e : (fillProcessingBuffer { t with currentFrame := some (Shown.original f) }
      f).magnificator.imgProcFlags = t.magnificator.imgProcFlags := rfl
  simp only [processFrame, hfilled, if_true, e]
  by_cases h1 : t.magnificator.imgProcFlags.colorMagnifyOn = true
  · simp only [if_pos h1]
  · simp only [if_neg h1]
    by_cases h2 : t.magnificator.imgProcFlags.laplaceMagnifyOn = true
    · simp only [if_pos h2]
    · simp only [if_neg h2]
      by_cases h3 : t.magnificator.imgProcFlags.rieszMagnifyOn = true
      · simp only [if_pos h3]
      · simp only [if_neg h3]
        simp [fillProcessingBuffer, hq]

theorem filled_buffer {α : Type} (t : ProcessingThread α) (a f : α)
    (hq : t.magnificator.processingBuffer = [a]) :
    (fillProcessingBuffer { t with currentFrame := some (Shown.original f) } f).magnificator.processingBuffer =
      [a, f] := by
  simp [fillProcessingBuffer, hq]

/-- A filled iteration in color mode that returns. -/
theorem tick_filled_color {α : Type} (cv : Vision α) (t t' : ProcessingThread α) (a f : α)
    (hq : t.magnificator.processingBuffer = [a]) (hl : t.processingBufferLength = 2)
    (hshape : (t.magnificator.magnifiedBuffer = [] ∧ t.magnificator.currentFrame = 0) ∨
      ((∃ x, t.magnificator.magnifiedBuffer = [x]) ∧ t.magnificator.currentFrame = 1))
    (hcol : t.magnificator.imgProcFlags.colorMagnifyOn = true)
    (h : processFrame cv t f = some t') :
    1 ≤ t.magnificator.imgProcSettings.levels ∧ t'.processingBufferLength = 2 ∧
      t'.magnificator.imgProcFlags = t.magnificator.imgProcFlags ∧
      t'.magnificator.imgProcSettings = t.magnificator.imgProcSettings ∧
      t'.magnificator.currentFrame = 1 ∧
      ((t.magnificator.currentFrame = 0 ∧
          t'.currentFrame = some (Shown.magnified (Magnified.color f 1)) ∧
          t'.magnificator.processingBuffer = [] ∧
          t'.magnificator.magnifiedBuffer = [Magnified.color f 1] ∧
          t'.magnificator.appendedFrames =
            t.magnificator.appendedFrames ++ [Magnified.color a 0, Magnified.color f 1]) ∨
        (t.magnificator.currentFrame = 1 ∧
          t'.currentFrame = some (Shown.magnified (Magnified.color a 1)) ∧
          t'.magnificator.processingBuffer = [f] ∧
          t'.magnificator.magnifiedBuffer = [Magnified.color a 1] ∧
          t'.magnificator.appendedFrames =
            t.magnificator.appendedFrames ++ [Magnified.color a 1])) := by
  rw [processFrame_filled cv t a f hq hl, if_pos hcol] at h
  cases hm : colorMagnify
      (fillProcessingBuffer { t with currentFrame := some (Shown.original f) } f).magnificator with
  | none => rw [hm] at h; exact Option.noConfusion h
  | some m =>
    rw [hm] at h
    obtain ⟨e0, e1⟩ := colorMagnify_effect _ m a f (filled_buffer t a f hq) hm
    rcases hshape with ⟨hb, hc⟩ | ⟨⟨x, hb⟩, hc⟩
    · obtain ⟨hlev, he⟩ := e0 hc
      obtain ⟨g1, g2, g3, g4, g5, g6, g7, g8, -⟩ :=
        takeMagnified_effect _ t' m [] [Magnified.color a 0] (Magnified.color a 0)
          (Magnified.color f 1) he (by simp [fillProcessingBuffer, hb]) h
      exact ⟨hlev, by rw [g8]; exact hl, g6, g7, g4, Or.inl ⟨hc, g1, g2, g3, g5⟩⟩
    · obtain ⟨hlev, he⟩ := e1 hc
      obtain ⟨g1, g2, g3, g4, g5, g6, g7, g8, -⟩ :=
        takeMagnified_effect _ t' m [f] [] x (Magnified.color a 1) he
          (by simp [fillProcessingBuffer, hb]) h
      exact ⟨hlev, by rw [g8]; exact hl, g6, g7, g4, Or.inr ⟨hc, g1, g2, g3, g5⟩⟩

/-- A filled iteration in Laplacian mode that returns. -/
theorem tick_filled_laplace {α : Type} (cv : Vision α) (t t' : ProcessingThread α) (a f : α)
    (hq : t.magnificator.processingBuffer = [a]) (hl : t.processingBufferLength = 2)
    (hshape : (t.magnificator.magnifiedBuffer = [] ∧ t.magnificator.currentFrame = 0) ∨
      ((∃ x, t.magnificator.magnifiedBuffer = [x]) ∧ t.magnificator.currentFrame = 1))
    (hcol : t.magnificator.imgProcFlags.colorMagnifyOn = false)
    (hlap : t.magnificator.imgProcFlags.laplaceMagnifyOn = true)
    (h : processFrame cv t f = some t') :
    t'.processingBufferLength = 2 ∧
      t'.magnificator.imgProcFlags = t.magnificator.imgProcFlags ∧
      t'.magnificator.imgProcSettings = t.magnificator.imgProcSettings ∧
      t'.magnificator.currentFrame = 1 ∧
      t'.currentFrame = some (Shown.magnified (Magnified.laplace a true)) ∧
      t'.magnificator.processingBuffer = [f] ∧
      t'.magnificator.magnifiedBuffer = [Magnified.laplace a true] ∧
      t'.magnificator.appendedFrames =
        t.magnificator.appendedFrames ++
          (if t.magnificator.currentFrame = 0 then
            [Magnified.laplace a false, Magnified.laplace a true]
          else [Magnified.laplace a true]) := by
  have hcol' : ¬ t.magnificator.imgProcFlags.colorMagnifyOn = true := by simp [hcol]
  rw [processFrame_filled cv t a f hq hl, if_neg hcol', if_pos hlap] at h
  cases hm : laplaceMagnify cv
      (fillProcessingBuffer { t with currentFrame := some (Shown.original f) } f).magnificator with
  | none => rw [hm] at h; exact Option.noConfusion h
  | some m =>
    rw [hm] at h
    obtain ⟨e0, e1⟩ := laplaceMagnify_effect cv _ m a f (filled_buffer t a f hq) hm
    rcases hshape with ⟨hb, hc⟩ | ⟨⟨x, hb⟩, hc⟩
    · obtain ⟨g1, g2, g3, g4, g5, g6, g7, g8, -⟩ :=
        takeMagnified_effect _ t' m [f] [Magnified.laplace a false] (Magnified.laplace a false)
          (Magnified.laplace a true) (e0 hc) (by simp [fillProcessingBuffer, hb]) h
      exact ⟨by rw [g8]; exact hl, g6, g7, g4, g1, g2, g3, by rw [g5, if_pos hc]; rfl⟩
    · have hc0 : ¬ t.magnificator.currentFrame = 0 := by rw [hc]; decide
      obtain ⟨g1, g2, g3, g4, g5, g6, g7, g8, -⟩ :=
        takeMagnified_effect _ t' m [f] [] x (Magnified.laplace a true) (e1 hc)
          (by simp [fillProcessingBuffer, hb]) h
      exact ⟨by rw [g8]; exact hl, g6, g7, g4, g1, g2, g3, by rw [g5, if_neg hc0]; rfl⟩

/-- A filled iteration in Riesz mode that returns. -/
theorem tick_filled_riesz {α : Type} (cv : Vision α) (t t' : ProcessingThread α) (a f : α)
    (hq : t.magnificator.processingBuffer = [a]) (hl : t.processingBufferLength = 2)
    (hshape : (t.magnificator.magnifiedBuffer = [] ∧ t.magnificator.currentFrame = 0) ∨
      ((∃ x, t.magnificator.magnifiedBuffer = [x]) ∧ t.magnificator.currentFrame = 1))
    (hcol : t.magnificator.imgProcFlags.colorMagnifyOn = false)
    (hlap : t.magnificator.imgProcFlags.laplaceMagnifyOn = false)
    (hrie : t.magnificator.imgProcFlags.rieszMagnifyOn = true)
    (h : processFrame cv t f = some t') :
    t'.processingBufferLength = 2 ∧
      t'.magnificator.imgProcFlags = t.magnificator.imgProcFlags ∧
      t'.magnificator.imgProcSettings = t.magnificator.imgProcSettings ∧
      t'.magnificator.currentFrame = 1 ∧
      t'.currentFrame = some (Shown.magnified (Magnified.riesz a true)) ∧
      t'.magnificator.processingBuffer = [f] ∧
      t'.magnificator.magnifiedBuffer = [Magnified.riesz a true] ∧
      t'.magnificator.appendedFrames =
        t.magnificator.appendedFrames ++
          (if t.magnificator.currentFrame = 0 then
            [Magnified.riesz a false, Magnified.riesz a true]
          else [Magnified.riesz a true]) := by
  have hcol' : ¬ t.magnificator.imgProcFlags.colorMagnifyOn = true := by simp [hcol]
  have hlap' : ¬ t.magnificator.imgProcFlags.laplaceMagnifyOn = true := by simp [hlap]
  rw [processFrame_filled cv t a f hq hl, if_neg hcol', if_neg hlap', if_pos hrie] at h
  cases hm : rieszMagnify cv
      (fillProcessingBuffer { t with currentFrame := some (Shown.original f) } f).magnificator with
  | none => rw [hm] at h; exact Option.noConfusion h
  | some m =>
    rw [hm] at h
    obtain ⟨e0, e1⟩ := rieszMagnify_effect cv _ m a f (filled_buffer t a f hq) hm
    rcases hshape with ⟨hb, hc⟩ | ⟨⟨x, hb⟩, hc⟩
    · obtain ⟨g1, g2, g3, g4, g5, g6, g7, g8, -⟩ :=
        takeMagnified_effect _ t' m [f] [Magnified.riesz a false] (Magnified.riesz a false)
          (Magnified.riesz a true) (e0 hc) (by simp [fillProcessingBuffer, hb]) h
      exact ⟨by rw [g8]; exact hl, g6, g7, g4, g1, g2, g3, by rw [g5, if_pos hc]; rfl⟩
    · have hc0 : ¬ t.magnificator.currentFrame = 0 := by rw [hc]; decide
      obtain ⟨g1, g2, g3, g4, g5, g6, g7, g8, -⟩ :=
        takeMagnified_effect _ t' m [f] [] x (Magnified.riesz a true) (e1 hc)
          (by simp [fillProcessingBuffer, hb]) h
      exact ⟨by rw [g8]; exact hl, g6, g7, g4, g1, g2, g3, by rw [g5, if_neg hc0]; rfl⟩

/-- A filled iteration with no routine enabled: the queue head is erased and
the frame counters are reset. -/
theorem tick_filled_off {α : Type} (cv : Vision α) (t : ProcessingThread α) (a f : α)
    (hq : t.magnificator.processingBuffer = [a]) (hl : t.processingBufferLength = 2)
    (hoff : t.magnificator.imgProcFlags.magnifyOn = false) :
    processFrame cv t f =
      some { t with
        currentFrame := some (Shown.original f)
        magnificator := { t.magnificator with processingBuffer := [f] }
        frameNum := 0
        prevFrameNum := 0 } := by
  simp only [ImageProcessingFlags.magnifyOn, Bool.or_eq_false_iff] at hoff
  obtain ⟨⟨h1, h2⟩, h3⟩ := hoff
  rw [processFrame_filled cv t a f hq hl]
  simp [h1, h2, h3]

/-! ## The loop on supported frames -/

theorem queue_cases {α : Type} (q : List α) (h : q.length ≤ 1) : q = [] ∨ ∃ a, q = [a] := by
  match q, h with
  | [], _ => exact Or.inl rfl
  | [a], _ => exact Or.inr ⟨a, rfl⟩
  | _ :: _ :: _, h => simp at h

theorem supported_congr {α : Type} (cv : Vision α) (t t' : ProcessingThread α) (a : α)
    (hf : t'.magnificator.imgProcFlags = t.magnificator.imgProcFlags)
    (hs : t'.magnificator.imgProcSettings = t.magnificator.imgProcSettings)
    (h : Supported cv t a) : Supported cv t' a := by
  unfold Supported at h ⊢
  rw [hf, hs]
  exact h

theorem grayscalePath_of_bgr (flags : ImageProcessingFlags) (c : Int)
    (hgray : flags.grayscaleOn = false) (hc : bgrSource c = true) :
    grayscalePath flags c = false := by
  have h2 : ¬ c ≤ 2 := by
    simp only [bgrSource, decide_eq_true_eq] at hc
    omega
  simp [grayscalePath, hgray, h2]

theorem riesz_accepts (flags : ImageProcessingFlags) (c : Int)
    (h : flags.grayscaleOn = true ∨ c ≤ 4) :
    grayscalePath flags c = true ∨ bgrSource c = true := by
  rcases h with h | h
  · exact Or.inl (by simp [grayscalePath, h])
  · by_cases h2 : c ≤ 2
    · exact Or.inl (by simp [grayscalePath, h2])
    · refine Or.inr ?_
      simp only [bgrSource, decide_eq_true_eq]
      omega

/-- The first-frame branch on a BGR frame processed in color returns; the
frame stays at the head of the queue and the Laplacian state is seeded at the
depth `levels`. -/
theorem laplaceMagnifyBody_first_returns {α : Type} (cv : Vision α) (m : Magnificator α)
    (a : α) (rest : List α) (hq : m.processingBuffer = a :: rest) (hc : m.currentFrame = 0)
    (hgray : m.imgProcFlags.grayscaleOn = false) (ha : bgrSource (cv.channels a) = true) :
    ∃ m1, laplaceMagnifyBody cv m = some m1 ∧ m1.processingBuffer = a :: rest ∧
      m1.currentFrame = 1 ∧ m1.imgProcFlags = m.imgProcFlags ∧
      m1.imgProcSettings = m.imgProcSettings ∧ m1.levels = m.levels ∧
      m1.prevFrame.isSome = true ∧ bgrSource m1.prevFrameChannels = true ∧
      m1.motionChannels = 3 ∧ m1.motionPyramid.length = m.levels.toNat + 1 ∧
      m1.lowpassHi.length = m.levels.toNat + 1 ∧ m1.lowpassLo.length = m.levels.toNat + 1 := by
  have hg : grayscalePath m.imgProcFlags (cv.channels a) = false :=
    grayscalePath_of_bgr _ _ hgray ha
  have ht : laplaceMagnifyThrows cv m a = false := by
    rw [laplaceMagnifyThrows_first cv m a hc]
    simp [ha]
  obtain ⟨f1, f2, f3, f4, f5, f6⟩ := laplaceMagnifyStep_first cv m a rest hc
  obtain ⟨c1, c2, c3⟩ := laplaceMagnifyStep_config cv m a rest
  refine ⟨_, laplaceMagnifyBody_of_not_throws cv m a rest hq ht, ?_, ?_, c1, c2, c3, ?_, ?_, ?_,
    ?_, ?_, ?_⟩
  · rw [laplaceMagnifyStep_processingBuffer, if_pos hc, hq]
  · rw [laplaceMagnifyStep_currentFrame, hc]; rfl
  · rw [f1]; rfl
  · rw [f2]; exact ha
  · rw [f3, hg]; rfl
  · rw [f4, buildLaplacePyrFromImg_length]
  · rw [f5, buildLaplacePyrFromImg_length]
  · rw [f6, buildLaplacePyrFromImg_length]

/-- A later iteration on a BGR frame processed in color returns when
`prevFrame` holds a BGR frame and the pyramids were seeded in color at the
depth `levels`; it erases the queue head and keeps that state. -/
theorem laplaceMagnifyBody_next_returns {α : Type} (cv : Vision α) (m : Magnificator α)
    (a : α) (rest : List α) (hq : m.processingBuffer = a :: rest) (hc : 0 < m.currentFrame)
    (hgray : m.imgProcFlags.grayscaleOn = false) (ha : bgrSource (cv.channels a) = true)
    (hprev : m.prevFrame.isSome = true) (hpc : bgrSource m.prevFrameChannels = true)
    (hmc : m.motionChannels = 3) (hmp : m.motionPyramid.length = m.levels.toNat + 1)
    (hhi : m.lowpassHi.length = m.levels.toNat + 1)
    (hlo : m.lowpassLo.length = m.levels.toNat + 1) :
    ∃ m1, laplaceMagnifyBody cv m = some m1 ∧
      m1.imgProcSettings = m.imgProcSettings ∧
      m1.prevFrame.isSome = true ∧ bgrSource m1.prevFrameChannels = true ∧
      m1.motionChannels = 3 ∧ m1.motionPyramid.length = m.levels.toNat + 1 ∧
      m1.lowpassHi.length = m.levels.toNat + 1 ∧ m1.lowpassLo.length = m.levels.toNat + 1 := by
  have hg : grayscalePath m.imgProcFlags (cv.channels a) = false :=
    grayscalePath_of_bgr _ _ hgray ha
  have ht : laplaceMagnifyThrows cv m a = false :=
    laplaceMagnifyThrows_next cv m a hgray ha hprev hpc hmc hmp hhi hlo
  obtain ⟨n1, n2, n3, n4, n5, n6⟩ := laplaceMagnifyStep_next cv m a rest hc
  obtain ⟨-, c2, -⟩ := laplaceMagnifyStep_config cv m a rest
  refine ⟨_, laplaceMagnifyBody_of_not_throws cv m a rest hq ht, c2, ?_, ?_, ?_, ?_, ?_, ?_⟩
  · rw [n1]; rfl
  · rw [n2, hg]; rfl
  · rw [n3]; exact hmc
  · rw [n4]; exact hmp
  · rw [n5]; exact hhi
  · rw [n6]; exact hlo

/-- Laplacian magnification on a filled queue `[a, b]` whose head is a BGR
frame processed in color returns, from cursor 0 and from cursor 1 in a ready
state, and leaves a ready state. -/
theorem laplaceMagnify_returns {α : Type} (cv : Vision α) (m : Magnificator α) (a b : α)
    (hq : m.processingBuffer = [a, b]) (hgray : m.imgProcFlags.grayscaleOn = false)
    (ha : bgrSource (cv.channels a) = true)
    (hshape : m.currentFrame = 0 ∨ (m.currentFrame = 1 ∧ LaplaceReady m)) :
    ∃ m', laplaceMagnify cv m = some m' ∧ LaplaceReady m' := by
  have hlen : m.processingBuffer.length = 2 := by rw [hq]; rfl
  rcases hshape with hc | ⟨hc, hprev, hpc, hmc, hmp, hhi, hlo⟩
  · -- two iterations on `a`
    obtain ⟨m1, hb1, q1, c1, fl1, se1, le1, r1, r2, r3, r4, r5, r6⟩ :=
      laplaceMagnifyBody_first_returns cv { m with levels := m.imgProcSettings.levels } a [b]
        hq hc hgray ha
    obtain ⟨m2, hb2, se2, s1, s2, s3, s4, s5, s6⟩ :=
      laplaceMagnifyBody_next_returns cv m1 a [b] q1 (by rw [c1]; decide)
        (by rw [fl1]; exact hgray) ha r1 r2 r3 (by rw [r4, le1]) (by rw [r5, le1])
        (by rw [r6, le1])
    refine ⟨m2, ?_, s1, s2, s3, ?_, ?_, ?_⟩
    · rw [laplaceMagnify_cursor_zero cv m hlen hc, hb1, Option.some_bind, hb2]
    · rw [s4, le1, se2, se1]
    · rw [s5, le1, se2, se1]
    · rw [s6, le1, se2, se1]
  · -- one iteration on `a`
    obtain ⟨m1, hb1, se1, s1, s2, s3, s4, s5, s6⟩ :=
      laplaceMagnifyBody_next_returns cv { m with levels := m.imgProcSettings.levels } a [b]
        hq (by show 0 < m.currentFrame; rw [hc]; decide) hgray ha hprev hpc hmc hmp hhi hlo
    refine ⟨m1, by rw [laplaceMagnify_cursor_one cv m hlen hc, hb1], s1, s2, s3, ?_, ?_, ?_⟩
    · rw [s4, se1]
    · rw [s5, se1]
    · rw [s6, se1]

/-- Riesz magnification on a filled queue `[a, b]` whose head the conversion
accepts returns, from cursor 0 and from cursor 1. -/
theorem rieszMagnify_returns {α : Type} (cv : Vision α) (m : Magnificator α) (a b : α)
    (hq : m.processingBuffer = [a, b])
    (ha : grayscalePath m.imgProcFlags (cv.channels a) = true ∨ bgrSource (cv.channels a) = true)
    (hshape : m.currentFrame = 0 ∨ m.currentFrame = 1) :
    ∃ m', rieszMagnify cv m = some m' := by
  have hlen : m.processingBuffer.length = 2 := by rw [hq]; rfl
  obtain ⟨m1, hb1⟩ := rieszMagnifyBody_of_accepts cv
    { m with levels := m.imgProcSettings.levels } a [b] hq ha
  rcases hshape with hc | hc
  · obtain ⟨e1, -, -⟩ := rieszMagnifyBody_effect cv
      { m with levels := m.imgProcSettings.levels } m1 a [b] hq hb1
    have hq1 : m1.processingBuffer = a :: [b] := by
      have := e1.1
      simp only [hc, lt_self_iff_false, if_false] at this
      exact this
    obtain ⟨m2, hb2⟩ := rieszMagnifyBody_of_accepts cv m1 a [b] hq1 (by rw [e1.2.2.2.1]; exact ha)
    exact ⟨m2, by rw [rieszMagnify_cursor_zero cv m hlen hc, hb1, Option.some_bind, hb2]⟩
  · exact ⟨m1, by rw [rieszMagnify_cursor_one cv m hlen hc, hb1]⟩

theorem takeMagnified_ready {α : Type} (t t' : ProcessingThread α) (m : Magnificator α)
    (h : takeMagnified t (some m) = some t') (hr : LaplaceReady m) :
    LaplaceReady t'.magnificator := by
  cases hg : getFrameLast m with
  | none => simp [takeMagnified, hg] at h
  | some r =>
    obtain ⟨img, m'⟩ := r
    simp only [takeMagnified, hg, Option.some.injEq] at h
    subst h
    unfold getFrameLast at hg
    split at hg
    · exact Option.noConfusion hg
    · simp only [Option.some.injEq, Prod.mk.injEq] at hg
      obtain ⟨-, rfl⟩ := hg
      exact hr

theorem roundEffect_ne_nil {α : Type} {m m' : Magnificator α} {q : List α}
    {outs : List (Magnified α)} (h : RoundEffect m m' q outs) (hne : outs ≠ []) :
    m'.magnifiedBuffer ≠ [] := by
  rw [h.2.1]
  simp [hne]

/-- The shapes of the queues are kept by every iteration that returns, which
also leaves flags and settings as they were. -/
theorem processFrame_queueShape {α : Type} (cv : Vision α) (t t' : ProcessingThread α)
    (f : α) (hs : QueueShape t) (h : processFrame cv t f = some t') :
    QueueShape t' ∧ t'.magnificator.imgProcFlags = t.magnificator.imgProcFlags ∧
      t'.magnificator.imgProcSettings = t.magnificator.imgProcSettings := by
  obtain ⟨hl, hshape⟩ := hs
  have hlen : t.magnificator.processingBuffer.length ≤ 1 := by
    rcases hshape with ⟨h1, -, -⟩ | ⟨h1, -, -⟩ <;> exact h1
  have hshape' : (t.magnificator.magnifiedBuffer = [] ∧ t.magnificator.currentFrame = 0) ∨
      ((∃ x, t.magnificator.magnifiedBuffer = [x]) ∧ t.magnificator.currentFrame = 1) := by
    rcases hshape with ⟨-, h2, h3⟩ | ⟨-, h2, h3⟩
    · exact Or.inl ⟨h2, h3⟩
    · exact Or.inr ⟨h2, h3⟩
  rcases queue_cases _ hlen with hq | ⟨a, hq⟩
  · rw [processFrame_push cv t f hq hl, Option.some.injEq] at h
    subst h
    refine ⟨⟨hl, ?_⟩, rfl, rfl⟩
    rcases hshape' with ⟨h2, h3⟩ | ⟨h2, h3⟩
    · exact Or.inl ⟨by simp [fillProcessingBuffer, hq], h2, h3⟩
    · exact Or.inr ⟨by simp [fillProcessingBuffer, hq], h2, h3⟩
  · by_cases h1 : t.magnificator.imgProcFlags.colorMagnifyOn = true
    · obtain ⟨-, g1, g2, g3, g4, g5⟩ := tick_filled_color cv t t' a f hq hl hshape' h1 h
      refine ⟨⟨g1, Or.inr ⟨?_, ?_, g4⟩⟩, g2, g3⟩
      · rcases g5 with ⟨-, -, g, -, -⟩ | ⟨-, -, g, -, -⟩ <;> simp [g]
      · rcases g5 with ⟨-, -, -, g, -⟩ | ⟨-, -, -, g, -⟩ <;> exact ⟨_, g⟩
    · have h1' : t.magnificator.imgProcFlags.colorMagnifyOn = false := by simpa using h1
      by_cases h2 : t.magnificator.imgProcFlags.laplaceMagnifyOn = true
      · obtain ⟨g1, g2, g3, g4, -, g6, g7, -⟩ :=
          tick_filled_laplace cv t t' a f hq hl hshape' h1' h2 h
        exact ⟨⟨g1, Or.inr ⟨by simp [g6], ⟨_, g7⟩, g4⟩⟩, g2, g3⟩
      · have h2' : t.magnificator.imgProcFlags.laplaceMagnifyOn = false := by simpa using h2
        by_cases h3 : t.magnificator.imgProcFlags.rieszMagnifyOn = true
        · obtain ⟨g1, g2, g3, g4, -, g6, g7, -⟩ :=
            tick_filled_riesz cv t t' a f hq hl hshape' h1' h2' h3 h
          exact ⟨⟨g1, Or.inr ⟨by simp [g6], ⟨_, g7⟩, g4⟩⟩, g2, g3⟩
        · have h3' : t.magnificator.imgProcFlags.rieszMagnifyOn = false := by simpa using h3
          rw [tick_filled_off cv t a f hq hl
            (by simp [ImageProcessingFlags.magnifyOn, h1', h2', h3']), Option.some.injEq] at h
          subst h
          refine ⟨⟨hl, ?_⟩, rfl, rfl⟩
          rcases hshape' with ⟨g2, g3⟩ | ⟨g2, g3⟩
          · exact Or.inl ⟨by simp, g2, g3⟩
          · exact Or.inr ⟨by simp, g2, g3⟩

/-- On a supported frame an iteration returns and keeps the invariant. -/
theorem running_step {α : Type} (cv : Vision α) (t : ProcessingThread α) (f : α)
    (hr : Running cv t) (hs : Supported cv t f) :
    ∃ t', processFrame cv t f = some t' ∧ Running cv t' := by
  obtain ⟨hshape0, hsup, hready⟩ := hr
  have hq0 := hshape0
  obtain ⟨hl, hshape⟩ := hshape0
  have hlen : t.magnificator.processingBuffer.length ≤ 1 := by
    rcases hshape with ⟨h1, -, -⟩ | ⟨h1, -, -⟩ <;> exact h1
  have hshape' : (t.magnificator.magnifiedBuffer = [] ∧ t.magnificator.currentFrame = 0) ∨
      ((∃ x, t.magnificator.magnifiedBuffer = [x]) ∧ t.magnificator.currentFrame = 1) := by
    rcases hshape with ⟨-, h2, h3⟩ | ⟨-, h2, h3⟩
    · exact Or.inl ⟨h2, h3⟩
    · exact Or.inr ⟨h2, h3⟩
  -- it is enough to show that the iteration returns and what it leaves of the Laplacian state
  have key : ∀ t', processFrame cv t f = some t' →
      (t.magnificator.imgProcFlags.colorMagnifyOn = false →
        t.magnificator.imgProcFlags.laplaceMagnifyOn = true →
        t'.magnificator.currentFrame = 1 → LaplaceReady t'.magnificator) →
      ∃ t', processFrame cv t f = some t' ∧ Running cv t' := by
    intro t' ht hlr
    obtain ⟨hqs, hfl, hse⟩ := processFrame_queueShape cv t t' f hq0 ht
    refine ⟨t', ht, hqs, ?_, ?_⟩
    · intro b hb
      refine supported_congr cv t t' b hfl hse ?_
      have hb' : b ∈ t.magnificator.processingBuffer ∨ b = f := by
        rcases queue_cases _ hlen with hq | ⟨a, hq⟩
        · rw [processFrame_push cv t f hq hl, Option.some.injEq] at ht
          subst ht
          simp only [fillProcessingBuffer, hq, List.nil_append, List.mem_singleton] at hb
          exact Or.inr hb
        · by_cases h1 : t.magnificator.imgProcFlags.colorMagnifyOn = true
          · obtain ⟨-, -, -, -, -, g5⟩ := tick_filled_color cv t t' a f hq hl hshape' h1 ht
            rcases g5 with ⟨-, -, g, -, -⟩ | ⟨-, -, g, -, -⟩
            · rw [g] at hb; exact absurd hb (List.not_mem_nil b)
            · rw [g] at hb; exact Or.inr (List.mem_singleton.1 hb)
          · have h1' : t.magnificator.imgProcFlags.colorMagnifyOn = false := by simpa using h1
            by_cases h2 : t.magnificator.imgProcFlags.laplaceMagnifyOn = true
            · obtain ⟨-, -, -, -, -, g6, -, -⟩ :=
                tick_filled_laplace cv t t' a f hq hl hshape' h1' h2 ht
              rw [g6] at hb; exact Or.inr (List.mem_singleton.1 hb)
            · have h2' : t.magnificator.imgProcFlags.laplaceMagnifyOn = false := by
                simpa using h2
              by_cases h3 : t.magnificator.imgProcFlags.rieszMagnifyOn = true
              · obtain ⟨-, -, -, -, -, g6, -, -⟩ :=
                  tick_filled_riesz cv t t' a f hq hl hshape' h1' h2' h3 ht
                rw [g6] at hb; exact Or.inr (List.mem_singleton.1 hb)
              · have h3' : t.magnificator.imgProcFlags.rieszMagnifyOn = false := by
                  simpa using h3
                rw [tick_filled_off cv t a f hq hl
                  (by simp [ImageProcessingFlags.magnifyOn, h1', h2', h3']),
                  Option.some.injEq] at ht
                subst ht
                exact Or.inr (List.mem_singleton.1 hb)
      rcases hb' with hb' | rfl
      · exact hsup b hb'
      · exact hs
    · intro g1 g2 g3
      rw [hfl] at g1 g2
      exact hlr g1 g2 g3
  rcases queue_cases _ hlen with hq | ⟨a, hq⟩
  · -- the frame is pushed, nothing else changes
    refine key _ (processFrame_push cv t f hq hl) ?_
    intro g1 g2 g3
    exact hready g1 g2 g3
  · have hqf := filled_buffer t a f hq
    by_cases h1 : t.magnificator.imgProcFlags.colorMagnifyOn = true
    · -- color mode
      have hlev : 1 ≤ (fillProcessingBuffer { t with currentFrame := some (Shown.original f) }
          f).magnificator.imgProcSettings.levels := hs.1 h1
      have hex : ∃ m, colorMagnify (fillProcessingBuffer
          { t with currentFrame := some (Shown.original f) } f).magnificator = some m ∧
          m.magnifiedBuffer ≠ [] := by
        rcases hshape' with ⟨-, hc⟩ | ⟨-, hc⟩
        · rw [colorMagnify_cursor_zero _ a f hqf hc, if_pos hlev]
          exact ⟨_, rfl, by simp⟩
        · rw [colorMagnify_cursor_one _ a f hqf hc, if_pos hlev]
          exact ⟨_, rfl, by simp⟩
      obtain ⟨m, hm, hne⟩ := hex
      obtain ⟨t', ht'⟩ := takeMagnified_returns
        (fillProcessingBuffer { t with currentFrame := some (Shown.original f) } f) m hne
      refine key t' (by rw [processFrame_filled cv t a f hq hl, if_pos h1, hm, ht']) ?_
      intro g1
      rw [h1] at g1
      exact absurd g1 (by decide)
    · have h1' : t.magnificator.imgProcFlags.colorMagnifyOn = false := by simpa using h1
      by_cases h2 : t.magnificator.imgProcFlags.laplaceMagnifyOn = true
      · -- Laplacian mode
        obtain ⟨hgray, -⟩ := hs.2.1 h1' h2
        have ha : bgrSource (cv.channels a) = true :=
          ((hsup a (by rw [hq]; exact List.mem_singleton_self a)).2.1 h1' h2).2
        have hsh : (fillProcessingBuffer { t with currentFrame := some (Shown.original f) }
              f).magnificator.currentFrame = 0 ∨
            ((fillProcessingBuffer { t with currentFrame := some (Shown.original f) }
              f).magnificator.currentFrame = 1 ∧
              LaplaceReady (fillProcessingBuffer
                { t with currentFrame := some (Shown.original f) } f).magnificator) := by
          rcases hshape' with ⟨-, hc⟩ | ⟨-, hc⟩
          · exact Or.inl hc
          · exact Or.inr ⟨hc, hready h1' h2 hc⟩
        obtain ⟨m, hm, hmr⟩ := laplaceMagnify_returns cv _ a f hqf hgray ha hsh
        obtain ⟨e0, e1⟩ := laplaceMagnify_effect cv _ m a f hqf hm
        have hne : m.magnifiedBuffer ≠ [] := by
          rcases hshape' with ⟨-, hc⟩ | ⟨-, hc⟩
          · exact roundEffect_ne_nil (e0 hc) (by simp)
          · exact roundEffect_ne_nil (e1 hc) (by simp)
        obtain ⟨t', ht'⟩ := takeMagnified_returns
          (fillProcessingBuffer { t with currentFrame := some (Shown.original f) } f) m hne
        refine key t' (by rw [processFrame_filled cv t a f hq hl, if_neg h1, if_pos h2, hm, ht']) ?_
        intro _ _ _
        exact takeMagnified_ready _ t' m ht' hmr
      · have h2' : t.magnificator.imgProcFlags.laplaceMagnifyOn = false := by simpa using h2
        by_cases h3 : t.magnificator.imgProcFlags.rieszMagnifyOn = true
        · -- Riesz mode
          have ha := riesz_accepts t.magnificator.imgProcFlags (cv.channels a)
            ((hsup a (by rw [hq]; exact List.mem_singleton_self a)).2.2 h1' h2' h3)
          have hsh : (fillProcessingBuffer { t with currentFrame := some (Shown.original f) }
                f).magnificator.currentFrame = 0 ∨
              (fillProcessingBuffer { t with currentFrame := some (Shown.original f) }
                f).magnificator.currentFrame = 1 := by
            rcases hshape' with ⟨-, hc⟩ | ⟨-, hc⟩
            · exact Or.inl hc
            · exact Or.inr hc
          obtain ⟨m, hm⟩ := rieszMagnify_returns cv _ a f hqf ha hsh
          obtain ⟨e0, e1⟩ := rieszMagnify_effect cv _ m a f hqf hm
          have hne : m.magnifiedBuffer ≠ [] := by
            rcases hshape' with ⟨-, hc⟩ | ⟨-, hc⟩
            · exact roundEffect_ne_nil (e0 hc) (by simp)
            · exact roundEffect_ne_nil (e1 hc) (by simp)
          obtain ⟨t', ht'⟩ := takeMagnified_returns
            (fillProcessingBuffer { t with currentFrame := some (Shown.original f) } f) m hne
          refine key t'
            (by rw [processFrame_filled cv t a f hq hl, if_neg h1, if_neg h2, if_pos h3, hm, ht'])
            ?_
          intro _ g2
          rw [h2'] at g2
          exact absurd g2 (by decide)
        · -- no routine enabled
          have h3' : t.magnificator.imgProcFlags.rieszMagnifyOn = false := by simpa using h3
          refine key _ (tick_filled_off cv t a f hq hl
            (by simp [ImageProcessingFlags.magnifyOn, h1', h2', h3'])) ?_
          intro _ g2
          rw [h2'] at g2
          exact absurd g2 (by decide)

theorem running_of_cleared {α : Type} (cv : Vision α) (t : ProcessingThread α)
    (hl : t.processingBufferLength = 2) (hq : t.magnificator.processingBuffer = [])
    (hb : t.magnificator.magnifiedBuffer = []) (hc : t.magnificator.currentFrame = 0) :
    Running cv t := by
  refine ⟨⟨hl, Or.inl ⟨by simp [hq], hb, hc⟩⟩, ?_, ?_⟩
  · intro a ha
    rw [hq] at ha
    exact absurd ha (List.not_mem_nil a)
  · intro _ _ h1
    rw [hc] at h1
    exact absurd h1 (by decide)

theorem running_settings {α : Type} (cv : Vision α) (t : ProcessingThread α)
    (req : ImageProcessingSettings) (hr : Running cv t) :
    Running cv (updateImageProcessingSettings t req) := by
  by_cases hlev : t.magnificator.imgProcSettings.levels = req.levels
  · have hm : (updateImageProcessingSettings t req).magnificator =
        { t.magnificator with
          imgProcSettings := { req with framerate := t.magnificator.imgProcSettings.framerate } } := by
      unfold updateImageProcessingSettings
      simp [hlev]
    obtain ⟨⟨hl, hshape⟩, hsup, hready⟩ := hr
    refine ⟨⟨hl, ?_⟩, ?_, ?_⟩
    · rw [hm]; exact hshape
    · intro a ha
      rw [hm] at ha
      have h := hsup a ha
      unfold Supported at h ⊢
      rw [hm]
      simp only
      rw [← hlev]
      exact h
    · rw [hm]
      intro g1 g2 g3
      obtain ⟨r1, r2, r3, r4, r5, r6⟩ := hready g1 g2 g3
      refine ⟨r1, r2, r3, ?_, ?_, ?_⟩
      · show t.magnificator.motionPyramid.length = req.levels.toNat + 1
        rw [← hlev]; exact r4
      · show t.magnificator.lowpassHi.length = req.levels.toNat + 1
        rw [← hlev]; exact r5
      · show t.magnificator.lowpassLo.length = req.levels.toNat + 1
        rw [← hlev]; exact r6
  · have hm : (updateImageProcessingSettings t req).magnificator.processingBuffer = [] ∧
        (updateImageProcessingSettings t req).magnificator.magnifiedBuffer = [] ∧
        (updateImageProcessingSettings t req).magnificator.currentFrame = 0 := by
      unfold updateImageProcessingSettings
      simp [hlev, clearBuffer]
    exact running_of_cleared cv _ hr.1.1 hm.1 hm.2.1 hm.2.2

theorem supportedReachable_running {α : Type} {cv : Vision α} {t : ProcessingThread α}
    (h : SupportedReachable cv t) : Running cv t := by
  induction h with
  | init flags settings roi => exact running_of_cleared cv _ rfl rfl rfl rfl
  | tick t t' frame _ hs h ih =>
    obtain ⟨t1, h1, hr⟩ := running_step cv t frame ih hs
    rw [h] at h1
    cases h1
    exact hr
  | flags t fl _ ih => exact running_of_cleared cv _ ih.1.1 rfl rfl rfl
  | settings t req _ ih => exact running_settings cv t req ih
  | roi t r _ ih => exact running_of_cleared cv _ ih.1.1 rfl rfl rfl

theorem supportedReachable_threadReachable {α : Type} {cv : Vision α}
    {t : ProcessingThread α} (h : SupportedReachable cv t) : ThreadReachable cv t := by
  induction h with
  | init flags settings roi => exact .init flags settings roi
  | tick t t' frame _ _ h ih => exact .step t t' ih (.tick t t' frame h)
  | flags t fl _ ih => exact .step _ _ ih (.flags t fl)
  | settings t req _ ih => exact .step _ _ ih (.settings t req)
  | roi t r _ ih => exact .step _ _ ih (.roi t r)

/-! ## C3: magnified output follows the arrival order -/

theorem processFrames_cons {α : Type} (cv : Vision α)
    (t t1 t' : ProcessingThread α) (f : α) (fs : List α) (outs : List (Shown α))
    (h1 : processFrame cv t f = some t1)
    (h2 : processFrames cv t1 fs = some (t', outs)) :
    processFrames cv t (f :: fs) = some (t', t1.currentFrame.toList ++ outs) := by
  simp only [processFrames, h1, h2]

theorem processFrames_cons_some {α : Type} (cv : Vision α)
    (t t' : ProcessingThread α) (f : α) (fs : List α) (outs : List (Shown α))
    (h : processFrames cv t (f :: fs) = some (t', outs)) :
    ∃ t1 outs1, processFrame cv t f = some t1 ∧ processFrames cv t1 fs = some (t', outs1) ∧
      outs = t1.currentFrame.toList ++ outs1 := by
  simp only [processFrames] at h
  cases h1 : processFrame cv t f with
  | none => rw [h1] at h; exact Option.noConfusion h
  | some t1 =>
    rw [h1] at h
    simp only at h
    cases h2 : processFrames cv t1 fs with
    | none => rw [h2] at h; exact Option.noConfusion h
    | some r =>
      obtain ⟨t2, outs1⟩ := r
      rw [h2] at h
      simp only [Option.some.injEq, Prod.mk.injEq] at h
      obtain ⟨rfl, rfl⟩ := h
      exact ⟨t1, outs1, rfl, h2, rfl⟩

/-- A filled iteration with a routine enabled that returns publishes a
magnified frame and keeps it as the only frame of the magnified buffer.  In
color mode from cursor 0 the frame is computed from the frame just pushed and
the queue is drained; otherwise it is computed from the frame that was waiting
and the frame just pushed stays in the queue. -/
theorem tick_filled_shown {α : Type} (cv : Vision α) (t t' : ProcessingThread α) (a f : α)
    (hq : t.magnificator.processingBuffer = [a]) (hl : t.processingBufferLength = 2)
    (hshape : (t.magnificator.magnifiedBuffer = [] ∧ t.magnificator.currentFrame = 0) ∨
      ((∃ x, t.magnificator.magnifiedBuffer = [x]) ∧ t.magnificator.currentFrame = 1))
    (hm : t.magnificator.imgProcFlags.magnifyOn = true)
    (h : processFrame cv t f = some t') :
    ∃ img, t'.currentFrame = some (Shown.magnified img) ∧
      t'.magnificator.magnifiedBuffer = [img] ∧ t'.magnificator.currentFrame = 1 ∧
      t'.processingBufferLength = 2 ∧ t'.magnificator.imgProcFlags.magnifyOn = true ∧
      ((t.magnificator.imgProcFlags.colorMagnifyOn = true ∧ t.magnificator.currentFrame = 0 ∧
          img.input = f ∧ t'.magnificator.processingBuffer = []) ∨
        (¬ (t.magnificator.imgProcFlags.colorMagnifyOn = true ∧ t.magnificator.currentFrame = 0) ∧
          img.input = a ∧ t'.magnificator.processingBuffer = [f])) := by
  by_cases h1 : t.magnificator.imgProcFlags.colorMagnifyOn = true
  · obtain ⟨-, g1, g2, -, g4, g5⟩ := tick_filled_color cv t t' a f hq hl hshape h1 h
    rcases g5 with ⟨hc, k1, k2, k3, -⟩ | ⟨hc, k1, k2, k3, -⟩
    · exact ⟨_, k1, k3, g4, g1, by rw [g2]; exact hm, Or.inl ⟨h1, hc, rfl, k2⟩⟩
    · exact ⟨_, k1, k3, g4, g1, by rw [g2]; exact hm,
        Or.inr ⟨fun hh => by rw [hc] at hh; exact absurd hh.2 (by decide), rfl, k2⟩⟩
  · have h1' : t.magnificator.imgProcFlags.colorMagnifyOn = false := by simpa using h1
    by_cases h2 : t.magnificator.imgProcFlags.laplaceMagnifyOn = true
    · obtain ⟨g1, g2, -, g4, k1, k2, k3, -⟩ := tick_filled_laplace cv t t' a f hq hl hshape h1' h2 h
      exact ⟨_, k1, k3, g4, g1, by rw [g2]; exact hm, Or.inr ⟨fun hh => h1 hh.1, rfl, k2⟩⟩
    · have h2' : t.magnificator.imgProcFlags.laplaceMagnifyOn = false := by simpa using h2
      have h3 : t.magnificator.imgProcFlags.rieszMagnifyOn = true := by
        simpa [ImageProcessingFlags.magnifyOn, h1', h2'] using hm
      obtain ⟨g1, g2, -, g4, k1, k2, k3, -⟩ :=
        tick_filled_riesz cv t t' a f hq hl hshape h1' h2' h3 h
      exact ⟨_, k1, k3, g4, g1, by rw [g2]; exact hm, Or.inr ⟨fun hh => h1 hh.1, rfl, k2⟩⟩

theorem steady_step_some {α : Type} (cv : Vision α)
    (t t' : ProcessingThread α) (a f : α) (h : Steady t a)
    (ht : processFrame cv t f = some t') :
    (∃ img, t'.currentFrame = some (Shown.magnified img) ∧ img.input = a) ∧ Steady t' f := by
  obtain ⟨hp, hx, hc, hl, hm⟩ := h
  obtain ⟨img, g1, g2, g3, g4, g5, g6⟩ :=
    tick_filled_shown cv t t' a f hp hl (Or.inr ⟨hx, hc⟩) hm ht
  rcases g6 with ⟨-, h0, -, -⟩ | ⟨-, k1, k2⟩
  · rw [hc] at h0; exact absurd h0 (by decide)
  · exact ⟨⟨img, g1, k1⟩, k2, ⟨img, g2⟩, g3, g4, g5⟩

/-- From the steady state with `a` waiting, every further frame of a run that
returns yields one magnified frame, computed from the frame that arrived just
before it. -/
theorem steady_run_some {α : Type} (cv : Vision α) (fs : List α) :
    ∀ (t t' : ProcessingThread α) (a : α) (outs : List (Shown α)), Steady t a →
      processFrames cv t fs = some (t', outs) →
      outs.filterMap Shown.magnifiedInput = (a :: fs).dropLast := by
  induction fs with
  | nil =>
    intro t t' a outs _ h
    simp only [processFrames, Option.some.injEq, Prod.mk.injEq] at h
    obtain ⟨-, rfl⟩ := h
    rfl
  | cons f rest ih =>
    intro t t' a outs hs h
    obtain ⟨t1, outs1, h1, h2, rfl⟩ := processFrames_cons_some cv t t' f rest outs h
    obtain ⟨⟨img, hcur, hin⟩, hs1⟩ := steady_step_some cv t t1 a f hs h1
    have := ih t1 t' f outs1 hs1 h2
    simp [hcur, Shown.magnifiedInput, hin, this]

theorem fresh_step_some {α : Type} (cv : Vision α) (t t' : ProcessingThread α)
    (a : α) (h : Fresh t) (ht : processFrame cv t a = some t') :
    t'.currentFrame = some (Shown.original a) ∧ Waiting t' a := by
  obtain ⟨hp, hx, hc, hl, hm⟩ := h
  rw [processFrame_push cv t a hp hl, Option.some.injEq] at ht
  subst ht
  exact ⟨rfl, by simp [fillProcessingBuffer, hp], hx, hc, hl, hm⟩

theorem drained_step_some {α : Type} (cv : Vision α) (t t' : ProcessingThread α)
    (c : α) (h : Drained t) (ht : processFrame cv t c = some t') :
    t'.currentFrame = some (Shown.original c) ∧ Steady t' c := by
  obtain ⟨hp, hx, hc, hl, hm⟩ := h
  rw [processFrame_push cv t c hp hl, Option.some.injEq] at ht
  subst ht
  exact ⟨rfl, by simp [fillProcessingBuffer, hp], hx, hc, hl, hm⟩

theorem waiting_step_some {α : Type} (cv : Vision α)
    (t t' : ProcessingThread α) (a b : α) (h : Waiting t a)
    (ht : processFrame cv t b = some t') :
    ∃ img, t'.currentFrame = some (Shown.magnified img) ∧
      ((img.input = b ∧ Drained t') ∨ (img.input = a ∧ Steady t' b)) := by
  obtain ⟨hp, hx, hc, hl, hm⟩ := h
  obtain ⟨img, g1, g2, g3, g4, g5, g6⟩ :=
    tick_filled_shown cv t t' a b hp hl (Or.inl ⟨hx, hc⟩) hm ht
  rcases g6 with ⟨-, -, k1, k2⟩ | ⟨-, k1, k2⟩
  · exact ⟨img, g1, Or.inl ⟨k1, k2, ⟨img, g2⟩, g3, g4, g5⟩⟩
  · exact ⟨img, g1, Or.inr ⟨k1, k2, ⟨img, g2⟩, g3, g4, g5⟩⟩

/-- From empty queues, the input frames of the magnified frames published by
the iterations of a run that returns form a subsequence of the captured frames,
in arrival order. -/
theorem fresh_run_sublist {α : Type} (cv : Vision α)
    (t t' : ProcessingThread α) (h : Fresh t) (fs : List α) (outs : List (Shown α))
    (hrun : processFrames cv t fs = some (t', outs)) :
    (outs.filterMap Shown.magnifiedInput).Sublist fs := by
  cases fs with
  | nil =>
    simp only [processFrames, Option.some.injEq, Prod.mk.injEq] at hrun
    obtain ⟨-, rfl⟩ := hrun
    exact List.Sublist.slnil
  | cons a rest =>
    obtain ⟨t1, outs1, h1, hrun1, rfl⟩ := processFrames_cons_some cv t t' a rest outs hrun
    obtain ⟨hc1, hw⟩ := fresh_step_some cv t t1 a h h1
    cases rest with
    | nil =>
      simp only [processFrames, Option.some.injEq, Prod.mk.injEq] at hrun1
      obtain ⟨-, rfl⟩ := hrun1
      simp [hc1, Shown.magnifiedInput]
    | cons b rest =>
      obtain ⟨t2, outs2, h2, hrun2, rfl⟩ := processFrames_cons_some cv t1 t' b rest outs1 hrun1
      obtain ⟨img, hc2, hcase⟩ := waiting_step_some cv t1 t2 a b hw h2
      rcases hcase with ⟨hin, hd⟩ | ⟨hin, hs⟩
      · cases rest with
        | nil =>
          simp only [processFrames, Option.some.injEq, Prod.mk.injEq] at hrun2
          obtain ⟨-, rfl⟩ := hrun2
          simp [hc1, hc2, Shown.magnifiedInput, hin]
        | cons c rest =>
          obtain ⟨t3, outs3, h3, hrun3, rfl⟩ :=
            processFrames_cons_some cv t2 t' c rest outs2 hrun2
          obtain ⟨hc3, hs⟩ := drained_step_some cv t2 t3 c hd h3
          have hout := steady_run_some cv rest t3 t' c outs3 hs hrun3
          simp only [hc1, hc2, hc3, Option.toList, List.singleton_append, List.filterMap_cons,
            Shown.magnifiedInput, hin, hout, List.nil_append]
          exact List.Sublist.cons _ (List.Sublist.cons₂ _ (List.dropLast_sublist _))
      · have hout := steady_run_some cv rest t2 t' b outs2 hs hrun2
        simp only [hc1, hc2, Option.toList, List.singleton_append, List.filterMap_cons,
          Shown.magnifiedInput, hin, hout, List.nil_append]
        exact List.Sublist.cons₂ _ (List.dropLast_sublist _)

/-- A run on frames the selected routine supports returns. -/
theorem running_run {α : Type} (cv : Vision α) (fs : List α) :
    ∀ t : ProcessingThread α, Running cv t → (∀ f ∈ fs, Supported cv t f) →
      ∃ t' outs, processFrames cv t fs = some (t', outs) := by
  induction fs with
  | nil =>
    intro t _ _
    exact ⟨t, [], rfl⟩
  | cons f rest ih =>
    intro t hr hs
    obtain ⟨t1, h1, hr1⟩ := running_step cv t f hr (hs f (List.mem_cons_self f rest))
    obtain ⟨-, hfl, hse⟩ := processFrame_queueShape cv t t1 f hr.1 h1
    obtain ⟨t', outs, hrun⟩ := ih t1 hr1
      (fun g hg => supported_congr cv t t1 g hfl hse (hs g (List.mem_cons_of_mem f hg)))
    exact ⟨t', _, processFrames_cons cv t t1 t' f rest outs h1 hrun⟩

/-- C3: starting from empty queues with a magnification routine enabled and
the configured queue length 2, and numbering the captured frames in arrival
order: in every run of the processing loop that returns, the input-frame
indices of the magnified frames obtained from `getFrameLast` are strictly
increasing; and the run returns whenever each of its frames is one the selected
routine supports. -/
theorem magnified_indices_strictly_increasing {α : Type}
    (cv : Vision (Nat × α)) (t : ProcessingThread (Nat × α))
    (hqueue : t.magnificator.processingBuffer = [])
    (hbuffer : t.magnificator.magnifiedBuffer = [])
    (hcursor : t.magnificator.currentFrame = 0)
    (hlength : t.processingBufferLength = 2)
    (hmode : t.magnificator.imgProcFlags.magnifyOn = true) (frames : List α) :
    (∀ t' outs, processFrames cv t frames.enum = some (t', outs) →
        ((outs.filterMap Shown.magnifiedInput).map Prod.fst).Pairwise (· < ·)) ∧
      ((∀ f ∈ frames.enum, Supported cv t f) →
        ∃ t' outs, processFrames cv t frames.enum = some (t', outs)) := by
  constructor
  · intro t' outs hrun
    have hsub := fresh_run_sublist cv t t' ⟨hqueue, hbuffer, hcursor, hlength, hmode⟩
      frames.enum outs hrun
    have h1 := hsub.map Prod.fst
    rw [List.enum_map_fst] at h1
    exact List.Pairwise.sublist h1 (List.pairwise_lt_range _)
  · intro hs
    exact running_run cv frames.enum t (running_of_cleared cv t hlength hqueue hbuffer hcursor) hs

theorem magnified_indices_strictly_increasing_witness :
    ∃ t' outs,
      processFrames bgrStream (ProcessingThread.init laplaceFlags sampleSettings sampleROI)
          [70, 70, 71, 73, 70, 72].enum = some (t', outs) ∧
        ((outs.filterMap Shown.magnifiedInput).map Prod.fst).Pairwise (· < ·) := by
  obtain ⟨t', outs, hrun⟩ :=
    (magnified_indices_strictly_increasing bgrStream
      (ProcessingThread.init laplaceFlags sampleSettings sampleROI) rfl rfl rfl rfl rfl
      [70, 70, 71, 73, 70, 72]).2
      (fun _ _ => ⟨fun h => absurd h (by decide), fun _ _ => ⟨rfl, rfl⟩,
        fun _ h => absurd h (by decide)⟩)
  exact ⟨t', outs, hrun,
    (magnified_indices_strictly_increasing bgrStream
      (ProcessingThread.init laplaceFlags sampleSettings sampleROI) rfl rfl rfl rfl rfl
      [70, 70, 71, 73, 70, 72]).1 t' outs hrun⟩

/-! ## C7: mode switch -/

/-- C7 as stated fails: after three frames in Laplacian mode `frameNum` is 2, and
switching to color mode with `updateImageProcessingFlags` empties both queues
but leaves `frameNum` at 2. -/
theorem updateImageProcessingFlags_frameNum_not_reset :
    ∃ t outs,
      processFrames bgrStream sampleThread [0, 1, 2] = some (t, outs) ∧
        ¬ ((updateImageProcessingFlags t colorFlags).magnificator.processingBuffer = [] ∧
            (updateImageProcessingFlags t colorFlags).magnificator.magnifiedBuffer = [] ∧
            (updateImageProcessingFlags t colorFlags).magnificator.currentFrame = 0 ∧
            (updateImageProcessingFlags t colorFlags).frameNum = 0) := by
  refine ⟨_, _, rfl, ?_⟩
  rintro ⟨-, -, -, h⟩
  exact absurd h (by decide)

/-- C7 (amended): `updateImageProcessingFlags` stores the requested flags, leaves
the processing input queue empty and the magnified buffer empty with cursor 0,
and leaves `frameNum` (and `prevFrameNum`) unchanged. -/
theorem updateImageProcessingFlags_spec {α : Type} (t : ProcessingThread α)
    (flags : ImageProcessingFlags) :
    (updateImageProcessingFlags t flags).magnificator.imgProcFlags = flags ∧
      (updateImageProcessingFlags t flags).magnificator.processingBuffer = [] ∧
      (updateImageProcessingFlags t flags).magnificator.magnifiedBuffer = [] ∧
      (updateImageProcessingFlags t flags).magnificator.currentFrame = 0 ∧
      (updateImageProcessingFlags t flags).frameNum = t.frameNum ∧
      (updateImageProcessingFlags t flags).prevFrameNum = t.prevFrameNum :=
  ⟨rfl, rfl, rfl, rfl, rfl, rfl⟩

/-! ## C8: settings update -/

/-- The Magnificator side of `updateImageProcessingSettings`, in one equation. -/
theorem updateImageProcessingSettings_magnificator {α : Type} (t : ProcessingThread α)
    (req : ImageProcessingSettings) :
    (updateImageProcessingSettings t req).magnificator =
      (if t.magnificator.imgProcSettings.levels ≠ req.levels then
        { t.magnificator with
          processingBuffer := []
          magnifiedBuffer := []
          lowpassHi := []
          lowpassLo := []
          motionPyramid := []
          downSampledMat := []
          curPyr := none
          oldPyr := none
          loCutoff := none
          hiCutoff := none
          currentFrame := 0
          imgProcSettings := { req with framerate := t.magnificator.imgProcSettings.framerate } }
      else
        { t.magnificator with
          imgProcSettings :=
            { req with framerate := t.magnificator.imgProcSettings.framerate } }) := by
  unfold updateImageProcessingSettings
  by_cases h : t.magnificator.imgProcSettings.levels = req.levels
  · simp [h]
  · simp [h, clearBuffer]

/-- C8: `updateImageProcessingSettings` empties the input queue, the magnified
buffer, the three Laplacian pyramids, `downSampledMat`, the Riesz pyramids and
filters and zeroes the cursor exactly when the requested `levels` differs from
the current one, and otherwise leaves each of them as it was; in both cases
amplification, cutoffs, wavelength, chromatic attenuation and `levels` (and the
two output switches) take the requested values and `framerate` keeps its
value.  Region of interest and frame counters are untouched. -/
theorem updateImageProcessingSettings_spec {α : Type} (t : ProcessingThread α)
    (req : ImageProcessingSettings) :
    (updateImageProcessingSettings t req).magnificator =
        (if t.magnificator.imgProcSettings.levels ≠ req.levels then
          { t.magnificator with
            processingBuffer := []
            magnifiedBuffer := []
            lowpassHi := []
            lowpassLo := []
            motionPyramid := []
            downSampledMat := []
            curPyr := none
            oldPyr := none
            loCutoff := none
            hiCutoff := none
            currentFrame := 0
            imgProcSettings :=
              { amplification := req.amplification
                MagnifiedOrContours := req.MagnifiedOrContours
                CSV := req.CSV
                coWavelength := req.coWavelength
                coLow := req.coLow
                coHigh := req.coHigh
                chromAttenuation := req.chromAttenuation
                framerate := t.magnificator.imgProcSettings.framerate
                levels := req.levels } }
        else
          { t.magnificator with
            imgProcSettings :=
              { amplification := req.amplification
                MagnifiedOrContours := req.MagnifiedOrContours
                CSV := req.CSV
                coWavelength := req.coWavelength
                coLow := req.coLow
                coHigh := req.coHigh
                chromAttenuation := req.chromAttenuation
                framerate := t.magnificator.imgProcSettings.framerate
                levels := req.levels } }) ∧
      (updateImageProcessingSettings t req).currentROI = t.currentROI ∧
      (updateImageProcessingSettings t req).frameNum = t.frameNum ∧
      (updateImageProcessingSettings t req).prevFrameNum = t.prevFrameNum :=
  ⟨updateImageProcessingSettings_magnificator t req, rfl, rfl, rfl⟩

/-! ## C9: change of the region of interest -/

/-- C9: after `setROI r` the region of interest is `r`, both queues are empty
and the cursor is 0.  With the configured queue length 2, the next iteration of
the loop returns and publishes the captured frame `f` itself (the queue holds
one frame), leaving the cursor at 0.  So the next call of `laplaceMagnify`, on
the queue `[f, g]` filled by the following frame, enters its loop with
`currentFrame == 0`, and its first iteration is the first-frame branch:
whenever that iteration returns it has appended the unmodified input `f`, left
`f` at the head of the queue, saved it as `prevFrame` and seeded the three
pyramids from it; it returns when `f` is processed as a single channel or is a
BGR source.  Whenever the call as a whole returns, the two frames it appended
are the unmodified `f` and `f` with motion added; it returns when `f` is a BGR
source and grayscale is off. -/
theorem setROI_spec {α : Type} (cv : Vision α) (t : ProcessingThread α)
    (r : Rect) (f g : α) (hlen : t.processingBufferLength = 2) :
    (setROI t r).1.currentROI = r ∧
      (setROI t r).1.magnificator.processingBuffer = [] ∧
      (setROI t r).1.magnificator.magnifiedBuffer = [] ∧
      (setROI t r).1.magnificator.currentFrame = 0 ∧
      ∃ t2, processFrame cv (setROI t r).1 f = some t2 ∧
        t2.currentFrame = some (Shown.original f) ∧
        t2.magnificator.processingBuffer = [f] ∧
        t2.magnificator.magnifiedBuffer = [] ∧
        t2.magnificator.currentFrame = 0 ∧
        (fillProcessingBuffer t2 g).magnificator.processingBuffer = [f, g] ∧
        (fillProcessingBuffer t2 g).magnificator.currentFrame = 0 ∧
        (∀ m1,
          laplaceMagnifyBody cv
              { (fillProcessingBuffer t2 g).magnificator with
                levels := (fillProcessingBuffer t2 g).magnificator.imgProcSettings.levels } =
            some m1 →
          m1.magnifiedBuffer = [Magnified.laplace f false] ∧ m1.processingBuffer = [f, g] ∧
            m1.currentFrame = 1 ∧ m1.prevFrame = some f ∧
            m1.lowpassHi = buildLaplacePyrFromImg f t.magnificator.imgProcSettings.levels ∧
            m1.lowpassLo = buildLaplacePyrFromImg f t.magnificator.imgProcSettings.levels ∧
            m1.motionPyramid = buildLaplacePyrFromImg f t.magnificator.imgProcSettings.levels) ∧
        (grayscalePath t.magnificator.imgProcFlags (cv.channels f) = true ∨
            bgrSource (cv.channels f) = true →
          ∃ m1,
            laplaceMagnifyBody cv
                { (fillProcessingBuffer t2 g).magnificator with
                  levels := (fillProcessingBuffer t2 g).magnificator.imgProcSettings.levels } =
              some m1) ∧
        (∀ m, laplaceMagnify cv (fillProcessingBuffer t2 g).magnificator = some m →
          m.magnifiedBuffer = [Magnified.laplace f false, Magnified.laplace f true]) ∧
        (t.magnificator.imgProcFlags.grayscaleOn = false → bgrSource (cv.channels f) = true →
          ∃ m, laplaceMagnify cv (fillProcessingBuffer t2 g).magnificator = some m) := by
  refine ⟨rfl, rfl, rfl, rfl, ?_⟩
  refine ⟨_, processFrame_push cv (setROI t r).1 f rfl hlen, rfl, rfl, rfl, rfl, rfl, rfl, ?_, ?_,
    ?_, ?_⟩
  · intro m1 hb
    have key : ∀ M : Magnificator α, M.processingBuffer = [f, g] → M.currentFrame = 0 →
        M.magnifiedBuffer = [] → laplaceMagnifyBody cv M = some m1 →
        m1.magnifiedBuffer = [Magnified.laplace f false] ∧ m1.processingBuffer = [f, g] ∧
          m1.currentFrame = 1 ∧ m1.prevFrame = some f ∧
          m1.lowpassHi = buildLaplacePyrFromImg f M.levels ∧
          m1.lowpassLo = buildLaplacePyrFromImg f M.levels ∧
          m1.motionPyramid = buildLaplacePyrFromImg f M.levels := by
      intro M hq hc hmb hbody
      obtain ⟨e, hc1, -, -, rfl⟩ := laplaceMagnifyBody_effect cv M m1 f [g] hq hbody
      obtain ⟨f1, -, -, f4, f5, f6⟩ := laplaceMagnifyStep_first cv M f [g] hc
      refine ⟨?_, ?_, ?_, f1, f5, f6, f4⟩
      · rw [e.2.1, hmb, hc]; rfl
      · rw [e.1, if_pos hc]
      · rw [hc1, hc]; rfl
    exact key _ rfl rfl rfl hb
  · intro hacc
    have ht : laplaceMagnifyThrows cv
        { (fillProcessingBuffer (fillProcessingBuffer
            { (setROI t r).1 with currentFrame := some (Shown.original f) } f) g).magnificator with
          levels := t.magnificator.imgProcSettings.levels } f = false := by
      rw [laplaceMagnifyThrows_first cv _ f rfl]
      rcases hacc with h | h
      · have h' : grayscalePath
            ({ (fillProcessingBuffer (fillProcessingBuffer
              { (setROI t r).1 with currentFrame := some (Shown.original f) } f) g).magnificator with
              levels := t.magnificator.imgProcSettings.levels } : Magnificator α).imgProcFlags
            (cv.channels f) = true := h
        rw [h']; rfl
      · rw [h]; simp
    exact ⟨_, laplaceMagnifyBody_of_not_throws cv _ f [g] rfl ht⟩
  · intro m hm
    obtain ⟨e0, -⟩ := laplaceMagnify_effect cv _ m f g rfl hm
    exact (e0 rfl).2.1
  · intro hgray hbgr
    obtain ⟨m, hm, -⟩ := laplaceMagnify_returns cv
      (fillProcessingBuffer (fillProcessingBuffer
        { (setROI t r).1 with currentFrame := some (Shown.original f) } f) g).magnificator
      f g rfl hgray hbgr (Or.inl rfl)
    exact ⟨m, hm⟩

theorem setROI_spec_witness :
    ∃ t outs, processFrames bgrStream sampleThread [0, 1, 2] = some (t, outs) ∧
      t.magnificator.processingBuffer = [2] ∧
      t.magnificator.magnifiedBuffer = [Magnified.laplace 1 true] ∧
      t.magnificator.currentFrame = 1 ∧
      (setROI t ⟨8, 8, 32, 32⟩).1.currentROI = ⟨8, 8, 32, 32⟩ ∧
      (setROI t ⟨8, 8, 32, 32⟩).1.magnificator.processingBuffer = [] ∧
      (setROI t ⟨8, 8, 32, 32⟩).1.magnificator.magnifiedBuffer = [] ∧
      (setROI t ⟨8, 8, 32, 32⟩).1.magnificator.currentFrame = 0 ∧
      ∃ t2, processFrame bgrStream (setROI t ⟨8, 8, 32, 32⟩).1 10 = some t2 ∧
        t2.currentFrame = some (Shown.original 10) ∧
        t2.magnificator.processingBuffer = [10] ∧
        t2.magnificator.magnifiedBuffer = [] ∧
        t2.magnificator.currentFrame = 0 ∧
        ∃ m, laplaceMagnify bgrStream (fillProcessingBuffer t2 11).magnificator = some m ∧
          m.magnifiedBuffer = [Magnified.laplace 10 false, Magnified.laplace 10 true] := by
  obtain ⟨t, outs, hrun, h1, h2, h3⟩ :
      ∃ t outs, processFrames bgrStream sampleThread [0, 1, 2] = some (t, outs) ∧
        t.magnificator.processingBuffer = [2] ∧
        t.magnificator.magnifiedBuffer = [Magnified.laplace 1 true] ∧
        t.magnificator.currentFrame = 1 ∧ t.processingBufferLength = 2 ∧
        t.magnificator.imgProcFlags.grayscaleOn = false :=
    ⟨_, _, rfl, rfl, rfl, rfl, rfl, rfl⟩
  obtain ⟨g1, g2, g3, g4, t2, k1, k2, k3, k4, k5, -, -, -, -, k6, k7⟩ :=
    setROI_spec bgrStream t ⟨8, 8, 32, 32⟩ 10 11 h3.2.1
  obtain ⟨m, hm⟩ := k7 h3.2.2 rfl
  exact ⟨t, outs, hrun, h1, h2, h3.1, g1, g2, g3, g4, t2, k1, k2, k3, k4, k5, m, hm, k6 m hm⟩

/-! ## C10: requests that violate a precondition -/

/-- C10 as stated fails.  In the state reached after three frames in Laplacian
mode on a 64 x 64 region (one frame in each queue, cursor 1, at most 4 levels):
a settings request with `coLow = 3 ≥ coHigh = 1` changes the settings; a request
with `levels = 0` empties the input queue; `setROI` with a 2 x 2 rectangle
changes the region of interest and zeroes the cursor. -/
theorem reconfiguration_mutates_state :
    ∃ t outs,
      processFrames bgrStream sampleThread [0, 1, 2] = some (t, outs) ∧
        (updateImageProcessingSettings t
            { sampleSettings with coLow := 3, coHigh := 1 }).magnificator.imgProcSettings ≠
          t.magnificator.imgProcSettings ∧
        (updateImageProcessingSettings t
            { sampleSettings with levels := 0 }).magnificator.processingBuffer ≠
          t.magnificator.processingBuffer ∧
        (setROI t tinyROI).1.currentROI ≠ t.currentROI ∧
        (setROI t tinyROI).1.magnificator.currentFrame ≠ t.magnificator.currentFrame := by
  refine ⟨_, _, rfl, ?_, ?_, ?_, ?_⟩
  · intro h
    have h1 := congrArg ImageProcessingSettings.coHigh h
    exact absurd h1 (by decide)
  · intro h
    exact absurd (congrArg List.length h) (by decide)
  · intro h
    exact absurd (congrArg Rect.width h) (by decide)
  · intro h
    exact absurd h (by decide)

/-- C10 (amended): no reconfiguration request is checked.  A settings request
with `coLow ≥ coHigh` or with `levels` below 1 or above `calculateMaxLevels` of
the region of interest is applied like any other: afterwards the settings are
the requested ones (with the old `framerate`), so the stored settings violate
the same precondition, and the queues and cursor are cleared when the requested
`levels` differs from the current one.  `setROI` with a rectangle smaller than
5 x 5 stores the rectangle, so the stored region is smaller than 5 x 5, and
empties both queues with cursor 0. -/
theorem reconfiguration_not_validated {α : Type} (t : ProcessingThread α)
    (req : ImageProcessingSettings) (r : Rect)
    (hreq : req.coHigh ≤ req.coLow ∨ req.levels < 1 ∨
      calculateMaxLevels t.currentROI.width t.currentROI.height < req.levels)
    (hroi : r.width < 5 ∨ r.height < 5) :
    (updateImageProcessingSettings t req).magnificator.imgProcSettings =
        { req with framerate := t.magnificator.imgProcSettings.framerate } ∧
      ((updateImageProcessingSettings t req).magnificator.imgProcSettings.coHigh ≤
          (updateImageProcessingSettings t req).magnificator.imgProcSettings.coLow ∨
        (updateImageProcessingSettings t req).magnificator.imgProcSettings.levels < 1 ∨
        calculateMaxLevels (updateImageProcessingSettings t req).currentROI.width
            (updateImageProcessingSettings t req).currentROI.height <
          (updateImageProcessingSettings t req).magnificator.imgProcSettings.levels) ∧
      (t.magnificator.imgProcSettings.levels ≠ req.levels →
        (updateImageProcessingSettings t req).magnificator.processingBuffer = [] ∧
        (updateImageProcessingSettings t req).magnificator.magnifiedBuffer = [] ∧
        (updateImageProcessingSettings t req).magnificator.currentFrame = 0) ∧
      (setROI t r).1.currentROI = r ∧
      ((setROI t r).1.currentROI.width < 5 ∨ (setROI t r).1.currentROI.height < 5) ∧
      (setROI t r).1.magnificator.processingBuffer = [] ∧
      (setROI t r).1.magnificator.magnifiedBuffer = [] ∧
      (setROI t r).1.magnificator.currentFrame = 0 := by
  have h := updateImageProcessingSettings_magnificator t req
  have hs : (updateImageProcessingSettings t req).magnificator.imgProcSettings =
      { req with framerate := t.magnificator.imgProcSettings.framerate } := by
    rw [h]; split <;> rfl
  refine ⟨hs, ?_, ?_, rfl, hroi, rfl, rfl, rfl⟩
  · rw [hs]; exact hreq
  · intro hne
    rw [h, if_pos hne]
    exact ⟨rfl, rfl, rfl⟩

theorem reconfiguration_not_validated_witness :
    (updateImageProcessingSettings sampleThread invalidSettings).magnificator.imgProcSettings =
        { invalidSettings with framerate := sampleThread.magnificator.imgProcSettings.framerate } ∧
      ((updateImageProcessingSettings sampleThread invalidSettings).magnificator.imgProcSettings.coHigh
          ≤ (updateImageProcessingSettings sampleThread
              invalidSettings).magnificator.imgProcSettings.coLow ∨
        (updateImageProcessingSettings sampleThread
            invalidSettings).magnificator.imgProcSettings.levels < 1 ∨
        calculateMaxLevels (updateImageProcessingSettings sampleThread invalidSettings).currentROI.width
            (updateImageProcessingSettings sampleThread invalidSettings).currentROI.height <
          (updateImageProcessingSettings sampleThread
            invalidSettings).magnificator.imgProcSettings.levels) ∧
      (sampleThread.magnificator.imgProcSettings.levels ≠ invalidSettings.levels →
        (updateImageProcessingSettings sampleThread invalidSettings).magnificator.processingBuffer
            = [] ∧
        (updateImageProcessingSettings sampleThread invalidSettings).magnificator.magnifiedBuffer
            = [] ∧
        (updateImageProcessingSettings sampleThread invalidSettings).magnificator.currentFrame
            = 0) ∧
      (setROI sampleThread tinyROI).1.currentROI = tinyROI ∧
      ((setROI sampleThread tinyROI).1.currentROI.width < 5 ∨
        (setROI sampleThread tinyROI).1.currentROI.height < 5) ∧
      (setROI sampleThread tinyROI).1.magnificator.processingBuffer = [] ∧
      (setROI sampleThread tinyROI).1.magnificator.magnifiedBuffer = [] ∧
      (setROI sampleThread tinyROI).1.magnificator.currentFrame = 0 :=
  reconfiguration_not_validated sampleThread invalidSettings tinyROI
    (Or.inl (by decide)) (Or.inl (by decide))

/-! ## C14: the first Laplacian frame is returned unchanged -/

theorem cvRound_add_small (v : Int) : cvRound ((v : ℚ) + 1 / 255) = v := by
  have hfloor : ⌊(v : ℚ) + 1 / 255⌋ = v := by
    rw [Int.floor_eq_iff]
    constructor <;> norm_num
  unfold cvRound
  rw [hfloor, if_pos (by norm_num)]

theorem cvRound_intCast (n : Int) : cvRound (n : ℚ) = n := by
  unfold cvRound
  rw [Int.floor_intCast, if_pos (by norm_num)]

/-- C14: in the first-frame branch of `laplaceMagnify` a single-channel 8-bit
pixel `v` (`0 ≤ v ≤ 255`) goes through `v ↦ v * (1/255)` and
`x ↦ saturate(round(x * 255 + 1/255))` and comes back as `v` (exact
arithmetic): the frame appended for the first frame equals the input. -/
theorem laplaceFirstFramePixel_eq (v : Int) (h0 : 0 ≤ v) (h255 : v ≤ 255) :
    laplaceFirstFramePixel v = v := by
  unfold laplaceFirstFramePixel convertTo8U convertTo32F
  have h : (v : ℚ) * (1 / 255) * 255 + 1 / 255 = (v : ℚ) + 1 / 255 := by ring
  rw [h, cvRound_add_small]
  unfold saturateU8
  rw [if_neg (by omega), if_neg (by omega)]

theorem laplaceFirstFramePixel_eq_witness : laplaceFirstFramePixel 200 = 200 :=
  laplaceFirstFramePixel_eq 200 (by decide) (by decide)

/-! ## C18: rescaling a frame with `min == max` -/

theorem amplifyLevels_eq {K : Type} [LinearOrderedField K] (amplification e delta : K)
    (levels : Int) (n : ℕ) : ∀ lambda : K,
      amplifyLevels amplification e delta levels (n + 1) (n : Int) lambda =
        (List.range (n + 1)).reverse.map fun (i : ℕ) =>
          ((i : Int),
            amplifyLaplacianFactor amplification e (lambda / 2 ^ (n - i)) delta levels i) := by
  induction n with
  | zero =>
    intro lambda
    simp [amplifyLevels, List.range_succ]
  | succ n ih =>
    intro lambda
    have hstep : amplifyLevels amplification e delta levels (n + 1 + 1) ((n + 1 : ℕ) : Int) lambda =
        (((n + 1 : ℕ) : Int),
            amplifyLaplacianFactor amplification e lambda delta levels ((n + 1 : ℕ) : Int)) ::
          amplifyLevels amplification e delta levels (n + 1) (n : Int) (lambda / 2) := by
      rw [amplifyLevels, if_pos (by omega)]
      congr 2
      push_cast; ring
    have hr : (List.range (n + 1 + 1)).reverse = (n + 1) :: (List.range (n + 1)).reverse := by
      rw [List.range_succ, List.reverse_append]
      rfl
    rw [hstep, ih (lambda / 2), hr, List.map_cons]
    congr 1
    · rw [Nat.sub_self, pow_zero, div_one]
    · apply List.map_congr_left
      intro i hi
      have hi' : i < n + 1 := List.mem_range.1 (List.mem_reverse.1 hi)
      have hexp : n + 1 - i = (n - i) + 1 := by omega
      rw [hexp, pow_succ]
      congr 2
      field_simp
      exact Or.inl (mul_comm _ _)

/-- C16: on a non-first frame with pyramid depth `L`, frame size `W x H`,
wavelength `≠ 0` and amplification `≠ -1`, over the reals, `delta` is not zero
and the amplification loop multiplies the levels `L, L-1, ..., 0` in this
order, level `i` by 0 when `i = L` or `i = 0` and otherwise by
`min(amplification, (lambda_i/(8*delta) - 1) * exaggeration_factor)`, with
`delta = wavelength/(8*(1+amplification))` and
`lambda_i = (sqrt(W*W+H*H)/3) / 2^(L-i)`. -/
theorem amplifyPyramid_factors (L : ℕ) (W H : Int) (amplification coWavelength e : ℝ)
    (hw : coWavelength ≠ 0) (ha : amplification ≠ -1) :
    laplaceDelta coWavelength amplification ≠ 0 ∧
      amplifyPyramid amplification coWavelength e (Real.sqrt ((W * W + H * H : Int) : ℝ) / 3) L =
        (List.range (L + 1)).reverse.map fun (i : ℕ) =>
          ((i : Int),
            if i = L ∨ i = 0 then (0 : ℝ)
            else
              min amplification
                ((Real.sqrt ((W * W + H * H : Int) : ℝ) / 3 / 2 ^ (L - i) /
                      (8 * (coWavelength / (8 * (1 + amplification)))) - 1) * e)) := by
  constructor
  · have h1 : (1 : ℝ) + amplification ≠ 0 := by
      intro h
      exact ha (by linarith)
    unfold laplaceDelta
    exact div_ne_zero hw (mul_ne_zero (by norm_num) h1)
  · have hfuel : ((L : Int) + 1).toNat = L + 1 := by omega
    rw [amplifyPyramid, hfuel, amplifyLevels_eq]
    apply List.map_congr_left
    intro i _
    simp only [amplifyLaplacianFactor, laplaceDelta, Nat.cast_inj, Nat.cast_eq_zero, mul_comm]

theorem amplifyPyramid_factors_witness :
    laplaceDelta (16 : ℝ) 10 ≠ 0 ∧
      amplifyPyramid (10 : ℝ) 16 2 (Real.sqrt ((64 * 64 + 64 * 64 : Int) : ℝ) / 3) (4 : ℕ) =
        (List.range (4 + 1)).reverse.map fun (i : ℕ) =>
          ((i : Int),
            if i = 4 ∨ i = 0 then (0 : ℝ)
            else
              min (10 : ℝ)
                ((Real.sqrt ((64 * 64 + 64 * 64 : Int) : ℝ) / 3 / 2 ^ (4 - i) /
                      (8 * (16 / (8 * (1 + 10)))) - 1) * 2)) :=
  amplifyPyramid_factors 4 64 64 10 16 2 (by norm_num) (by norm_num)

/-! ## C13: the breath scalar -/

theorem sum_map_y_nonneg (pont : List Point) (h : ∀ p ∈ pont, 0 ≤ p.y) :
    0 ≤ (pont.map Point.y).sum := by
  apply List.sum_nonneg
  intro x hx
  obtain ⟨p, hp, rfl⟩ := List.mem_map.1 hx
  exact h p hp

theorem contourYSum_foldl (pont : List Point) : ∀ acc : Int, 0 ≤ acc →
    (∀ p ∈ pont, 0 ≤ p.y) → acc + (pont.map Point.y).sum < 2 ^ 31 →
    pont.foldl (fun ySum p => wrapInt32 (ySum + p.y)) acc = acc + (pont.map Point.y).sum := by
  induction pont with
  | nil => intro acc _ _ _; simp
  | cons p rest ih =>
    intro acc h0 hy hlt
    have hp : 0 ≤ p.y := hy p (List.mem_cons_self _ _)
    have hrest : ∀ q ∈ rest, 0 ≤ q.y := fun q hq => hy q (List.mem_cons_of_mem _ hq)
    have hs := sum_map_y_nonneg rest hrest
    simp only [List.map_cons, List.sum_cons] at hlt
    have hw : wrapInt32 (acc + p.y) = acc + p.y := by unfold wrapInt32; omega
    simp only [List.foldl_cons, List.map_cons, List.sum_cons, hw]
    rw [ih (acc + p.y) (by omega) hrest (by omega)]
    ring

theorem contourYSum_eq (pont : List Point) (hy : ∀ p ∈ pont, 0 ≤ p.y)
    (hlt : (pont.map Point.y).sum < 2 ^ 31) : contourYSum pont = (pont.map Point.y).sum := by
  unfold contourYSum
  rw [contourYSum_foldl pont 0 le_rfl hy (by omega)]
  ring

theorem divideBySize_eq (ySum : Int) (size : Nat) (h0 : 0 ≤ ySum) (hlt : ySum < 2 ^ 31)
    (hsize : size ≠ 0) :
    divideBySize ySum size = some (Int.tdiv ySum size) ∧ 0 ≤ Int.tdiv ySum size ∧
      Int.tdiv ySum size ≤ ySum := by
  have htd : Int.tdiv ySum size = ySum / size := Int.tdiv_eq_ediv h0 (Int.ofNat_nonneg _)
  have hq0 : 0 ≤ ySum / (size : Int) := Int.ediv_nonneg h0 (Int.ofNat_nonneg _)
  have hqle : ySum / (size : Int) ≤ ySum := Int.ediv_le_self _ h0
  have hmod : (ySum % 2 ^ 64).toNat = ySum.toNat := by omega
  have hcast : ((ySum.toNat / size : ℕ) : Int) = ySum / size := by
    rw [Int.ofNat_ediv, Int.toNat_of_nonneg h0]
  refine ⟨?_, by rw [htd]; exact hq0, by rw [htd]; exact hqle⟩
  unfold divideBySize
  rw [if_neg hsize, hmod, hcast, htd]
  congr 1
  unfold wrapInt32
  omega

theorem contoursSumLoop_eq (kept : List (List Point)) : ∀ acc : Int, 0 ≤ acc →
    (∀ c ∈ kept, c ≠ []) → (∀ c ∈ kept, ∀ p ∈ c, 0 ≤ p.y) →
    acc + (kept.map fun c => (c.map Point.y).sum).sum < 2 ^ 31 →
    contoursSumLoop kept acc =
      some (acc + (kept.map fun c => Int.tdiv (c.map Point.y).sum c.length).sum) := by
  induction kept with
  | nil => intro acc _ _ _ _; simp [contoursSumLoop]
  | cons c rest ih =>
    intro acc h0 hne hy hlt
    have hc : ∀ p ∈ c, 0 ≤ p.y := hy c (List.mem_cons_self _ _)
    have hrne : ∀ d ∈ rest, d ≠ [] := fun d hd => hne d (List.mem_cons_of_mem _ hd)
    have hry : ∀ d ∈ rest, ∀ p ∈ d, 0 ≤ p.y := fun d hd => hy d (List.mem_cons_of_mem _ hd)
    have hsc := sum_map_y_nonneg c hc
    have hsrest : 0 ≤ (rest.map fun d => (d.map Point.y).sum).sum := by
      apply List.sum_nonneg
      intro x hx
      obtain ⟨d, hd, rfl⟩ := List.mem_map.1 hx
      exact sum_map_y_nonneg d (hry d hd)
    simp only [List.map_cons, List.sum_cons] at hlt
    have hlen : c.length ≠ 0 := by
      intro h
      exact hne c (List.mem_cons_self _ _) (List.length_eq_zero.1 h)
    obtain ⟨hdiv, hq0, hqle⟩ :=
      divideBySize_eq (c.map Point.y).sum c.length hsc (by omega) hlen
    have hw : wrapInt32 (acc + Int.tdiv (c.map Point.y).sum c.length) =
        acc + Int.tdiv (c.map Point.y).sum c.length := by
      unfold wrapInt32; omega
    simp only [contoursSumLoop, contourYSum_eq c hc (by omega), hdiv, hw, List.map_cons,
      List.sum_cons]
    rw [ih _ (by omega) hrne hry (by omega)]
    congr 1
    ring

theorem take_min_length {β : Type} (l : List β) (k : ℕ) :
    l.take (min (l.length : Int) (k : Int)).toNat = l.take k := by
  rcases le_total l.length k with h | h
  · have h1 : (min (l.length : Int) (k : Int)).toNat = l.length := by omega
    rw [h1, List.take_length, List.take_of_length_le h]
  · have h1 : (min (l.length : Int) (k : Int)).toNat = k := by omega
    rw [h1]

/-- C13: for contours sorted by descending area whose kept ones (the first
`min(n, 50)`) are non-empty, have non-negative `y` coordinates (pixel rows) and
`y` sums that fit an `int`, `breathMeasureOutput` is 0 when `n <= 7` and
otherwise the truncated quotient by `min(n, 50)` of the sum, over the kept
contours, of the truncated mean `y` of each contour. -/
theorem breathMeasure_spec (contours : List (List Point))
    (hne : ∀ c ∈ contours.take 50, c ≠ [])
    (hy : ∀ c ∈ contours.take 50, ∀ p ∈ c, 0 ≤ p.y)
    (hfit : ((contours.take 50).map fun c => (c.map Point.y).sum).sum < 2 ^ 31) :
    breathMeasure contours =
      some (if contours.length ≤ 7 then 0
        else
          Int.tdiv ((contours.take 50).map fun c => Int.tdiv (c.map Point.y).sum c.length).sum
            (min (contours.length : Int) 50)) := by
  have htake := take_min_length contours 50
  have hloop := contoursSumLoop_eq (contours.take 50) 0 le_rfl hne hy (by omega)
  simp only [breathMeasure]
  rw [show ((50 : ℕ) : Int) = 50 from rfl] at htake
  rw [htake, hloop]
  by_cases h7 : contours.length ≤ 7
  · have h7' : (contours.length : Int) ≤ 7 := by omega
    simp [h7, h7']
  · have h7' : ¬ (contours.length : Int) ≤ 7 := by omega
    simp [h7, h7']

theorem breathMeasure_spec_witness :
    breathMeasure sampleContours =
      some (if sampleContours.length ≤ 7 then 0
        else
          Int.tdiv
            ((sampleContours.take 50).map fun c => Int.tdiv (c.map Point.y).sum c.length).sum
            (min (sampleContours.length : Int) 50)) :=
  breathMeasure_spec sampleContours (by decide) (by decide) (by decide)

/-! ## C12: the clamp of the smoothed breath value -/

/-- C12 as stated fails: with window scalars 0, 0, 0, 80, 80, 80 the first
emission is 0 and the second one is 80, a step of 80: the clamp is skipped
because the previous value is 0. -/
theorem smoothBreath_unclamped_after_zero :
    ∃ t e1 e2,
      breathTicks id sampleThread [0, 0, 0, 80, 80, 80] =
          some (t, [none, none, some e1, none, none, some e2]) ∧
        e1.smoothed = 0 ∧ e2.smoothed = 80 ∧ ¬ |e2.smoothed - e1.smoothed| ≤ 50 := by
  refine ⟨_, _, _, rfl, ?_, ?_, ?_⟩
  · norm_num [smoothBreath, sampleThread, ProcessingThread.init]
  · norm_num [smoothBreath, sampleThread, ProcessingThread.init]
  · norm_num [smoothBreath, sampleThread, ProcessingThread.init]

theorem smoothBreath_mean (toPrevSumm : ℚ → ℚ) (frameNum : Int) (prev : ℚ) (b : BreathValues) :
    (smoothBreath toPrevSumm frameNum prev b).mean = ((b.v0 : ℚ) + b.v1 + b.v2) / 3 := rfl

/-- The block that smooths the window mean, at a frame number other than 3:
the three branches of the clamp against `prev`, and no clamp when `prev` is
0. -/
theorem smoothBreath_cases (toPrevSumm : ℚ → ℚ) (frameNum : Int) (prev : ℚ)
    (b : BreathValues) (hframe : frameNum ≠ 3) :
    (prev ≠ 0 →
        |(smoothBreath toPrevSumm frameNum prev b).smoothed - prev| ≤ 50 ∧
          (50 < (smoothBreath toPrevSumm frameNum prev b).mean - prev →
            (smoothBreath toPrevSumm frameNum prev b).smoothed = prev + 50) ∧
          ((smoothBreath toPrevSumm frameNum prev b).mean - prev < -50 →
            (smoothBreath toPrevSumm frameNum prev b).smoothed = prev - 50) ∧
          (|(smoothBreath toPrevSumm frameNum prev b).mean - prev| ≤ 50 →
            (smoothBreath toPrevSumm frameNum prev b).smoothed =
              (smoothBreath toPrevSumm frameNum prev b).mean)) ∧
      (prev = 0 →
        (smoothBreath toPrevSumm frameNum prev b).smoothed =
          (smoothBreath toPrevSumm frameNum prev b).mean) := by
  set mean : ℚ := ((b.v0 : ℚ) + b.v1 + b.v2) / 3 with hmean
  have hs : (smoothBreath toPrevSumm frameNum prev b).smoothed =
      if prev ≠ 0 then
        if (mean - prev) / 2 > 25 then prev + 50
        else if (mean - prev) / 2 < -25 then prev - 50
        else mean
      else mean := by
    simp only [smoothBreath, if_neg hframe, hmean]
  rw [smoothBreath_mean, ← hmean, hs]
  constructor
  · intro hprev
    rw [if_pos hprev]
    by_cases h1 : (mean - prev) / 2 > 25
    · rw [if_pos h1]
      refine ⟨by norm_num, fun _ => rfl, fun h => ?_, fun h => ?_⟩
      · exfalso; linarith
      · exfalso
        have := (abs_le.1 h).2
        linarith
    · rw [if_neg h1]
      by_cases h2 : (mean - prev) / 2 < -25
      · rw [if_pos h2]
        refine ⟨by norm_num, fun h => ?_, fun _ => rfl, fun h => ?_⟩
        · exfalso; linarith
        · exfalso
          have := (abs_le.1 h).1
          linarith
      · rw [if_neg h2]
        have h1' : mean - prev ≤ 50 := by
          by_contra hc
          exact h1 (by linarith)
        have h2' : -50 ≤ mean - prev := by
          by_contra hc
          exact h2 (by linarith)
        refine ⟨abs_le.2 ⟨h2', h1'⟩, fun h => ?_, fun h => ?_, fun _ => rfl⟩
        · exfalso; linarith
        · exfalso; linarith
  · intro hprev
    rw [if_neg (by simpa using hprev)]

/-- An iteration that emits leaves `prevFrameNum` equal to `frameNum` and the
emitted value in `prevSumm` (`prevFrameNum = frameNum`, `prevSumm = summ`). -/
theorem breathTick_emitted {α : Type} (toPrevSumm : ℚ → ℚ) (t t1 : ProcessingThread α)
    (x : Int) (e1 : Emission) (h : breathTick toPrevSumm t x = some (t1, some e1)) :
    t1.frameNum = t.frameNum + 1 ∧ t1.prevFrameNum = t1.frameNum ∧
      t1.prevSumm = toPrevSumm e1.smoothed := by
  simp only [breathTick, breathWindow] at h
  split at h
  · exact Option.noConfusion h
  · split at h
    · simp only [Option.some.injEq, Prod.mk.injEq] at h
      obtain ⟨h1, h2⟩ := h
      subst h1 h2
      exact ⟨rfl, rfl, rfl⟩
    · simp only [Option.some.injEq, Prod.mk.injEq] at h
      exact Option.noConfusion h.2

/-- An iteration that finds no or one sample in the window stores the scalar
in the next slot and emits nothing. -/
theorem breathTick_store {α : Type} (toPrevSumm : ℚ → ℚ) (t : ProcessingThread α) (x : Int)
    (h : t.frameNum - t.prevFrameNum = 0 ∨ t.frameNum - t.prevFrameNum = 1) :
    ∃ t', breathTick toPrevSumm t x = some (t', none) ∧ t'.frameNum = t.frameNum + 1 ∧
      t'.prevFrameNum = t.prevFrameNum ∧ t'.prevSumm = t.prevSumm ∧
      (t.frameNum - t.prevFrameNum = 0 →
        t'.breathValues = { t.breathValues with v0 := x }) ∧
      (t.frameNum - t.prevFrameNum = 1 →
        t'.breathValues = { t.breathValues with v1 := x }) := by
  have hguard : guardPrevFrameNum (t.frameNum + 1) t.prevFrameNum = t.prevFrameNum := by
    unfold guardPrevFrameNum
    rw [if_neg]
    omega
  have hne : ¬ t.frameNum + 1 - t.prevFrameNum = 3 := by omega
  rcases h with h | h
  · have hidx : t.frameNum + 1 - 1 - t.prevFrameNum = 0 := by omega
    refine ⟨{ ({ t with
        frameNum := t.frameNum + 1
        magnificator := { t.magnificator with breathMeasureOutput := x } } : ProcessingThread α) with
      breathValues := { t.breathValues with v0 := x }
      prevFrameNum := t.prevFrameNum }, ?_, rfl, rfl, rfl, fun _ => rfl, fun h1 => ?_⟩
    · simp only [breathTick, breathWindow, hguard, hidx, BreathValues.write, if_neg hne]
      rfl
    · omega
  · have hidx : t.frameNum + 1 - 1 - t.prevFrameNum = 1 := by omega
    refine ⟨{ ({ t with
        frameNum := t.frameNum + 1
        magnificator := { t.magnificator with breathMeasureOutput := x } } : ProcessingThread α) with
      breathValues := { t.breathValues with v1 := x }
      prevFrameNum := t.prevFrameNum }, ?_, rfl, rfl, rfl, fun h1 => ?_, fun _ => rfl⟩
    · simp only [breathTick, breathWindow, hguard, hidx, BreathValues.write, if_neg hne]
      rfl
    · omega

/-- An iteration that finds two samples in the window stores the third one and
emits the smoothed mean of the three. -/
theorem breathTick_emit {α : Type} (toPrevSumm : ℚ → ℚ) (t : ProcessingThread α) (x : Int)
    (h : t.frameNum - t.prevFrameNum = 2) :
    ∃ t', breathTick toPrevSumm t x =
        some (t', some (smoothBreath toPrevSumm (t.frameNum + 1) t.prevSumm
          { t.breathValues with v2 := x })) ∧
      t'.prevSumm = toPrevSumm (smoothBreath toPrevSumm (t.frameNum + 1) t.prevSumm
        { t.breathValues with v2 := x }).smoothed := by
  have hguard : guardPrevFrameNum (t.frameNum + 1) t.prevFrameNum = t.prevFrameNum := by
    unfold guardPrevFrameNum
    rw [if_neg]
    omega
  have hidx : t.frameNum + 1 - 1 - t.prevFrameNum = 2 := by omega
  have heq : t.frameNum + 1 - t.prevFrameNum = 3 := by omega
  refine ⟨{ ({ t with
      frameNum := t.frameNum + 1
      magnificator := { t.magnificator with breathMeasureOutput := x } } : ProcessingThread α) with
    breathValues := { t.breathValues with v2 := x }
    prevFrameNum := t.frameNum + 1
    prevSumm := toPrevSumm (smoothBreath toPrevSumm (t.frameNum + 1) t.prevSumm
      { t.breathValues with v2 := x }).smoothed }, ?_, rfl⟩
  simp only [breathTick, breathWindow, hguard, hidx, BreathValues.write, if_pos heq]
  rfl

/-- C12 (amended): in a run in which `frameNum` (never negative) increases by
one in every iteration, take any iteration that emits (`e1`) and let `prev` be
the value it stores in `prevSumm`.  The next emission `e2` comes three
iterations later, its window mean is the mean of the three scalars read since,
and it is clamped against `prev`, the previous emission: when `prev ≠ 0` the
value emitted differs from `prev` by at most 50, it is `prev + 50` when the
mean exceeds `prev` by more than 50, `prev - 50` when the mean is below `prev`
by more than 50, and the mean itself otherwise; when `prev = 0` the mean is
emitted, whatever the step.  The value emitted is stored in `prevSumm` in
turn. -/
theorem smoothBreath_clamp {α : Type} (toPrevSumm : ℚ → ℚ) (t t1 : ProcessingThread α)
    (x : Int) (e1 : Emission) (hframe : 0 ≤ t.frameNum)
    (h1 : breathTick toPrevSumm t x = some (t1, some e1)) (y1 y2 y3 : Int) :
    ∃ t2 e2, breathTicks toPrevSumm t1 [y1, y2, y3] = some (t2, [none, none, some e2]) ∧
      e2.mean = ((y1 : ℚ) + y2 + y3) / 3 ∧
      t2.prevSumm = toPrevSumm e2.smoothed ∧
      (toPrevSumm e1.smoothed ≠ 0 →
        |e2.smoothed - toPrevSumm e1.smoothed| ≤ 50 ∧
          (50 < e2.mean - toPrevSumm e1.smoothed →
            e2.smoothed = toPrevSumm e1.smoothed + 50) ∧
          (e2.mean - toPrevSumm e1.smoothed < -50 →
            e2.smoothed = toPrevSumm e1.smoothed - 50) ∧
          (|e2.mean - toPrevSumm e1.smoothed| ≤ 50 → e2.smoothed = e2.mean)) ∧
      (toPrevSumm e1.smoothed = 0 → e2.smoothed = e2.mean) := by
  obtain ⟨hf1, hp1, hs1⟩ := breathTick_emitted toPrevSumm t t1 x e1 h1
  obtain ⟨ta, ha, hfa, hpa, hsa, hba, -⟩ := breathTick_store toPrevSumm t1 y1 (Or.inl (by omega))
  obtain ⟨tb, hb, hfb, hpb, hsb, -, hbb⟩ := breathTick_store toPrevSumm ta y2 (Or.inr (by omega))
  obtain ⟨tc, hc, hsc⟩ := breathTick_emit toPrevSumm tb y3 (by omega)
  have hprev : tb.prevSumm = toPrevSumm e1.smoothed := by rw [hsb, hsa, hs1]
  have hnum : tb.frameNum + 1 ≠ 3 := by omega
  have hwin : ({ tb.breathValues with v2 := y3 } : BreathValues) =
      { t1.breathValues with v0 := y1, v1 := y2, v2 := y3 } := by
    rw [hbb (by omega), hba (by omega)]
  refine ⟨tc, _, by simp only [breathTicks, ha, hb, hc], ?_, hsc, ?_⟩
  · rw [smoothBreath_mean, hwin]
  · rw [hprev]
    exact smoothBreath_cases toPrevSumm (tb.frameNum + 1) (toPrevSumm e1.smoothed) _ hnum

theorem smoothBreath_clamp_witness :
    ∃ t t1 e1 t2 e2, breathTicks id sampleThread [10, 10] = some (t, [none, none]) ∧
      breathTick id t 10 = some (t1, some e1) ∧ e1.smoothed = 10 ∧
      breathTicks id t1 [80, 80, 80] = some (t2, [none, none, some e2]) ∧
      e2.mean = 80 ∧ e2.smoothed = 60 ∧ t2.prevSumm = 60 := by
  obtain ⟨t, t1, e1, ht, h1, he1, hframe⟩ :
      ∃ (t t1 : ProcessingThread Nat) (e1 : Emission),
        breathTicks id sampleThread [10, 10] = some (t, [none, none]) ∧
        breathTick id t 10 = some (t1, some e1) ∧ e1.smoothed = 10 ∧ 0 ≤ t.frameNum :=
    ⟨_, _, _, rfl, rfl, by norm_num [smoothBreath, sampleThread, ProcessingThread.init],
      by decide⟩
  obtain ⟨t2, e2, hrun, hmean, hstore, hclamp, -⟩ :=
    smoothBreath_clamp id t t1 10 e1 hframe h1 80 80 80
  have hmean80 : e2.mean = 80 := by rw [hmean]; norm_num
  have hsm : e2.smoothed = 60 := by
    have := (hclamp (by rw [id, he1]; norm_num)).2.1 (by rw [hmean80, id, he1]; norm_num)
    rw [this, id, he1]; norm_num
  exact ⟨t, t1, e1, t2, e2, ht, h1, he1, hrun, hmean80, hsm, by rw [hstore, id, hsm]⟩

/-! ## C17: a three-sample window, emitted every third frame -/

theorem getD_snoc_length (l : List Int) (x : Int) : (l ++ [x]).getD l.length 0 = x := by
  rw [List.getD_append_right _ _ _ _ le_rfl]
  simp

theorem emitsAt_append (l l' : List Int) (j : ℕ) (hj : j < l.length) (e : Option Emission) :
    EmitsAt (l ++ l') j e ↔ EmitsAt l j e := by
  unfold EmitsAt
  rw [List.getD_append l l' 0 (j - 2) (by omega), List.getD_append l l' 0 (j - 1) (by omega),
    List.getD_append l l' 0 j hj]

theorem breathTick_window {α : Type} (toPrevSumm : ℚ → ℚ) (t : ProcessingThread α)
    (pre : List Int) (x : Int) (h : WindowAfter t pre) :
    ∃ t' e, breathTick toPrevSumm t x = some (t', e) ∧ WindowAfter t' (pre ++ [x]) ∧
      EmitsAt (pre ++ [x]) pre.length e := by
  obtain ⟨hf, hp, h0, h1⟩ := h
  have hdiv : (pre.length : Int) = 3 * ((pre.length / 3 : ℕ) : Int) + ((pre.length % 3 : ℕ) : Int) := by
    have := Nat.div_add_mod pre.length 3
    omega
  have hguard : guardPrevFrameNum (t.frameNum + 1) t.prevFrameNum = t.prevFrameNum := by
    unfold guardPrevFrameNum
    rw [if_neg]
    rw [hf, hp]
    have := Nat.mod_lt pre.length (by decide : 3 > 0)
    omega
  have hmod : pre.length % 3 = 0 ∨ pre.length % 3 = 1 ∨ pre.length % 3 = 2 := by omega
  have hlen : (pre ++ [x]).length = pre.length + 1 := by simp
  rcases hmod with hr | hr | hr
  · -- the sample goes to slot 0
    have hidx : t.frameNum + 1 - 1 - t.prevFrameNum = 0 := by rw [hf, hp]; omega
    have hne : ¬ t.frameNum + 1 - t.prevFrameNum = 3 := by rw [hf, hp]; omega
    refine ⟨{ ({ t with
        frameNum := t.frameNum + 1
        magnificator := { t.magnificator with breathMeasureOutput := x } } : ProcessingThread α) with
      breathValues := { t.breathValues with v0 := x }
      prevFrameNum := t.prevFrameNum }, none, ?_, ?_, ?_⟩
    · simp only [breathTick, breathWindow, hguard, hidx, BreathValues.write, if_neg hne]
      rfl
    · refine ⟨by simp only [hlen, hf]; push_cast; ring, ?_, ?_, ?_⟩
      · simp only [hlen, hp]
        have : (pre.length + 1) / 3 = pre.length / 3 := by omega
        rw [this]
      · intro _
        simp only [hlen]
        have h3 : 3 * ((pre.length + 1) / 3) = pre.length := by omega
        rw [h3, getD_snoc_length]
      · intro h2
        simp only [hlen] at h2
        omega
    · unfold EmitsAt
      rw [if_neg (by omega)]
  · -- the sample goes to slot 1
    have hidx : t.frameNum + 1 - 1 - t.prevFrameNum = 1 := by rw [hf, hp]; omega
    have hne : ¬ t.frameNum + 1 - t.prevFrameNum = 3 := by rw [hf, hp]; omega
    refine ⟨{ ({ t with
        frameNum := t.frameNum + 1
        magnificator := { t.magnificator with breathMeasureOutput := x } } : ProcessingThread α) with
      breathValues := { t.breathValues with v1 := x }
      prevFrameNum := t.prevFrameNum }, none, ?_, ?_, ?_⟩
    · simp only [breathTick, breathWindow, hguard, hidx, BreathValues.write, if_neg hne]
      rfl
    · refine ⟨by simp only [hlen, hf]; push_cast; ring, ?_, ?_, ?_⟩
      · simp only [hlen, hp]
        have : (pre.length + 1) / 3 = pre.length / 3 := by omega
        rw [this]
      · intro _
        simp only [hlen]
        have h3 : (pre.length + 1) / 3 = pre.length / 3 := by omega
        rw [h3, List.getD_append _ _ _ _ (by omega)]
        exact h0 (by omega)
      · intro _
        simp only [hlen]
        have h3 : 3 * ((pre.length + 1) / 3) + 1 = pre.length := by omega
        rw [h3, getD_snoc_length]
    · unfold EmitsAt
      rw [if_neg (by omega)]
  · -- the sample goes to slot 2 and the window is emitted
    have hidx : t.frameNum + 1 - 1 - t.prevFrameNum = 2 := by rw [hf, hp]; omega
    have heq : t.frameNum + 1 - t.prevFrameNum = 3 := by rw [hf, hp]; omega
    refine ⟨{ ({ t with
        frameNum := t.frameNum + 1
        magnificator := { t.magnificator with breathMeasureOutput := x } } : ProcessingThread α) with
      breathValues := { t.breathValues with v2 := x }
      prevFrameNum := t.frameNum + 1
      prevSumm := toPrevSumm (smoothBreath toPrevSumm (t.frameNum + 1) t.prevSumm
        { t.breathValues with v2 := x }).smoothed },
      some (smoothBreath toPrevSumm (t.frameNum + 1) t.prevSumm
        { t.breathValues with v2 := x }), ?_, ?_, ?_⟩
    · simp only [breathTick, breathWindow, hguard, hidx, BreathValues.write, if_pos heq]
      rfl
    · refine ⟨by simp only [hlen, hf]; push_cast; ring, ?_, ?_, ?_⟩
      · simp only [hlen, hf]
        have : 3 * ((pre.length + 1) / 3) = pre.length + 1 := by omega
        omega
      · intro h2
        simp only [hlen] at h2
        omega
      · intro h2
        simp only [hlen] at h2
        omega
    · unfold EmitsAt
      rw [if_pos (by omega)]
      refine ⟨_, rfl, by simp only [smoothBreath, hf], ?_⟩
      have e0 : pre.length - 2 = 3 * (pre.length / 3) := by omega
      have e1 : pre.length - 1 = 3 * (pre.length / 3) + 1 := by omega
      rw [smoothBreath_mean, List.getD_append _ _ _ _ (by omega),
        List.getD_append _ _ _ _ (by omega), getD_snoc_length, e0, e1,
        ← h0 (by omega), ← h1 hr]

theorem breathTicks_window {α : Type} (toPrevSumm : ℚ → ℚ) (rest : List Int) :
    ∀ (pre : List Int) (t : ProcessingThread α), WindowAfter t pre →
      ∃ t' es, breathTicks toPrevSumm t rest = some (t', es) ∧ es.length = rest.length ∧
        ∀ k, k < rest.length → EmitsAt (pre ++ rest) (pre.length + k) (es.getD k none) := by
  induction rest with
  | nil =>
    intro pre t _
    exact ⟨t, [], rfl, rfl, fun k hk => absurd hk (Nat.not_lt_zero k)⟩
  | cons x rest ih =>
    intro pre t h
    obtain ⟨t1, e, htick, hwin, hemit⟩ := breathTick_window toPrevSumm t pre x h
    obtain ⟨t', es, hrun, hlen, hall⟩ := ih (pre ++ [x]) t1 hwin
    refine ⟨t', e :: es, by simp only [breathTicks, htick, hrun], by simp [hlen], ?_⟩
    intro k hk
    have happ : pre ++ x :: rest = (pre ++ [x]) ++ rest := by simp
    cases k with
    | zero =>
      rw [happ, List.getD_cons_zero, Nat.add_zero, emitsAt_append _ _ _ (by simp)]
      exact hemit
    | succ k =>
      have := hall k (by simpa using hk)
      rw [happ, List.getD_cons_succ]
      have hl : (pre ++ [x]).length + k = pre.length + (k + 1) := by simp; omega
      rw [← hl]
      exact this

/-- C17: in a run that starts with `frameNum = prevFrameNum = 0` and in which
`frameNum` increases by one in every iteration, every iteration returns; the
iteration with index `k` (counting from 0, so `frameNum = k + 1`) emits exactly
when `k + 1` is a multiple of 3, and the value emitted before the clamp is the
arithmetic mean of the breath scalars read in that iteration and in the two
preceding ones. -/
theorem breathTicks_emit_every_third {α : Type} (toPrevSumm : ℚ → ℚ)
    (t : ProcessingThread α) (hframe : t.frameNum = 0) (hprev : t.prevFrameNum = 0)
    (temps : List Int) :
    ∃ t' es, breathTicks toPrevSumm t temps = some (t', es) ∧ es.length = temps.length ∧
      ∀ k, k < temps.length →
        ((k + 1) % 3 = 0 →
          ∃ e, es.getD k none = some e ∧ e.frameNum = (k : Int) + 1 ∧
            e.mean =
              ((temps.getD (k - 2) 0 : ℚ) + temps.getD (k - 1) 0 + temps.getD k 0) / 3) ∧
        ((k + 1) % 3 ≠ 0 → es.getD k none = none) := by
  have hw : WindowAfter t [] := by
    refine ⟨by simpa using hframe, by simpa using hprev, ?_, ?_⟩ <;> intro h <;> simp at h
  obtain ⟨t', es, hrun, hlen, hall⟩ := breathTicks_window toPrevSumm temps [] t hw
  refine ⟨t', es, hrun, hlen, fun k hk => ?_⟩
  have := hall k hk
  simp only [List.nil_append, List.length_nil, Nat.zero_add] at this
  unfold EmitsAt at this
  constructor
  · intro h3
    rw [if_pos h3] at this
    exact this
  · intro h3
    rw [if_neg h3] at this
    exact this

theorem breathTicks_emit_every_third_witness :
    ∃ t' es, breathTicks id sampleThread [10, 10, 10, 80, 80, 80] = some (t', es) ∧
      es.length = [10, 10, 10, 80, 80, (80 : Int)].length ∧
      ∀ k, k < [10, 10, 10, 80, 80, (80 : Int)].length →
        ((k + 1) % 3 = 0 →
          ∃ e, es.getD k none = some e ∧ e.frameNum = (k : Int) + 1 ∧
            e.mean =
              (([10, 10, 10, 80, 80, (80 : Int)].getD (k - 2) 0 : ℚ) +
                [10, 10, 10, 80, 80, (80 : Int)].getD (k - 1) 0 +
                [10, 10, 10, 80, 80, (80 : Int)].getD k 0) / 3) ∧
        ((k + 1) % 3 ≠ 0 → es.getD k none = none) :=
  breathTicks_emit_every_third id sampleThread rfl rfl [10, 10, 10, 80, 80, 80]

/-! ## C19: the index of the window write -/

/-- Whenever the guard in front of the window write fires, the index it leaves
is -1. -/
theorem breathIndex_of_guard (frameNum prevFrameNum : Int)
    (h : frameNum - 1 - prevFrameNum > 2 ∨ frameNum - 1 - prevFrameNum < 0) :
    breathIndex frameNum prevFrameNum = -1 := by
  unfold breathIndex guardPrevFrameNum
  rw [if_pos h]
  omega

/-- C19 (failing input): in the very first iteration of a fresh thread the queue
is not filled, `frameNum` and `prevFrameNum` are both 0, the guard fires and
sets `prevFrameNum = frameNum`, and the index of the window write is -1: the
sample is stored outside `breathValues`. -/
theorem breathIndex_first_iteration :
    ∃ t, processFrame bgrStream sampleThread 0 = some t ∧ t.frameNum = 0 ∧
      t.prevFrameNum = 0 ∧ breathIndex t.frameNum t.prevFrameNum = -1 ∧
      breathWindow id t = none :=
  ⟨_, rfl, rfl, rfl, rfl, rfl⟩

/-! ## C11: what a round of `colorMagnify` consumes -/

theorem colorOutputs_input {α : Type} (frames : List α) :
    ∀ i : Int, (colorOutputs frames i).map Magnified.input = frames := by
  induction frames with
  | nil => intro i; rfl
  | cons f rest ih => intro i; simp [colorOutputs, Magnified.input, ih]

theorem colorMagnifyLoop_spec {α : Type} (p : Int) (n : ℕ) :
    ∀ c : ColorLoop α, 1 ≤ c.mag.levels → n ≤ c.mag.processingBuffer.length →
      c.mag.currentFrame + n ≤ p →
      ∃ c', colorMagnifyLoop p n c = some c' ∧
        c'.mag.processingBuffer = c.mag.processingBuffer.drop n ∧
        c'.inputFrames = c.inputFrames ++ c.mag.processingBuffer.take n ∧
        c'.offset = c.offset + n ∧
        c'.mag.currentFrame = c.mag.currentFrame + n ∧
        c'.mag.magnifiedBuffer = c.mag.magnifiedBuffer := by
  induction n with
  | zero =>
    intro c _ _ _
    exact ⟨c, rfl, by simp, by simp, by simp, by simp, rfl⟩
  | succ n ih =>
    intro c hlev hlen hcur
    cases hq : c.mag.processingBuffer with
    | nil => rw [hq] at hlen; simp at hlen
    | cons input rest =>
      rw [hq] at hlen
      have hlt : c.mag.currentFrame < p := by push_cast at hcur; omega
      have hbody : colorMagnifyBody c = some
          { mag := { c.mag with
              processingBuffer := rest
              downSampledMat := img2tempMat input c.mag.downSampledMat
                (getOptimalBufferSize (truncToInt c.mag.imgProcSettings.framerate))
              currentFrame := c.mag.currentFrame + 1 }
            inputFrames := c.inputFrames ++ [input]
            offset := c.offset + 1 } := by
        rw [colorMagnifyBody_eq c input rest hq, if_pos hlev]
      obtain ⟨c', hrun, h1, h2, h3, h4, h5⟩ := ih
        { mag := { c.mag with
            processingBuffer := rest
            downSampledMat := img2tempMat input c.mag.downSampledMat
              (getOptimalBufferSize (truncToInt c.mag.imgProcSettings.framerate))
            currentFrame := c.mag.currentFrame + 1 }
          inputFrames := c.inputFrames ++ [input]
          offset := c.offset + 1 }
        hlev (by simpa using hlen)
        (by simp only; push_cast at hcur; omega)
      refine ⟨c', ?_, ?_, ?_, ?_, ?_, ?_⟩
      · simp only [colorMagnifyLoop, if_pos hlt, hbody, Option.some_bind]
        exact hrun
      · simpa using h1
      · rw [h2]; simp
      · rw [h3]; push_cast; ring
      · rw [h4]; push_cast; ring
      · rw [h5]

theorem colorMagnifyEmit_spec {α : Type} (frames : List α) :
    ∀ (i : Int) (m : Magnificator α), m.currentFrame - i = frames.length →
      ∃ m', colorMagnifyEmit frames.length i frames m = some m' ∧
        m'.magnifiedBuffer = m.magnifiedBuffer ++ colorOutputs frames i ∧
        m'.processingBuffer = m.processingBuffer ∧ m'.currentFrame = m.currentFrame := by
  induction frames with
  | nil =>
    intro i m _
    exact ⟨m, rfl, by simp [colorOutputs], rfl, rfl⟩
  | cons f rest ih =>
    intro i m h
    have hlt : i < m.currentFrame := by
      simp only [List.length_cons] at h
      push_cast at h
      omega
    obtain ⟨m', hrun, h1, h2, h3⟩ := ih (i + 1)
      { m with
        magnifiedBuffer := m.magnifiedBuffer ++ [Magnified.color f i]
        appended := m.appended + 1
        appendedFrames := m.appendedFrames ++ [Magnified.color f i] }
      (by simp only [List.length_cons] at h; push_cast at h; simp only; omega)
    refine ⟨m', ?_, ?_, h2, h3⟩
    · simp only [List.length_cons, colorMagnifyEmit, if_pos hlt]
      exact hrun
    · rw [h1]; simp [colorOutputs]

/-- C11 as stated fails: in color mode, in the state reached after three frames
(cursor 1), the fourth frame makes the queue `[2, 3]`; `colorMagnify` returns
leaving frame 3 in the queue, which is not empty. -/
theorem colorMagnify_leaves_frame :
    ∃ t outs m,
      processFrames bgrStream sampleColorThread [0, 1, 2] = some (t, outs) ∧
        (fillProcessingBuffer t 3).magnificator.processingBuffer = [2, 3] ∧
        colorMagnify (fillProcessingBuffer t 3).magnificator = some m ∧
        ¬ m.processingBuffer = [] :=
  ⟨_, _, _, rfl, rfl, rfl, by decide⟩

/-- With `levels ≤ 0` a call of `colorMagnify` that has a frame to take throws
in its first iteration, at `inputPyramid.at(levels-1)`. -/
theorem colorMagnify_throws {α : Type} (m : Magnificator α)
    (hlev : m.imgProcSettings.levels ≤ 0)
    (hlt : m.currentFrame < (m.processingBuffer.length : Int)) : colorMagnify m = none := by
  have hge : ¬ m.currentFrame ≥ (m.processingBuffer.length : Int) := by omega
  obtain ⟨k, hk⟩ : ∃ k, ((m.processingBuffer.length : Int) - m.currentFrame).toNat = k + 1 :=
    ⟨((m.processingBuffer.length : Int) - m.currentFrame).toNat - 1, by omega⟩
  have hbody : colorMagnifyBody
      { mag := { m with levels := m.imgProcSettings.levels }, inputFrames := [], offset := 0 } =
      none := by
    by_cases hq0 : m.processingBuffer = []
    · simp [colorMagnifyBody, hq0]
    · obtain ⟨input, rest, hq⟩ := List.exists_cons_of_ne_nil hq0
      rw [colorMagnifyBody_eq _ input rest hq, if_neg]
      simp only
      omega
  simp only [colorMagnify, if_neg hge, hk, colorMagnifyLoop, if_pos hlt, hbody, Option.none_bind]

/-- C11 (amended): for every state with a non-empty input queue of `n` frames
and a cursor `c ≥ 0`: with `levels ≥ 1`, `colorMagnify` returns; it takes the
first `max(n - c, 0)` frames from the queue and appends exactly one output frame
for each of them, in the order in which they were taken, leaving the other
frames in the queue, so that with cursor 0 the queue is emptied and every frame
that was in it has its output.  With `levels ≤ 0` and a frame to take
(`c < n`) the call throws. -/
theorem colorMagnify_consumes {α : Type} (m : Magnificator α) (hcur : 0 ≤ m.currentFrame)
    (hne : m.processingBuffer ≠ []) :
    (1 ≤ m.imgProcSettings.levels →
      ∃ m', colorMagnify m = some m' ∧
        m'.processingBuffer =
          m.processingBuffer.drop ((m.processingBuffer.length : Int) - m.currentFrame).toNat ∧
        m'.magnifiedBuffer =
          m.magnifiedBuffer ++
            colorOutputs
              (m.processingBuffer.take ((m.processingBuffer.length : Int) - m.currentFrame).toNat)
              m.currentFrame ∧
        (colorOutputs
              (m.processingBuffer.take ((m.processingBuffer.length : Int) - m.currentFrame).toNat)
              m.currentFrame).map Magnified.input =
          m.processingBuffer.take ((m.processingBuffer.length : Int) - m.currentFrame).toNat ∧
        (m.currentFrame = 0 →
          m'.processingBuffer = [] ∧
            (m'.magnifiedBuffer.drop m.magnifiedBuffer.length).map Magnified.input =
              m.processingBuffer)) ∧
      (m.imgProcSettings.levels ≤ 0 → m.currentFrame < (m.processingBuffer.length : Int) →
        colorMagnify m = none) := by
  refine ⟨?_, colorMagnify_throws m⟩
  intro hlev
  have hpos : 0 < m.processingBuffer.length := List.length_pos.2 hne
  by_cases hge : m.currentFrame ≥ (m.processingBuffer.length : Int)
  · have hk : ((m.processingBuffer.length : Int) - m.currentFrame).toNat = 0 := by omega
    refine ⟨m, ?_, ?_, ?_, ?_, ?_⟩
    · simp only [colorMagnify, if_pos hge]
    · rw [hk]; simp
    · rw [hk]; simp [colorOutputs]
    · rw [hk]; simp [colorOutputs]
    · intro h0
      rw [h0] at hge
      omega
  · set k := ((m.processingBuffer.length : Int) - m.currentFrame).toNat with hk
    have hkle : k ≤ m.processingBuffer.length := by omega
    obtain ⟨c', hloop, h1, h2, h3, h4, h5⟩ :=
      colorMagnifyLoop_spec (m.processingBuffer.length : Int) k
        { mag := { m with levels := m.imgProcSettings.levels }, inputFrames := [], offset := 0 }
        hlev hkle (by simp only; omega)
    simp only [List.nil_append, zero_add] at h1 h2 h3 h4 h5
    have hfr : c'.inputFrames.length = k := by
      rw [h2, List.length_take]; omega
    obtain ⟨m', hemit, g1, g2, g3⟩ :=
      colorMagnifyEmit_spec c'.inputFrames (c'.mag.currentFrame - c'.offset) c'.mag
        (by rw [hfr, h3]; ring)
    have hidx : c'.mag.currentFrame - c'.offset = m.currentFrame := by rw [h4, h3]; ring
    have hmag : m'.magnifiedBuffer =
        m.magnifiedBuffer ++ colorOutputs (m.processingBuffer.take k) m.currentFrame := by
      rw [g1, h5, hidx, h2]
    refine ⟨m', ?_, ?_, hmag, colorOutputs_input _ _, ?_⟩
    · have hoff : c'.offset.toNat = c'.inputFrames.length := by rw [h3, hfr]; simp
      simp only [colorMagnify, if_neg hge, ← hk, hloop]
      rw [hoff]
      exact hemit
    · rw [g2, h1]
    · intro h0
      have hkl : k = m.processingBuffer.length := by omega
      constructor
      · rw [g2, h1, hkl, List.drop_length]
      · rw [hmag, List.drop_left, colorOutputs_input, hkl, List.take_length]

theorem colorMagnify_consumes_witness :
    (∃ m', colorMagnify sampleColorSteady = some m' ∧
        m'.processingBuffer = [3] ∧
        m'.magnifiedBuffer = [Magnified.color 1 1, Magnified.color 2 1]) ∧
      (∃ m', colorMagnify sampleColorMagnificator = some m' ∧
        m'.processingBuffer = [] ∧
        m'.magnifiedBuffer = [Magnified.color 0 0, Magnified.color 1 1]) ∧
      colorMagnify
        { sampleColorSteady with
          imgProcSettings := { sampleSettings with levels := 0 } } = none := by
  refine ⟨?_, ?_, ?_⟩
  · obtain ⟨m', h, h1, h2, -, -⟩ :=
      (colorMagnify_consumes sampleColorSteady (by decide) (by decide)).1 (by decide)
    exact ⟨m', h, h1, h2⟩
  · obtain ⟨m', h, h1, h2, -, -⟩ :=
      (colorMagnify_consumes sampleColorMagnificator (by decide) (by decide)).1 (by decide)
    exact ⟨m', h, h1, h2⟩
  · exact (colorMagnify_consumes
      { sampleColorSteady with imgProcSettings := { sampleSettings with levels := 0 } }
      (by decide) (by decide)).2 (by decide) (by decide)

/-! ## C15: how often the Laplacian loop takes a frame -/

/-- An iteration on an empty input queue that returns changes nothing but the
queue, which now holds the frame, and the published frame. -/
theorem push_step_some {α : Type} (cv : Vision α) (t t' : ProcessingThread α) (a : α)
    (hq : t.magnificator.processingBuffer = []) (hl : t.processingBufferLength = 2)
    (h : processFrame cv t a = some t') :
    t'.magnificator.processingBuffer = [a] ∧
      t'.magnificator.magnifiedBuffer = t.magnificator.magnifiedBuffer ∧
      t'.magnificator.currentFrame = t.magnificator.currentFrame ∧
      t'.processingBufferLength = 2 ∧
      t'.magnificator.imgProcFlags = t.magnificator.imgProcFlags ∧
      t'.magnificator.appendedFrames = t.magnificator.appendedFrames := by
  rw [processFrame_push cv t a hq hl, Option.some.injEq] at h
  subst h
  exact ⟨by simp [fillProcessingBuffer, hq], rfl, rfl, hl, rfl, rfl⟩

theorem bind_eq_none_of {β γ : Type} {x : Option β} {f : β → Option γ}
    (h : ∀ a, x = some a → f a = none) : x.bind f = none := by
  cases x with
  | none => rfl
  | some a => exact h a rfl

/-- A filled iteration in Laplacian mode from cursor 0 does not return when the
waiting frame is not a BGR source: the second iteration of `laplaceMagnify`
throws. -/
theorem tick_filled_laplace_throws {α : Type} (cv : Vision α) (t : ProcessingThread α)
    (a f : α) (hq : t.magnificator.processingBuffer = [a]) (hl : t.processingBufferLength = 2)
    (hc : t.magnificator.currentFrame = 0)
    (hcol : t.magnificator.imgProcFlags.colorMagnifyOn = false)
    (hlap : t.magnificator.imgProcFlags.laplaceMagnifyOn = true)
    (ha : bgrSource (cv.channels a) = false) :
    processFrame cv t f = none := by
  have hcol' : ¬ t.magnificator.imgProcFlags.colorMagnifyOn = true := by simp [hcol]
  have hqf := filled_buffer t a f hq
  have hm : laplaceMagnify cv (fillProcessingBuffer
      { t with currentFrame := some (Shown.original f) } f).magnificator = none := by
    rw [laplaceMagnify_cursor_zero cv
      (fillProcessingBuffer { t with currentFrame := some (Shown.original f) } f).magnificator
      (by rw [hqf]; rfl) hc]
    apply bind_eq_none_of
    intro m1 hb1
    obtain ⟨e1, c1, -, -, -⟩ := laplaceMagnifyBody_effect cv
      { (fillProcessingBuffer { t with currentFrame := some (Shown.original f) }
          f).magnificator with
        levels := t.magnificator.imgProcSettings.levels } m1 a [f] hqf hb1
    have hq1 : m1.processingBuffer = a :: [f] := by
      have := e1.1
      simp only [fillProcessingBuffer, hc, if_true] at this
      exact this
    have hpos : 0 < m1.currentFrame := by
      rw [c1]
      show 0 < t.magnificator.currentFrame + 1
      omega
    have hthrow : laplaceMagnifyThrows cv m1 a = true :=
      laplaceMagnifyThrows_not_bgr cv m1 a hpos ha
    simp [laplaceMagnifyBody, hq1, hthrow]
  rw [processFrame_filled cv t a f hq hl, if_neg hcol', if_pos hlap, hm]
  rfl

theorem laplaceSteady_step_some {α : Type} (cv : Vision α)
    (t t' : ProcessingThread α) (a f : α) (hist : List (Magnified α))
    (h : LaplaceSteady t a hist) (ht : processFrame cv t f = some t') :
    LaplaceSteady t' f (hist ++ [Magnified.laplace a true]) := by
  obtain ⟨hp, hx, hc, hl, h1, h2, hh⟩ := h
  obtain ⟨g1, g2, -, g4, -, g6, g7, g8⟩ :=
    tick_filled_laplace cv t t' a f hp hl (Or.inr ⟨hx, hc⟩) h1 h2 ht
  have hc0 : ¬ t.magnificator.currentFrame = 0 := by rw [hc]; decide
  rw [if_neg hc0, hh] at g8
  exact ⟨g6, ⟨_, g7⟩, g4, g1, by rw [g2]; exact h1, by rw [g2]; exact h2, g8⟩

theorem laplaceSteady_run_some {α : Type} (cv : Vision α) (fs : List α) :
    ∀ (t t' : ProcessingThread α) (a : α) (hist : List (Magnified α)) (outs : List (Shown α)),
      LaplaceSteady t a hist → processFrames cv t fs = some (t', outs) →
      t'.magnificator.appendedFrames =
          hist ++ (a :: fs).dropLast.map (fun frame => Magnified.laplace frame true) ∧
        t'.magnificator.processingBuffer = [(a :: fs).getLast (List.cons_ne_nil a fs)] := by
  induction fs with
  | nil =>
    intro t t' a hist outs h hrun
    simp only [processFrames, Option.some.injEq, Prod.mk.injEq] at hrun
    obtain ⟨rfl, -⟩ := hrun
    exact ⟨by simpa using h.2.2.2.2.2.2, by simpa using h.1⟩
  | cons f rest ih =>
    intro t t' a hist outs h hrun
    obtain ⟨t1, outs1, h1, hrun1, -⟩ := processFrames_cons_some cv t t' f rest outs hrun
    have hs := laplaceSteady_step_some cv t t1 a f hist h h1
    obtain ⟨happ, hq⟩ := ih t1 t' f _ outs1 hs hrun1
    refine ⟨?_, ?_⟩
    · rw [happ]; simp
    · rw [hq]; simp

/-- In Laplacian mode, from empty queues, the run on `a`, `b` and further
frames, when it returns, has taken `a` twice and every later frame except the
newest once. -/
theorem laplace_run_some {α : Type} (cv : Vision α)
    (t t' : ProcessingThread α) (a b : α) (rest : List α) (outs : List (Shown α))
    (hqueue : t.magnificator.processingBuffer = [])
    (hbuffer : t.magnificator.magnifiedBuffer = [])
    (hcursor : t.magnificator.currentFrame = 0)
    (hlength : t.processingBufferLength = 2)
    (hcolor : t.magnificator.imgProcFlags.colorMagnifyOn = false)
    (hlaplace : t.magnificator.imgProcFlags.laplaceMagnifyOn = true)
    (hrun : processFrames cv t (a :: b :: rest) = some (t', outs)) :
    t'.magnificator.appendedFrames =
        t.magnificator.appendedFrames ++
          Magnified.laplace a false ::
            (a :: b :: rest).dropLast.map (fun frame => Magnified.laplace frame true) ∧
      t'.magnificator.processingBuffer =
        [(a :: b :: rest).getLast (List.cons_ne_nil a (b :: rest))] := by
  obtain ⟨t1, outs1, h1, hrun1, -⟩ := processFrames_cons_some cv t t' a _ outs hrun
  obtain ⟨t2, outs2, h2, hrun2, -⟩ := processFrames_cons_some cv t1 t' b rest outs1 hrun1
  obtain ⟨p1, p2, p3, p4, p5, p6⟩ := push_step_some cv t t1 a hqueue hlength h1
  obtain ⟨g1, g2, -, g4, -, g6, g7, g8⟩ :=
    tick_filled_laplace cv t1 t2 a b p1 p4 (Or.inl ⟨by rw [p2, hbuffer], by rw [p3, hcursor]⟩)
      (by rw [p5]; exact hcolor) (by rw [p5]; exact hlaplace) h2
  have hs : LaplaceSteady t2 b
      (t.magnificator.appendedFrames ++ [Magnified.laplace a false, Magnified.laplace a true]) := by
    refine ⟨g6, ⟨_, g7⟩, g4, g1, by rw [g2, p5]; exact hcolor, by rw [g2, p5]; exact hlaplace, ?_⟩
    rw [g8, if_pos (by rw [p3, hcursor]), p6]
  obtain ⟨happ, hq⟩ := laplaceSteady_run_some cv rest t2 t' b _ outs2 hs hrun2
  refine ⟨?_, ?_⟩
  · rw [happ]; simp
  · rw [hq]; simp

/-- In Laplacian mode, from empty queues, a run on two or more frames whose
first frame is not a BGR source does not return: the second iteration of the
first call of `laplaceMagnify` throws. -/
theorem laplace_run_throws {α : Type} (cv : Vision α)
    (t : ProcessingThread α) (a b : α) (rest : List α)
    (hqueue : t.magnificator.processingBuffer = [])
    (hcursor : t.magnificator.currentFrame = 0)
    (hlength : t.processingBufferLength = 2)
    (hcolor : t.magnificator.imgProcFlags.colorMagnifyOn = false)
    (hlaplace : t.magnificator.imgProcFlags.laplaceMagnifyOn = true)
    (ha : bgrSource (cv.channels a) = false) :
    processFrames cv t (a :: b :: rest) = none := by
  have h2 : processFrame cv
      (fillProcessingBuffer { t with currentFrame := some (Shown.original a) } a) b = none :=
    tick_filled_laplace_throws cv _ a b (by simp [fillProcessingBuffer, hqueue]) hlength hcursor
      hcolor hlaplace ha
  simp only [processFrames, processFrame_push cv t a hqueue hlength, h2]

/-- C15 as stated fails: after three frames in Laplacian mode the loop has
appended two frames computed from frame 0 (one by the first-frame branch, which
does not erase the queue head, one by the next iteration), so frame 0 was the
input of two iterations and yielded two output frames. -/
theorem laplace_first_frame_taken_twice :
    ∃ t outs,
      processFrames bgrStream sampleThread [0, 1, 2] = some (t, outs) ∧
        t.magnificator.appendedFrames =
          [Magnified.laplace 0 false, Magnified.laplace 0 true, Magnified.laplace 1 true] ∧
        ¬ (t.magnificator.appendedFrames.map Magnified.input).count 0 = 1 :=
  ⟨_, _, rfl, rfl, by decide⟩

/-- C15 (amended): in Laplacian mode with grayscale off, starting from empty
queues with the configured length 2, every run of the loop on BGR frames
`a, b, ...` returns; the first frame `a` is the input of two iterations (the
first-frame branch keeps it at the head of the queue) and yields two appended
frames, every later frame except the newest is the input of exactly one
iteration and yields exactly one appended frame, in arrival order, and the
newest frame is the one waiting in the queue.  When the first frame is not a
BGR source, the run does not return. -/
theorem laplace_run_appended {α : Type} (cv : Vision α)
    (t : ProcessingThread α) (a b : α) (rest : List α)
    (hqueue : t.magnificator.processingBuffer = [])
    (hbuffer : t.magnificator.magnifiedBuffer = [])
    (hcursor : t.magnificator.currentFrame = 0)
    (hlength : t.processingBufferLength = 2)
    (hcolor : t.magnificator.imgProcFlags.colorMagnifyOn = false)
    (hlaplace : t.magnificator.imgProcFlags.laplaceMagnifyOn = true) :
    (t.magnificator.imgProcFlags.grayscaleOn = false →
      (∀ f ∈ a :: b :: rest, bgrSource (cv.channels f) = true) →
      ∃ t' outs, processFrames cv t (a :: b :: rest) = some (t', outs) ∧
        t'.magnificator.appendedFrames =
          t.magnificator.appendedFrames ++
            Magnified.laplace a false ::
              (a :: b :: rest).dropLast.map (fun frame => Magnified.laplace frame true) ∧
        t'.magnificator.processingBuffer =
          [(a :: b :: rest).getLast (List.cons_ne_nil a (b :: rest))]) ∧
      (bgrSource (cv.channels a) = false → processFrames cv t (a :: b :: rest) = none) := by
  refine ⟨?_, laplace_run_throws cv t a b rest hqueue hcursor hlength hcolor hlaplace⟩
  intro hgray hbgr
  obtain ⟨t', outs, hrun⟩ := running_run cv (a :: b :: rest) t
    (running_of_cleared cv t hlength hqueue hbuffer hcursor)
    (fun f hf => ⟨fun h => by rw [hcolor] at h; exact absurd h (by decide),
      fun _ _ => ⟨hgray, hbgr f hf⟩,
      fun _ h => by rw [hlaplace] at h; exact absurd h (by decide)⟩)
  obtain ⟨h1, h2⟩ := laplace_run_some cv t t' a b rest outs hqueue hbuffer hcursor hlength
    hcolor hlaplace hrun
  exact ⟨t', outs, hrun, h1, h2⟩

theorem laplace_run_appended_witness :
    (∃ t' outs, processFrames bgrStream sampleThread (10 :: 11 :: [12, 13]) = some (t', outs) ∧
      t'.magnificator.appendedFrames =
        [Magnified.laplace 10 false, Magnified.laplace 10 true, Magnified.laplace 11 true,
          Magnified.laplace 12 true] ∧
      t'.magnificator.processingBuffer = [13]) ∧
      processFrames grayStream
        (ProcessingThread.init grayLaplaceFlags sampleSettings sampleROI)
        (10 :: 11 :: [12, 13]) = none :=
  ⟨(laplace_run_appended bgrStream sampleThread 10 11 [12, 13] rfl rfl rfl rfl rfl rfl).1 rfl
      (fun _ _ => rfl),
    (laplace_run_appended grayStream
      (ProcessingThread.init grayLaplaceFlags sampleSettings sampleROI) 10 11 [12, 13]
      rfl rfl rfl rfl rfl rfl).2 rfl⟩

/-! ## C20: the input queue never holds more than two frames -/

theorem threadStep_queueShape {α : Type} {cv : Vision α}
    {t t' : ProcessingThread α} (h : ThreadStep cv t t') (ht : QueueShape t) :
    QueueShape t' := by
  cases h with
  | tick _ frame h => exact (processFrame_queueShape cv t t' frame ht h).1
  | flags imageProcessingFlags =>
    exact ⟨ht.1, Or.inl ⟨by simp [updateImageProcessingFlags, clearBuffer], rfl, rfl⟩⟩
  | settings imgProcessingSettings =>
    obtain ⟨hl, hshape⟩ := ht
    refine ⟨hl, ?_⟩
    rw [updateImageProcessingSettings_magnificator]
    split
    · exact Or.inl ⟨by simp, rfl, rfl⟩
    · exact hshape
  | roi r => exact ⟨ht.1, Or.inl ⟨by simp [setROI, clearBuffer], rfl, rfl⟩⟩

theorem threadReachable_queueShape {α : Type} {cv : Vision α}
    {t : ProcessingThread α} (h : ThreadReachable cv t) : QueueShape t := by
  induction h with
  | init flags settings roi =>
    exact ⟨rfl, Or.inl ⟨by simp [ProcessingThread.init, Magnificator.init], rfl, rfl⟩⟩
  | step t t' _ hstep ih => exact threadStep_queueShape hstep ih

theorem queueShape_length {α : Type} {t : ProcessingThread α} (h : QueueShape t) :
    t.magnificator.processingBuffer.length ≤ 1 := by
  rcases h.2 with ⟨h1, -, -⟩ | ⟨h1, -, -⟩ <;> exact h1

theorem filled_iff {α : Type} (t : ProcessingThread α) (frame : α)
    (hl : t.processingBufferLength = 2) :
    processingBufferFilled (fillProcessingBuffer t frame) = true ↔
      t.magnificator.processingBuffer.length = 1 := by
  simp only [processingBufferFilled, fillProcessingBuffer, List.length_append,
    List.length_singleton, Bool.and_eq_true, decide_eq_true_eq, hl]
  constructor
  · rintro ⟨h1, -⟩
    push_cast at h1
    omega
  · intro h1
    rw [h1]
    exact ⟨by norm_num, by norm_num⟩

/-- C20: in every state reachable from a fresh thread by iterations of the loop
(with any flags, also none) interleaved with `updateImageProcessingFlags`,
`updateImageProcessingSettings` and `setROI`, the input queue holds at most one
frame between iterations and at most the configured length 2 after the push;
the push fills the queue (its size equals the configured length) exactly when
one frame was waiting, and an iteration that returns leaves at most one frame,
so that the queue is filled in this iteration or in the next one: the equality
test is never skipped past.  The iteration returns whenever its frame, and the
frames of the iterations before it, are frames the selected routine supports. -/
theorem queue_bounded {α : Type} (cv : Vision α) (t : ProcessingThread α)
    (h : ThreadReachable cv t) (frame : α) :
    t.magnificator.processingBuffer.length ≤ 1 ∧
      ((fillProcessingBuffer t frame).magnificator.processingBuffer.length : Int) ≤
        t.processingBufferLength ∧
      t.processingBufferLength = 2 ∧
      (processingBufferFilled (fillProcessingBuffer t frame) = true ↔
        t.magnificator.processingBuffer.length = 1) ∧
      (∀ t', processFrame cv t frame = some t' →
        t'.magnificator.processingBuffer.length ≤ 1 ∧
          (processingBufferFilled (fillProcessingBuffer t frame) = true ∨
            ∀ next, processingBufferFilled (fillProcessingBuffer t' next) = true)) ∧
      (SupportedReachable cv t → Supported cv t frame →
        ∃ t', processFrame cv t frame = some t') := by
  have hs := threadReachable_queueShape h
  have hq := queueShape_length hs
  refine ⟨hq, ?_, hs.1, filled_iff t frame hs.1, ?_, ?_⟩
  · rw [hs.1]
    simp only [fillProcessingBuffer, List.length_append, List.length_singleton]
    push_cast
    omega
  · intro t' ht'
    obtain ⟨hs', -, -⟩ := processFrame_queueShape cv t t' frame hs ht'
    refine ⟨queueShape_length hs', ?_⟩
    by_cases h1 : t.magnificator.processingBuffer.length = 1
    · exact Or.inl ((filled_iff t frame hs.1).2 h1)
    · right
      intro next
      have h0 : t.magnificator.processingBuffer = [] := by
        apply List.length_eq_zero.1
        omega
      rw [processFrame_push cv t frame h0 hs.1, Option.some.injEq] at ht'
      subst ht'
      refine (filled_iff
        (fillProcessingBuffer { t with currentFrame := some (Shown.original frame) } frame)
        next hs.1).2 ?_
      show (t.magnificator.processingBuffer ++ [frame]).length = 1
      rw [h0]
      rfl
  · intro hsr hsup
    obtain ⟨t', ht', -⟩ := running_step cv t frame (supportedReachable_running hsr) hsup
    exact ⟨t', ht'⟩

theorem queue_bounded_witness :
    ∃ t1, processFrame bgrStream sampleThread 0 = some t1 ∧
      (setROI t1 tinyROI).1.magnificator.processingBuffer.length ≤ 1 ∧
      ((fillProcessingBuffer (setROI t1 tinyROI).1 1).magnificator.processingBuffer.length : Int) ≤
        (setROI t1 tinyROI).1.processingBufferLength ∧
      (setROI t1 tinyROI).1.processingBufferLength = 2 ∧
      ∃ t', processFrame bgrStream (setROI t1 tinyROI).1 1 = some t' ∧
        t'.magnificator.processingBuffer.length ≤ 1 ∧
        ∀ next, processingBufferFilled (fillProcessingBuffer t' next) = true := by
  obtain ⟨t1, h1⟩ : ∃ t1, processFrame bgrStream sampleThread 0 = some t1 := ⟨_, rfl⟩
  have hsup : ∀ (t : ProcessingThread Nat) (f : Nat), t.magnificator.imgProcFlags = laplaceFlags →
      Supported bgrStream t f := by
    intro t f hf
    unfold Supported
    rw [hf]
    exact ⟨fun h => absurd h (by decide), fun _ _ => ⟨rfl, rfl⟩,
      fun _ h => absurd h (by decide)⟩
  have hflags : t1.magnificator.imgProcFlags = laplaceFlags := by
    have := (processFrame_queueShape bgrStream sampleThread t1 0
      (@threadReachable_queueShape _ bgrStream _
        (.init laplaceFlags sampleSettings sampleROI)) h1).2.1
    rw [this]; rfl
  have hr : SupportedReachable bgrStream (setROI t1 tinyROI).1 :=
    .roi _ tinyROI (.tick _ _ 0 (.init laplaceFlags sampleSettings sampleROI)
      (hsup _ 0 rfl) h1)
  obtain ⟨g1, g2, g3, g4, g5, g6⟩ :=
    queue_bounded bgrStream (setROI t1 tinyROI).1 (supportedReachable_threadReachable hr) 1
  obtain ⟨t', ht'⟩ := g6 hr (hsup _ 1 hflags)
  obtain ⟨k1, k2⟩ := g5 t' ht'
  refine ⟨t1, h1, g1, g2, g3, t', ht', k1, ?_⟩
  rcases k2 with k2 | k2
  · have := g4.1 k2
    exact absurd this (by simp [setROI, clearBuffer])
  · exact k2

/-! ## C21: extraction after a magnification call is safe -/

theorem getFrameLast_of_ne_nil {α : Type} (m : Magnificator α) (h : m.magnifiedBuffer ≠ []) :
    ∃ img m', getFrameLast m = some (img, m') := by
  obtain ⟨x, xs, hx⟩ := List.exists_cons_of_ne_nil h
  have hl : m.magnifiedBuffer.getLast? = some ((x :: xs).getLast (List.cons_ne_nil x xs)) := by
    rw [hx]; exact List.getLast?_eq_getLast _ _
  simp only [getFrameLast, hl]
  exact ⟨_, _, rfl⟩

theorem filled_queue {α : Type} (t : ProcessingThread α) (frame : α) (h : QueueShape t)
    (hfilled : processingBufferFilled (fillProcessingBuffer t frame) = true) :
    ∃ a, (fillProcessingBuffer t frame).magnificator.processingBuffer = [a, frame] := by
  have hlen : t.magnificator.processingBuffer.length = 1 := (filled_iff t frame h.1).1 hfilled
  obtain ⟨a, ha⟩ := List.length_eq_one.1 hlen
  exact ⟨a, by simp [fillProcessingBuffer, ha]⟩

/-- While the loop of `colorMagnify` runs, the frames left in the input queue
are at least as many as the iterations still to come. -/
theorem colorMagnifyLoop_front {α : Type} (p : Int) (k : ℕ) :
    ∀ c c' : ColorLoop α, colorMagnifyLoop p k c = some c' →
      p - c.mag.currentFrame ≤ (c.mag.processingBuffer.length : Int) →
      p - c'.mag.currentFrame ≤ (c'.mag.processingBuffer.length : Int) := by
  induction k with
  | zero =>
    intro c c' h hc
    simp only [colorMagnifyLoop, Option.some.injEq] at h
    subst h; exact hc
  | succ k ih =>
    intro c c' h hc
    simp only [colorMagnifyLoop] at h
    split at h
    · cases hb : colorMagnifyBody c with
      | none => rw [hb] at h; exact Option.noConfusion h
      | some c1 =>
        rw [hb] at h
        refine ih c1 c' h ?_
        obtain ⟨-, input, rest, hq, rfl⟩ := colorMagnifyBody_some c c1 hb
        rw [hq] at hc
        simp only [List.length_cons] at hc ⊢
        push_cast at hc
        omega
    · simp only [Option.some.injEq] at h
      subst h; exact hc

/-- The same for the loop of `laplaceMagnify`, whose first-frame branch erases
nothing. -/
theorem laplaceMagnifyLoop_front {α : Type} (cv : Vision α) (p : Int) (k : ℕ) :
    ∀ m m' : Magnificator α, laplaceMagnifyLoop cv p k m = some m' →
      p - m.currentFrame ≤ (m.processingBuffer.length : Int) →
      p - m'.currentFrame ≤ (m'.processingBuffer.length : Int) := by
  induction k with
  | zero =>
    intro m m' h hc
    simp only [laplaceMagnifyLoop, Option.some.injEq] at h
    subst h; exact hc
  | succ k ih =>
    intro m m' h hc
    simp only [laplaceMagnifyLoop] at h
    split at h
    · cases hb : laplaceMagnifyBody cv m with
      | none => rw [hb] at h; exact Option.noConfusion h
      | some m1 =>
        rw [hb] at h
        refine ih m1 m' h ?_
        obtain ⟨input, rest, hq, -, -⟩ := laplaceMagnifyBody_some cv m m1 hb
        obtain ⟨e, hc1, -, -, -⟩ := laplaceMagnifyBody_effect cv m m1 input rest hq hb
        rw [hc1, e.1]
        rw [hq] at hc
        simp only [List.length_cons] at hc
        push_cast at hc
        split
        · simp only [List.length_cons]; push_cast; omega
        · omega
    · simp only [Option.some.injEq] at h
      subst h; exact hc

/-- The same for the loop of `rieszMagnify`. -/
theorem rieszMagnifyLoop_front {α : Type} (cv : Vision α) (p : Int) (k : ℕ) :
    ∀ m m' : Magnificator α, rieszMagnifyLoop cv p k m = some m' →
      p - m.currentFrame ≤ (m.processingBuffer.length : Int) →
      p - m'.currentFrame ≤ (m'.processingBuffer.length : Int) := by
  induction k with
  | zero =>
    intro m m' h hc
    simp only [rieszMagnifyLoop, Option.some.injEq] at h
    subst h; exact hc
  | succ k ih =>
    intro m m' h hc
    simp only [rieszMagnifyLoop] at h
    split at h
    · cases hb : rieszMagnifyBody cv m with
      | none => rw [hb] at h; exact Option.noConfusion h
      | some m1 =>
        rw [hb] at h
        refine ih m1 m' h ?_
        obtain ⟨input, rest, hq, -⟩ := rieszMagnifyBody_some cv m m1 hb
        obtain ⟨e, hc1, -⟩ := rieszMagnifyBody_effect cv m m1 input rest hq hb
        rw [hc1, e.1]
        rw [hq] at hc
        simp only [List.length_cons] at hc
        push_cast at hc
        split
        · omega
        · simp only [List.length_cons]; push_cast; omega
    · simp only [Option.some.injEq] at h
      subst h; exact hc

theorem ne_nil_of_lt {β : Type} (q : List β) (p c : Int) (h : p - c ≤ (q.length : Int))
    (hlt : c < p) : q ≠ [] := by
  intro hq
  rw [hq] at h
  simp only [List.length_nil, Nat.cast_zero] at h
  omega

/-- C21: in every state reachable from a fresh thread by iterations of the loop
and the three reconfiguration calls, when the pushed frame fills the input
queue: whenever the routine selected by the flags (color before Laplace before
Riesz) returns, it leaves the magnified buffer non-empty, so the `getFrameLast`
call that follows returns a frame; every iteration the loop of a routine
starts (after any number `k` of iterations, when the loop test holds) finds the
input queue non-empty, so no routine reads the front of an empty queue; and the
selected routine returns whenever the frame, and the frames of the iterations
before it, are frames the routine supports. -/
theorem extraction_safe {α : Type} (cv : Vision α) (t : ProcessingThread α)
    (h : ThreadReachable cv t) (frame : α)
    (hfilled : processingBufferFilled (fillProcessingBuffer t frame) = true) :
    (t.magnificator.imgProcFlags.colorMagnifyOn = true →
        ∀ m, colorMagnify (fillProcessingBuffer t frame).magnificator = some m →
          m.magnifiedBuffer ≠ [] ∧ ∃ img m', getFrameLast m = some (img, m')) ∧
      (t.magnificator.imgProcFlags.colorMagnifyOn = false →
        t.magnificator.imgProcFlags.laplaceMagnifyOn = true →
        ∀ m, laplaceMagnify cv (fillProcessingBuffer t frame).magnificator = some m →
          m.magnifiedBuffer ≠ [] ∧ ∃ img m', getFrameLast m = some (img, m')) ∧
      (t.magnificator.imgProcFlags.colorMagnifyOn = false →
        t.magnificator.imgProcFlags.laplaceMagnifyOn = false →
        t.magnificator.imgProcFlags.rieszMagnifyOn = true →
        ∀ m, rieszMagnify cv (fillProcessingBuffer t frame).magnificator = some m →
          m.magnifiedBuffer ≠ [] ∧ ∃ img m', getFrameLast m = some (img, m')) ∧
      (∀ k c,
        colorMagnifyLoop
            ((fillProcessingBuffer t frame).magnificator.processingBuffer.length : Int) k
            { mag := { (fillProcessingBuffer t frame).magnificator with
                levels := (fillProcessingBuffer t frame).magnificator.imgProcSettings.levels }
              inputFrames := []
              offset := 0 } = some c →
        c.mag.currentFrame <
          ((fillProcessingBuffer t frame).magnificator.processingBuffer.length : Int) →
        c.mag.processingBuffer ≠ []) ∧
      (∀ k m,
        laplaceMagnifyLoop cv
            ((fillProcessingBuffer t frame).magnificator.processingBuffer.length : Int) k
            { (fillProcessingBuffer t frame).magnificator with
              levels := (fillProcessingBuffer t frame).magnificator.imgProcSettings.levels } =
          some m →
        m.currentFrame <
          ((fillProcessingBuffer t frame).magnificator.processingBuffer.length : Int) →
        m.processingBuffer ≠ []) ∧
      (∀ k m,
        rieszMagnifyLoop cv
            ((fillProcessingBuffer t frame).magnificator.processingBuffer.length : Int) k
            { (fillProcessingBuffer t frame).magnificator with
              levels := (fillProcessingBuffer t frame).magnificator.imgProcSettings.levels } =
          some m →
        m.currentFrame <
          ((fillProcessingBuffer t frame).magnificator.processingBuffer.length : Int) →
        m.processingBuffer ≠ []) ∧
      (SupportedReachable cv t → Supported cv t frame →
        (t.magnificator.imgProcFlags.colorMagnifyOn = true →
          ∃ m, colorMagnify (fillProcessingBuffer t frame).magnificator = some m) ∧
        (t.magnificator.imgProcFlags.colorMagnifyOn = false →
          t.magnificator.imgProcFlags.laplaceMagnifyOn = true →
          ∃ m, laplaceMagnify cv (fillProcessingBuffer t frame).magnificator = some m) ∧
        (t.magnificator.imgProcFlags.colorMagnifyOn = false →
          t.magnificator.imgProcFlags.laplaceMagnifyOn = false →
          t.magnificator.imgProcFlags.rieszMagnifyOn = true →
          ∃ m, rieszMagnify cv (fillProcessingBuffer t frame).magnificator = some m)) := by
  have hs := threadReachable_queueShape h
  obtain ⟨a, hq⟩ := filled_queue t frame hs hfilled
  have hqa : t.magnificator.processingBuffer = [a] := by
    have hlen := (filled_iff t frame hs.1).1 hfilled
    obtain ⟨b, hb⟩ := List.length_eq_one.1 hlen
    have : (fillProcessingBuffer t frame).magnificator.processingBuffer = [b, frame] := by
      simp [fillProcessingBuffer, hb]
    rw [hq] at this
    rw [hb, (List.cons.inj this).1]
  have hcur : (fillProcessingBuffer t frame).magnificator.currentFrame = 0 ∨
      (fillProcessingBuffer t frame).magnificator.currentFrame = 1 := by
    rcases hs.2 with ⟨-, -, h3⟩ | ⟨-, -, h3⟩
    · exact Or.inl h3
    · exact Or.inr h3
  have hfront : ((fillProcessingBuffer t frame).magnificator.processingBuffer.length : Int) -
      (fillProcessingBuffer t frame).magnificator.currentFrame ≤
        ((fillProcessingBuffer t frame).magnificator.processingBuffer.length : Int) := by
    rcases hcur with hc | hc <;> rw [hc] <;> omega
  refine ⟨?_, ?_, ?_, ?_, ?_, ?_, ?_⟩
  · intro _ m hm
    obtain ⟨e0, e1⟩ := colorMagnify_effect _ m a frame hq hm
    have hne : m.magnifiedBuffer ≠ [] := by
      rcases hcur with hc | hc
      · exact roundEffect_ne_nil (e0 hc).2 (by simp)
      · exact roundEffect_ne_nil (e1 hc).2 (by simp)
    exact ⟨hne, getFrameLast_of_ne_nil m hne⟩
  · intro _ _ m hm
    obtain ⟨e0, e1⟩ := laplaceMagnify_effect cv _ m a frame hq hm
    have hne : m.magnifiedBuffer ≠ [] := by
      rcases hcur with hc | hc
      · exact roundEffect_ne_nil (e0 hc) (by simp)
      · exact roundEffect_ne_nil (e1 hc) (by simp)
    exact ⟨hne, getFrameLast_of_ne_nil m hne⟩
  · intro _ _ _ m hm
    obtain ⟨e0, e1⟩ := rieszMagnify_effect cv _ m a frame hq hm
    have hne : m.magnifiedBuffer ≠ [] := by
      rcases hcur with hc | hc
      · exact roundEffect_ne_nil (e0 hc) (by simp)
      · exact roundEffect_ne_nil (e1 hc) (by simp)
    exact ⟨hne, getFrameLast_of_ne_nil m hne⟩
  · intro k c hloop hlt
    exact ne_nil_of_lt _ _ _ (colorMagnifyLoop_front _ k _ c hloop hfront) hlt
  · intro k m hloop hlt
    exact ne_nil_of_lt _ _ _ (laplaceMagnifyLoop_front cv _ k _ m hloop hfront) hlt
  · intro k m hloop hlt
    exact ne_nil_of_lt _ _ _ (rieszMagnifyLoop_front cv _ k _ m hloop hfront) hlt
  · intro hsr hsup
    obtain ⟨t', ht', -⟩ := running_step cv t frame (supportedReachable_running hsr) hsup
    rw [processFrame_filled cv t a frame hqa hs.1] at ht'
    refine ⟨?_, ?_, ?_⟩
    · intro h1
      rw [if_pos h1] at ht'
      cases hm : colorMagnify (fillProcessingBuffer
          { t with currentFrame := some (Shown.original frame) } frame).magnificator with
      | none => rw [hm] at ht'; exact Option.noConfusion ht'
      | some m => exact ⟨m, hm⟩
    · intro h1 h2
      rw [if_neg (by simp [h1]), if_pos h2] at ht'
      cases hm : laplaceMagnify cv (fillProcessingBuffer
          { t with currentFrame := some (Shown.original frame) } frame).magnificator with
      | none => rw [hm] at ht'; exact Option.noConfusion ht'
      | some m => exact ⟨m, hm⟩
    · intro h1 h2 h3
      rw [if_neg (by simp [h1]), if_neg (by simp [h2]), if_pos h3] at ht'
      cases hm : rieszMagnify cv (fillProcessingBuffer
          { t with currentFrame := some (Shown.original frame) } frame).magnificator with
      | none => rw [hm] at ht'; exact Option.noConfusion ht'
      | some m => exact ⟨m, hm⟩

theorem extraction_safe_witness :
    ∃ t, processFrame bgrStream sampleThread 0 = some t ∧
      processingBufferFilled (fillProcessingBuffer t 1) = true ∧
      ∃ m img m', laplaceMagnify bgrStream (fillProcessingBuffer t 1).magnificator = some m ∧
        m.magnifiedBuffer ≠ [] ∧ getFrameLast m = some (img, m') := by
  obtain ⟨t, ht, hfilled, hcol, hlap⟩ :
      ∃ t, processFrame bgrStream sampleThread 0 = some t ∧
        processingBufferFilled (fillProcessingBuffer t 1) = true ∧
        t.magnificator.imgProcFlags.colorMagnifyOn = false ∧
        t.magnificator.imgProcFlags.laplaceMagnifyOn = true :=
    ⟨_, rfl, rfl, rfl, rfl⟩
  have hsup0 : Supported bgrStream sampleThread 0 :=
    ⟨fun h => absurd h (by decide), fun _ _ => ⟨rfl, rfl⟩, fun _ h => absurd h (by decide)⟩
  have hsup1 : Supported bgrStream t 1 := by
    refine ⟨fun h => ?_, fun _ _ => ⟨?_, rfl⟩, fun _ h => ?_⟩
    · rw [hcol] at h; exact absurd h (by decide)
    · have := (processFrame_queueShape bgrStream sampleThread t 0
        (@threadReachable_queueShape _ bgrStream _
          (.init laplaceFlags sampleSettings sampleROI)) ht).2.1
      rw [this]; rfl
    · rw [hlap] at h; exact absurd h (by decide)
  have hr : SupportedReachable bgrStream t :=
    .tick _ _ 0 (.init laplaceFlags sampleSettings sampleROI) hsup0 ht
  obtain ⟨-, g2, -, -, -, -, g7⟩ :=
    extraction_safe bgrStream t (supportedReachable_threadReachable hr) 1 hfilled
  obtain ⟨m, hm⟩ := (g7 hr hsup1).2.1 hcol hlap
  obtain ⟨hne, img, m', hg⟩ := g2 hcol hlap m hm
  exact ⟨t, ht, hfilled, m, img, m', hm, hne, hg⟩

end EVM
